import Mathlib

/-!
# Verification of the level simulation core (level.cpp)

Shallow embedding of the solidity index, the entity registry and the
snapshot ring of `level.cpp`, followed by theorems about them.

Conventions of the embedding:

* C++ `int` is `Int`; `/` and `%` on `int` truncate toward zero and are
  `Int.tdiv` and `Int.tmod`.  Coordinates stay far from the 32-bit limits, so
  no wrap-around is modelled.
* `TileSize` is declared in a header that is not part of the sources at hand;
  every function that uses it takes it as its first argument `T`.
* `level_solid_map` is a finite map from cell keys to records; it is embedded
  as a function from keys to optional records.
-/

namespace Anura

/-! ## Solidity index: data model -/

/-- Cell key `tile_pos`: (column, row). -/
abbrev tile_pos := Int × Int

/-- Surface metadata `surface_info` of one cell. The field `info` is the
interned surface tag (a null pointer when no tag was ever given). -/
structure surface_info where
  friction : Int
  traction : Int
  damage : Int
  info : Option String
deriving DecidableEq

/-- Solidity record `tile_solid_info` of one cell. The member `bitmap` is a
`std::bitset<TileSize*TileSize>`; it is embedded as the set of indices whose
bit is set. -/
structure tile_solid_info where
  bitmap : Finset Int
  all_solid : Bool
  info : surface_info
deriving DecidableEq

/-- Modelled from the spec: the default constructor of `tile_solid_info`,
declared in the absent header `level_solid_map.hpp`. A fresh record is solid
nowhere and carries the default damage, the negative value that the guards
`damage >= 0` of `set_solid` and `add_solid_rect` test for. -/
def tile_solid_info.fresh : tile_solid_info :=
  { bitmap := ∅, all_solid := false,
    info := { friction := 0, traction := 0, damage := -1, info := none } }

/-- The sparse map `level_solid_map`. -/
abbrev level_solid_map := tile_pos → Option tile_solid_info

/-- The map with no record at all. -/
def level_solid_map.empty : level_solid_map := fun _ => none

/-- Lookup `level_solid_map::find`: the record of a cell, if any. -/
def level_solid_map.find (m : level_solid_map) (pos : tile_pos) : Option tile_solid_info :=
  m pos

/-- Lookup `level_solid_map::insert_or_find`: the record of a cell, a fresh
one being created when the cell has none. The C++ returns a reference; the
embedding reads the record here and writes it back with `store`. -/
def level_solid_map.insert_or_find (m : level_solid_map) (pos : tile_pos) : tile_solid_info :=
  (m pos).getD tile_solid_info.fresh

/-- Write a record back through the reference obtained from `insert_or_find`. -/
def level_solid_map.store (m : level_solid_map) (pos : tile_pos) (s : tile_solid_info) :
    level_solid_map :=
  fun q => if q = pos then some s else m q

/-- The bitset with every one of its `TileSize*TileSize` bits set (`bitmap.set()`). -/
def bitmap_all (T : Int) : Finset Int := Finset.Ico 0 (T * T)

/-- One axis of the pixel-to-cell resolution shared by `is_solid`, `set_solid`
and `may_be_solid_in_rect`: `pos = x/TileSize; x = x%TileSize;
if(x < 0) { pos--; x += TileSize; }`. Returns (cell coordinate, in-cell offset). -/
def cell_and_offset (T x : Int) : Int × Int :=
  let pos := x.tdiv T
  let r := x.tmod T
  if r < 0 then (pos - 1, r + T) else (pos, r)

/-- The damage merge of `set_solid` and `add_solid_rect`:
`if(damage >= 0) damage = min(damage, d); else damage = d;`. -/
def merge_damage (stored d : Int) : Int :=
  if stored ≥ 0 then min stored d else d

/-- The tag update `if(info_str.empty() == false) info.info = get_info_str(info_str)`. -/
def update_tag (stored : Option String) (info_str : String) : Option String :=
  if info_str.isEmpty = false then some info_str else stored

namespace level

/-! ## Solidity index: operations -/

/-- Point query `level::is_solid(map, x, y, surf_info)`. The result is
`some info` when the C++ returns true (having stored `&info->info` in
`*surf_info`) and `none` when it returns false. -/
def is_solid (T : Int) (map : level_solid_map) (x y : Int) : Option surface_info :=
  let cx := cell_and_offset T x
  let cy := cell_and_offset T y
  let pos : tile_pos := (cx.1, cy.1)
  match map.find pos with
  | some info =>
    if info.all_solid then some info.info
    else
      let index := cy.2 * T + cx.2
      if index ∈ info.bitmap then some info.info else none
  | none => none

/-- Pixel write `level::set_solid(map, x, y, friction, traction, damage, info_str, solid)`. -/
def set_solid (T : Int) (map : level_solid_map) (x y friction traction damage : Int)
    (info_str : String) (solid : Bool) : level_solid_map :=
  let cx := cell_and_offset T x
  let cy := cell_and_offset T y
  let pos : tile_pos := (cx.1, cy.1)
  let index := cy.2 * T + cx.2
  let info := map.insert_or_find pos
  let info := { info with info := { info.info with damage := merge_damage info.info.damage damage } }
  let info :=
    if solid then
      { info with
        info := { info.info with friction := friction, traction := traction }
        bitmap := insert index info.bitmap }
    else
      let info := if info.all_solid then { info with all_solid := false, bitmap := bitmap_all T } else info
      { info with bitmap := info.bitmap.erase index }
  let info := { info with info := { info.info with info := update_tag info.info.info info_str } }
  map.store pos info

/-- The values taken by the loop variable of `for(int v = lo; v < hi; ++v)`. -/
def loop_range (lo hi : Int) : List Int :=
  (List.range (hi - lo).toNat).map (fun (k : Nat) => lo + (k : Int))

/-- The values taken by the loop variable of `for(int v = lo; v < hi; v += step)`
for a positive `step`. -/
def loop_range_step (lo hi step : Int) : List Int :=
  (List.range ((hi - lo + step - 1) / step).toNat).map (fun (k : Nat) => lo + (k : Int) * step)

/-- Pixel write `level::add_solid(x, y, ...)` on the member `solid_`. -/
def add_solid (T : Int) (solid_ : level_solid_map) (x y friction traction damage : Int)
    (info : String) : level_solid_map :=
  set_solid T solid_ x y friction traction damage info true

/-- The body of the inner loop of the tile-aligned branch of `add_solid_rect`:
the whole cell of pixel `(x, y)` becomes `all_solid`. -/
def add_solid_rect_cell (T : Int) (solid_ : level_solid_map) (x y friction traction damage : Int)
    (info_str : String) : level_solid_map :=
  let pos : tile_pos := (x.tdiv T, y.tdiv T)
  let s := solid_.insert_or_find pos
  let s := { s with all_solid := true }
  let s := { s with info := { s.info with friction := friction, traction := traction } }
  let s := { s with info := { s.info with damage := merge_damage s.info.damage damage } }
  let s := { s with info := { s.info with info := update_tag s.info.info info_str } }
  solid_.store pos s

/-- Rectangle write `level::add_solid_rect(x1, y1, x2, y2, ...)` on the member
`solid_`: pixel by pixel when a coordinate is not a multiple of `TileSize`,
cell by cell otherwise. -/
def add_solid_rect (T : Int) (solid_ : level_solid_map) (x1 y1 x2 y2 friction traction damage : Int)
    (info_str : String) : level_solid_map :=
  if x1.tmod T ≠ 0 ∨ y1.tmod T ≠ 0 ∨ x2.tmod T ≠ 0 ∨ y2.tmod T ≠ 0 then
    (loop_range y1 y2).foldl
      (fun m y => (loop_range x1 x2).foldl
        (fun m x => add_solid T m x y friction traction damage info_str) m)
      solid_
  else
    (loop_range_step y1 y2 T).foldl
      (fun m y => (loop_range_step x1 x2 T).foldl
        (fun m x => add_solid_rect_cell T m x y friction traction damage info_str) m)
      solid_

/-- Point query `level::solid(x, y, info)` on the member `solid_`. -/
def solid (T : Int) (solid_ : level_solid_map) (x y : Int) : Option surface_info :=
  is_solid T solid_ x y

/-- One write to the solidity index: a call of `set_solid` or a call of
`add_solid_rect`, with its arguments. -/
inductive solid_write where
  | pixel (x y friction traction damage : Int) (info_str : String) (solid : Bool)
  | rect (x1 y1 x2 y2 friction traction damage : Int) (info_str : String)

/-- The damage argument of a write. -/
def solid_write.damage : solid_write → Int
  | .pixel _ _ _ _ d _ _ => d
  | .rect _ _ _ _ _ _ d _ => d

/-- Perform one write on a map. -/
def solid_write.run (T : Int) (m : level_solid_map) : solid_write → level_solid_map
  | .pixel x y f t d s b => set_solid T m x y f t d s b
  | .rect x1 y1 x2 y2 f t d s => add_solid_rect T m x1 y1 x2 y2 f t d s

/-- A write touches a cell when, performed on the empty map, it leaves a
record in that cell (both functions reach a cell only through
`insert_or_find`, which creates the record). -/
def solid_write.touches (T : Int) (w : solid_write) (c : tile_pos) : Bool :=
  ((w.run T level_solid_map.empty) c).isSome

/-- Perform a sequence of writes, first to last. -/
def run_writes (T : Int) (m : level_solid_map) (ws : List solid_write) : level_solid_map :=
  ws.foldl (solid_write.run T) m

/-- The pairs (x, y) visited by `for y in ys { for x in xs { ... } }`, in order. -/
def loop_grid (xs ys : List Int) : List (Int × Int) :=
  match ys with
  | [] => []
  | y :: rest => xs.map (fun x => (x, y)) ++ loop_grid xs rest

/-- The record that the tile-aligned branch of `add_solid_rect` leaves in a
cell whose record was `s`. -/
def rect_cell_record (friction traction damage : Int) (info_str : String)
    (s : tile_solid_info) : tile_solid_info :=
  { bitmap := s.bitmap, all_solid := true,
    info := { friction := friction, traction := traction,
              damage := merge_damage s.info.damage damage,
              info := update_tag s.info.info info_str } }

/-- The cells that a write reaches, one entry for each call of `insert_or_find`
it makes, in order. -/
def solid_write.cells (T : Int) : solid_write → List tile_pos
  | .pixel x y _ _ _ _ _ => [((cell_and_offset T x).1, (cell_and_offset T y).1)]
  | .rect x1 y1 x2 y2 _ _ _ _ =>
    if x1.tmod T ≠ 0 ∨ y1.tmod T ≠ 0 ∨ x2.tmod T ≠ 0 ∨ y2.tmod T ≠ 0 then
      (loop_grid (loop_range x1 x2) (loop_range y1 y2)).map
        (fun p => ((cell_and_offset T p.1).1, (cell_and_offset T p.2).1))
    else
      (loop_grid (loop_range_step x1 x2 T) (loop_range_step y1 y2 T)).map
        (fun p => (p.1.tdiv T, p.2.tdiv T))

end level

/-! ## Entities, snapshots and the level state -/

/-- The part of an entity object that the level core reads. An `entity_ptr` is
embedded as the value of the object it points to; the field `id` stands
for the address of the object, so that pointer comparison is comparison of
`id`. The field `refs` lists the objects this one refers to, `state` is the
behavioural state that only entity code interprets. -/
structure entity where
  id : Nat
  label : String
  x : Int
  y : Int
  is_human : Bool
  group : Int
  refs : List Nat
  state : Nat
deriving DecidableEq

/-- A group bucket `entity_group`. -/
abbrev entity_group := List entity

/-- One element `backup_snapshot` of the history ring. -/
structure backup_snapshot where
  rng_seed : Nat
  cycle : Int
  chars : List entity
  players : List entity
  player : Option entity
  groups : List entity_group
  last_touched_player : Option entity
deriving DecidableEq

/-- The members of `level` that the registry and the snapshot engine use,
together with the seed of the global generator `rng`. The map
`chars_by_label_` is an association list with at most one entry a key. The
deque `backups_` is a list, oldest snapshot first. -/
structure level where
  cycle_ : Int
  paused_ : Bool
  rng_seed : Nat
  chars_ : List entity
  players_ : List entity
  player_ : Option entity
  last_touched_player_ : Option entity
  groups_ : List entity_group
  chars_by_label_ : List (String × entity)
  active_chars_ : List entity
  solid_chars_ : List entity
  backups_ : List backup_snapshot
deriving DecidableEq

/-- Code that `level.cpp` calls and whose source is not at hand: entity
methods and the entity processing inside `do_processing`. -/
structure collaborators where
  /-- The clone made by `entity::backup()`. -/
  entity_backup : entity → entity
  /-- The behavioural state of an entity after `handle_event(OBJECT_EVENT_LOAD)`. -/
  on_load : entity → Nat
  /-- The effect of `handle_event(OBJECT_EVENT_START_LEVEL)` and
  `create_object()` on every entity, at cycle 0. -/
  start_level : level → level
  /-- The effect of the rest of `do_processing` once the counter is advanced:
  active set, collisions, `process` of every active entity, water. -/
  process_chars : level → level
  /-- Whether an assertion fails inside `process()` under `assert_recover_scope`. -/
  validation_failure : level → Bool
  /-- The state in which such a failing `process()` leaves the level. -/
  aborted_process : level → level

/-- How a call ends: normally, on a failed `ASSERT_*`, or (in the embedding
of an unbounded loop) with the iteration budget used up. -/
inductive outcome (α : Type) where
  | done (a : α)
  | assertion_failed
  | out_of_fuel
deriving DecidableEq

/-- Assignment `m[key] = e` on `chars_by_label_`. -/
def label_assign (m : List (String × entity)) (key : String) (e : entity) :
    List (String × entity) :=
  (key, e) :: m.filter (fun kv => kv.1 ≠ key)

/-- Modelled from the spec: `entity::map_entities(entity_map)`, whose source is
absent: the cross references held by a clone are remapped through the map
from live objects to clones; a reference to an object that has no clone is
kept. -/
def entity.map_entities (entity_map : List (Nat × entity)) (e : entity) : entity :=
  { e with refs := e.refs.map (fun r => match entity_map.lookup r with
                                        | some c => c.id
                                        | none => r) }

/-- Modelled from the spec: `handle_event(OBJECT_EVENT_LOAD)`, whose source is
absent: the notification lets collaborators re-attach transient resources; it
acts on the behavioural state of the entity. -/
def entity.handle_event_load (env : collaborators) (e : entity) : entity :=
  { e with state := env.on_load e }

namespace level

/-- Apply `f` to every object of the live registry whose address is in `ids`,
through every member that points to it. -/
def update_objects (ids : List Nat) (f : entity → entity) (L : level) : level :=
  let g : entity → entity := fun e => if e.id ∈ ids then f e else e
  { L with
    chars_ := L.chars_.map g
    players_ := L.players_.map g
    player_ := L.player_.map g
    last_touched_player_ := L.last_touched_player_.map g
    groups_ := L.groups_.map (fun grp => grp.map g)
    chars_by_label_ := L.chars_by_label_.map (fun kv => (kv.1, g kv.2))
    active_chars_ := L.active_chars_.map g
    solid_chars_ := L.solid_chars_.map g }

/-- The map `entity_map` built by the first loop of `backup()`: one
assignment `entity_map[e] = clone` for each live entity, in order. -/
def backup_entity_map (env : collaborators) (chars : List entity) : List (Nat × entity) :=
  chars.foldl
    (fun m e => (e.id, env.entity_backup e) :: m.filter (fun kv => kv.1 ≠ e.id)) []

/-- The player recorded by the first loop of `backup()`: the clone of the last
live entity that is `player_` and whose clone is human. -/
def backup_player (env : collaborators) (L : level) : Option entity :=
  L.chars_.foldl
    (fun acc e =>
      if (env.entity_backup e).is_human ∧ L.player_.map (fun p => p.id) = some e.id
      then some (env.entity_backup e) else acc) none

/-- The snapshot that `backup()` builds from the live state (lines 4230 to
4265). The clones are created by `entity::backup()`; `players`, `player` and
`groups` point to these clones, and `map_entities` is then run on every clone,
so each of them is listed in its final state. `last_touched_player` is the
live pointer, copied as it is. -/
def take_snapshot (env : collaborators) (L : level) : backup_snapshot :=
  let entity_map := backup_entity_map env L.chars_
  let finish : entity → entity := entity.map_entities entity_map
  let clones := L.chars_.map env.entity_backup
  { rng_seed := L.rng_seed
    cycle := L.cycle_
    chars := clones.map finish
    players := (clones.filter (fun c => c.is_human)).map finish
    player := (backup_player env L).map finish
    groups := L.groups_.map (fun g => g.filterMap (fun e =>
      (entity_map.lookup e.id).map finish))
    last_touched_player := L.last_touched_player_ }

/-- The end of `backup()` (lines 4267 to 4279): `backups_.push_back(snapshot)`,
then, when `backups_.size() > 250`, the oldest snapshot is erased. -/
def ring_push (ring : List backup_snapshot) (snapshot : backup_snapshot) : List backup_snapshot :=
  let ring := ring ++ [snapshot]
  if ring.length > 250 then ring.drop 1 else ring

/-- Snapshot of the current cycle, `level::backup()`. Nothing happens when the
newest snapshot already has the current cycle; otherwise a snapshot is
appended and, when the ring then holds more than 250, the oldest one is
erased (its entities drop their references first; they are reachable from
nowhere else). -/
def backup (env : collaborators) (L : level) : level :=
  match L.backups_.getLast? with
  | some newest =>
    if newest.cycle = L.cycle_ then L
    else { L with backups_ := ring_push L.backups_ (take_snapshot env L) }
  | none => { L with backups_ := ring_push L.backups_ (take_snapshot env L) }

/-- Cycle of the oldest snapshot, `level::earliest_backup_cycle()`. -/
def earliest_backup_cycle (L : level) : Int :=
  match L.backups_.head? with
  | none => L.cycle_
  | some oldest => oldest.cycle

/-- The label index rebuilt by `restore_from_backup`: one assignment for each
entity with a non-empty label, in the order of `chars_`. -/
def rebuild_labels (chars : List entity) : List (String × entity) :=
  chars.foldl (fun m e => if e.label.isEmpty = false then label_assign m e.label e else m) []

/-- Restore a snapshot, `level::restore_from_backup(snapshot)`. The clones of
the snapshot become the live objects; the load event is then run on each of
them. -/
def restore_from_backup (env : collaborators) (L : level) (snapshot : backup_snapshot) : level :=
  let L1 : level :=
    { L with
      rng_seed := snapshot.rng_seed
      cycle_ := snapshot.cycle
      chars_ := snapshot.chars
      players_ := snapshot.players
      player_ := snapshot.player
      groups_ := snapshot.groups
      last_touched_player_ := snapshot.last_touched_player
      active_chars_ := []
      solid_chars_ := []
      chars_by_label_ := rebuild_labels snapshot.chars }
  update_objects (snapshot.chars.map (fun e => e.id)) (entity.handle_event_load env) L1

/-- One step back, `level::reverse_one_cycle()`. -/
def reverse_one_cycle (env : collaborators) (L : level) : level :=
  match L.backups_.getLast? with
  | none => L
  | some newest =>
    { restore_from_backup env L newest with backups_ := L.backups_.dropLast }

/-- The loop `while(backups_.size() > 1 && backups_.back()->cycle > ncycle)
backups_.pop_back();` of `reverse_to_cycle`, run on the ring listed newest
snapshot first. -/
def pop_newer (ncycle : Int) : List backup_snapshot → List backup_snapshot
  | [] => []
  | newest :: older =>
    if older ≠ [] ∧ newest.cycle > ncycle then pop_newer ncycle older else newest :: older

/-- Rewind, `level::reverse_to_cycle(ncycle)`. -/
def reverse_to_cycle (env : collaborators) (L : level) (ncycle : Int) : level :=
  if L.backups_ = [] then L
  else reverse_one_cycle env { L with backups_ := (pop_newer ncycle L.backups_.reverse).reverse }

/-- One simulation step, `level::do_processing()`. The entity code that it
runs (the start events at cycle 0, then the processing of the entities, each
called with `process(*this)`) receives the level and may write every member
of it, the counter `cycle_`, the flag `paused_` and the ring `backups_`
included: the level after it is the one that `env` returns. -/
def do_processing (env : collaborators) (L : level) : level :=
  let L := if L.cycle_ = 0 then env.start_level L else L
  let L := if ¬ L.paused_ then { L with cycle_ := L.cycle_ + 1 } else L
  if L.player_.isNone then L
  else env.process_chars L

/-- Entity code that leaves the engine alone: neither the start events nor the
processing of the entities write the counter `cycle_`, the flag `paused_` or
the ring `backups_`. -/
def entity_code_keeps_engine (env : collaborators) : Prop :=
  ∀ L : level,
    ((env.start_level L).cycle_ = L.cycle_ ∧ (env.start_level L).paused_ = L.paused_
      ∧ (env.start_level L).backups_ = L.backups_)
    ∧ ((env.process_chars L).cycle_ = L.cycle_ ∧ (env.process_chars L).paused_ = L.paused_
      ∧ (env.process_chars L).backups_ = L.backups_)

/-- The body `backup(); do_processing();` of the loop of `replay_from_cycle`. -/
def replay_step (env : collaborators) (L : level) : level :=
  do_processing env (backup env L)

/-- The loop `while(cycle_ < cycle_to_play_until) { backup(); do_processing(); }`
of `replay_from_cycle`, with a budget of iterations. -/
def replay_loop (env : collaborators) (cycle_to_play_until : Int) : Nat → level → outcome level
  | 0, L => if L.cycle_ < cycle_to_play_until then .out_of_fuel else .done L
  | fuel + 1, L =>
    if L.cycle_ < cycle_to_play_until then
      replay_loop env cycle_to_play_until fuel (replay_step env L)
    else .done L

/-- Replay, `level::replay_from_cycle(ncycle)`, with a budget of iterations for
its loop. The difference `cycle_ - ncycle` and the index are computed in the
integers: the embedding covers the calls in which they are representable in
the 32-bit `int` of the source (a signed overflow is undefined there). -/
def replay_from_cycle (env : collaborators) (fuel : Nat) (L : level) (ncycle : Int) :
    outcome level :=
  let cycles_ago := L.cycle_ - ncycle
  if cycles_ago ≤ 0 then .done L
  else
    let index : Int := (L.backups_.length : Int) - cycles_ago
    if index < 0 then .assertion_failed
    else
      match L.backups_.get? index.toNat with
      | none => .assertion_failed
      | some snapshot =>
        let cycle_to_play_until := L.cycle_
        let L1 := restore_from_backup env L snapshot
        if L1.cycle_ ≠ ncycle then .assertion_failed
        else
          replay_loop env cycle_to_play_until fuel
            { L1 with backups_ := L.backups_.take index.toNat }

/-- The loop at the end of `trace_past`, run on the ring listed newest first:
for each snapshot of cycle at least `ncycle`, unless its cycle repeats the
cycle just visited, the first clone whose label is that of `e`. -/
def trace_loop (label : String) (ncycle : Int) : Int → List backup_snapshot → List entity
  | _, [] => []
  | prev_cycle, snapshot :: older =>
    if snapshot.cycle ≥ ncycle then
      if prev_cycle ≠ -1 ∧ snapshot.cycle = prev_cycle then
        trace_loop label ncycle prev_cycle older
      else
        match snapshot.chars.find? (fun ghost => ghost.label = label) with
        | some ghost => ghost :: trace_loop label ncycle snapshot.cycle older
        | none => trace_loop label ncycle snapshot.cycle older
    else []

/-- Past positions, `level::trace_past(e, ncycle)`: the clones found and the
level after the call (the call starts with `backup()`). -/
def trace_past (env : collaborators) (L : level) (e : entity) (ncycle : Int) :
    List entity × level :=
  let L := backup env L
  (trace_loop e.label ncycle (-1) L.backups_.reverse, L)

/-- One pass of `level::process()`: the members embedded here are changed by
its call of `do_processing()` only. -/
def process (env : collaborators) (L : level) : level :=
  do_processing env L

/-- The loop `while(cycle_ < controls_end)` of `predict_future`, with a budget
of iterations: `process(); backup();`, left at once when `process()` raises a
validation failure. -/
def predict_loop (env : collaborators) (controls_end : Int) : Nat → level → outcome level
  | 0, L => if L.cycle_ < controls_end then .out_of_fuel else .done L
  | fuel + 1, L =>
    if L.cycle_ < controls_end then
      if env.validation_failure L then
        .done (env.aborted_process L)
      else predict_loop env controls_end fuel (backup env (process env L))
    else .done L

/-- Prediction, `level::predict_future(e, ncycles)`, with a budget of iterations
for its loop; `controls_end` is the value of `controls::local_controls_end()`
read before the loop. The argument `ncycles` is not used by the C++ body.
The call `backups_.resize(starting_backups)` is a truncation: a ring within
the cap never gets shorter under `backup()`. The result is the trace and the
level after the call. -/
def predict_future (env : collaborators) (controls_end : Int) (fuel : Nat) (L : level)
    (e : entity) (_ncycles : Int) : outcome (List entity × level) :=
  let L := backup env L
  match L.backups_.getLast? with
  | none => .assertion_failed
  | some snapshot =>
    let L := { L with backups_ := L.backups_.dropLast }
    let starting_backups := L.backups_.length
    match predict_loop env controls_end fuel L with
    | .done L =>
      let traced := trace_past env L e (-1)
      let L := traced.2
      let L := { L with backups_ := L.backups_.take starting_backups }
      .done (traced.1, restore_from_backup env L snapshot)
    | .assertion_failed => .assertion_failed
    | .out_of_fuel => .out_of_fuel

/-- A run of `backup()` calls: the live state moves on to each state of
`worlds` in turn (the ring is carried over) and `backup()` is called there. -/
def backup_each (env : collaborators) (L : level) (worlds : List level) : level :=
  worlds.foldl (fun acc w => backup env { w with backups_ := acc.backups_ }) L

end level

/-! ## Sample data for the witnesses -/

/-- Sample collaborators: a clone is a copy at a new address, the load event
leaves the behavioural state as it is, and processing moves every entity one
pixel to the right. -/
def sample_env : collaborators :=
  { entity_backup := fun e => { e with id := e.id + 1000 }
    on_load := fun e => e.state
    start_level := fun L => L
    process_chars := fun L =>
      level.update_objects (L.chars_.map (fun e => e.id)) (fun e => { e with x := e.x + 1 }) L
    validation_failure := fun _ => false
    aborted_process := fun L => L }

/-- A sample entity without group and without references. -/
def sample_entity (id : Nat) (label : String) (x y : Int) : entity :=
  { id := id, label := label, x := x, y := y, is_human := false, group := -1,
    refs := [], state := 0 }

/-- A sample level: the given entities at the given cycle, no player, an empty ring. -/
def sample_level (cycle : Int) (chars : List entity) : level :=
  { cycle_ := cycle, paused_ := false, rng_seed := 0, chars_ := chars, players_ := [],
    player_ := none, last_touched_player_ := none, groups_ := [], chars_by_label_ := [],
    active_chars_ := [], solid_chars_ := [], backups_ := [] }

/-- A sample history: the level after cycles 0 to 10 have been backed up, one
entity moving one pixel a cycle. -/
def sample_history : level :=
  level.backup_each sample_env (sample_level 0 [])
    ((List.range 11).map (fun (i : Nat) => sample_level (i : Int) [sample_entity 1 "a" (i : Int) 0]))

/-- A sample game: a level with one human player, played and backed up from
cycle 0 until the counter is 11. -/
def sample_played : level :=
  Nat.iterate (level.replay_step sample_env) 11
    { sample_level 0 [{ sample_entity 1 "hero" 0 0 with is_human := true }] with
      player_ := some { sample_entity 1 "hero" 0 0 with is_human := true }
      players_ := [{ sample_entity 1 "hero" 0 0 with is_human := true }] }

/-- Sample entity code that writes the counter after a load: the load event
marks an entity (state 1), and the processing of the entities moves every
entity one pixel to the right and, as soon as an entity is marked, advances
the counter by one more cycle through the setter of `cycle`. -/
def sample_skipping_env : collaborators :=
  { sample_env with
    on_load := fun _ => 1
    process_chars := fun L =>
      if L.chars_.any (fun e => e.state = 1) then
        { sample_env.process_chars L with cycle_ := L.cycle_ + 1 }
      else sample_env.process_chars L }

/-- Sample entity code that pauses the level after a load: the load event
marks an entity (state 1), and the processing of the entities moves every
entity one pixel to the right and, as soon as an entity is marked, pauses the
level through the setter of `paused`. -/
def sample_pausing_env : collaborators :=
  { sample_env with
    on_load := fun _ => 1
    process_chars := fun L =>
      if L.chars_.any (fun e => e.state = 1) then
        { sample_env.process_chars L with paused_ := true }
      else sample_env.process_chars L }

/-- A level whose newest snapshot is stale: at cycle 5 the entity "a" is at
x = 10, and the newest snapshot of the ring, taken earlier in cycle 5,
records it at x = 0. -/
def sample_stale : level :=
  { sample_level 5 [sample_entity 1 "a" 10 0] with
    backups_ := [level.take_snapshot sample_env (sample_level 5 [sample_entity 1 "a" 0 0])] }

end Anura

namespace Anura

/-! ## Tracing the past: the reading of the specification -/

namespace level

/-- The snapshots of a list given newest first, one for each distinct cycle:
the newest snapshot of each cycle is kept, every older snapshot of the same
cycle is left out. -/
def newest_of_each_cycle : List backup_snapshot → List backup_snapshot
  | [] => []
  | s :: older => s :: (newest_of_each_cycle older).filter (fun t => t.cycle ≠ s.cycle)

/-- The trace as the specification words it: walking the ring from the newest
snapshot, for each distinct cycle that is not older than `since_cycle`, the
first clone of the newest snapshot of that cycle whose label is the label
asked for. -/
def trace_past_spec (label : String) (since_cycle : Int) (ring : List backup_snapshot) :
    List entity :=
  (newest_of_each_cycle (ring.reverse.filter (fun s => since_cycle ≤ s.cycle))).filterMap
    (fun s => s.chars.find? (fun ghost => ghost.label = label))

end level

/-- A level whose ring is at its cap: at cycle 250, with the snapshots of the
cycles 0 to 249. -/
def sample_full : level :=
  { sample_level 250 [sample_entity 1 "a" 0 0] with
    backups_ := (List.range 250).map (fun (i : Nat) =>
      level.take_snapshot sample_env (sample_level (i : Int) [sample_entity 1 "a" (i : Int) 0])) }

/-- A level one snapshot below the cap: at cycle 249, with the snapshots of
the cycles 0 to 248. -/
def sample_nearly_full : level :=
  { sample_level 249 [sample_entity 1 "a" 0 0] with
    backups_ := (List.range 249).map (fun (i : Nat) =>
      level.take_snapshot sample_env (sample_level (i : Int) [sample_entity 1 "a" (i : Int) 0])) }

/-- A level with a human player, who is also the player touched last, and a
second entity; both are in group 0. -/
def sample_touched : level :=
  { sample_level 3 [{ sample_entity 1 "hero" 0 0 with is_human := true, group := 0 },
      { sample_entity 2 "door1" 40 0 with group := 0, refs := [1] }] with
    player_ := some { sample_entity 1 "hero" 0 0 with is_human := true, group := 0 }
    players_ := [{ sample_entity 1 "hero" 0 0 with is_human := true, group := 0 }]
    last_touched_player_ := some { sample_entity 1 "hero" 0 0 with is_human := true, group := 0 }
    groups_ := [[{ sample_entity 1 "hero" 0 0 with is_human := true, group := 0 },
      { sample_entity 2 "door1" 40 0 with group := 0, refs := [1] }]] }

end Anura

namespace Anura

/-! ## The entity registry -/

/-- Code called by the registry and by the sub-level composition whose source
is not at hand. -/
structure registry_env where
  /-- The values returned by the successive calls of `rand()`. -/
  rand : Nat → Nat
  /-- The flag `entity::solid()`. -/
  has_solid : entity → Bool
  /-- The behavioural state of an entity after `add_to_level()`. -/
  on_add_to_level : entity → Nat
  /-- The behavioural state of an entity after `being_added()`. -/
  on_being_added : entity → Nat
  /-- The behavioural state of an entity after `being_removed()`. -/
  on_being_removed : entity → Nat
  /-- The behavioural state of an entity after `handle_event(OBJECT_EVENT_START_LEVEL)`. -/
  on_start_level : entity → Nat
  /-- The test of `add_player`: `respawn() == false` and `get_id()` is among the
  objects that the player has destroyed in this level. -/
  destroyed_before : entity → Bool
  /-- The test `appears_at_difficulty(current_difficulty())`. -/
  appears_at_difficulty : entity → Bool
  /-- The copy made by `entity::clone()`, a null pointer being `none`. -/
  clone : entity → Option entity
  /-- The call `place_entity_in_level(*this, e)` of `relocate_object`: the entity
  as placed, or `none` when it cannot be placed. -/
  place_entity_in_level : entity → Option entity
  /-- The union `level_solid_map::merge(map, xoffset, yoffset)` of a map into
  another one at a cell offset. -/
  merge : level_solid_map → level_solid_map → Int → Int → level_solid_map

/-- Erasure `m.erase(key)` on `chars_by_label_`. -/
def label_erase (m : List (String × entity)) (key : String) : List (String × entity) :=
  m.filter (fun kv => kv.1 ≠ key)

/-- The length of the longest key of `chars_by_label_`. -/
def label_bound : List (String × entity) → Nat
  | [] => 0
  | kv :: rest => max kv.1.length (label_bound rest)

/-- The loop `while(chars_by_label_[p->label()]) p->set_label(formatter() <<
p->label() << rand());` of `add_character`, from the label `label` and the
`k`-th call of `rand()` on: the label reached and the index of the next call
of `rand()`. A label that is no key of the map ends the loop; the entry with a
null pointer that `operator[]` creates for it is overwritten right after the
loop. -/
def rename_loop (rand : Nat → Nat) (m : List (String × entity)) :
    Nat → Nat → String → Option (String × Nat)
  | 0, k, label => if (m.lookup label).isSome then none else some (label, k)
  | fuel + 1, k, label =>
    if (m.lookup label).isSome then rename_loop rand m fuel (k + 1) (label ++ toString (rand k))
    else some (label, k)

namespace level

/-- The object at the address of `v` now has the value `v`: every pointer of
the live registry to it sees the change. -/
def set_object (v : entity) (L : level) : level :=
  update_objects [v.id] (fun _ => v) L

/-- Removal `std::remove(l.begin(), l.end(), e)` followed by `erase`: every
pointer to the object `e` leaves the list. -/
def remove_object (e : entity) (l : List entity) : List entity :=
  l.filter (fun c => c.id ≠ e.id)

/-- Lookup `level::get_entity_by_label(label)`; a null pointer is `none`. -/
def get_entity_by_label (L : level) (label : String) : Option entity :=
  L.chars_by_label_.lookup label

/-- Change one bucket of `groups_`. -/
def modify_group (f : entity_group → entity_group) : Nat → List entity_group → List entity_group
  | _, [] => []
  | 0, g :: rest => f g :: rest
  | n + 1, g :: rest => g :: modify_group f n rest

/-- Registration `level::add_player(p)`. The result is the level and the value
of the object `p` after `add_to_level()`. The checks against the global
`g_player_type` are taken to pass; the player slot is behavioural state. -/
def add_player (env : registry_env) (editor_ : Bool) (L : level) (p : entity) :
    outcome (level × entity) :=
  let chars := match L.player_ with
    | some old => remove_object old L.chars_
    | none => L.chars_
  if L.players_ ≠ [] ∧ p.is_human = false then .assertion_failed
  else
    let players := match L.players_ with
      | [] => [p]
      | _ :: rest => p :: rest
    let p := { p with state := env.on_add_to_level p }
    let L := set_object p
      { L with chars_ := chars, last_touched_player_ := some p, player_ := some p,
               players_ := players }
    let chars := L.chars_ ++ [p]
    let labels := (chars.filter env.destroyed_before).foldl
      (fun m c => if c.label.isEmpty = false then label_erase m c.label else m) L.chars_by_label_
    let chars := chars.filter (fun c => ! env.destroyed_before c)
    let chars := if editor_ then chars else chars.filter env.appears_at_difficulty
    .done ({ L with chars_ := chars, chars_by_label_ := labels }, p)

/-- Registration `level::add_character(p)`, from the `k`-th call of `rand()`
on. The result is the level, the index of the next call of `rand()` and the
value of the object `p` after the call. The loop that renames `p` is given
`label_bound + 1` iterations, which it never uses up (every iteration makes
the label longer, and a label longer than every key ends the loop). The
members `layers_` and `new_chars_` are not part of the embedded state. -/
def add_character (env : registry_env) (editor_ : Bool) (k : Nat) (L : level) (p : entity) :
    outcome (level × Nat × entity) :=
  let L := if L.solid_chars_ ≠ [] ∧ env.has_solid p = true
    then { L with solid_chars_ := L.solid_chars_ ++ [p] } else L
  if p.label.isEmpty then .assertion_failed
  else
    match rename_loop env.rand L.chars_by_label_ (label_bound L.chars_by_label_ + 1) k p.label with
    | none => .out_of_fuel
    | some (label, k) =>
      let p := { p with label := label }
      let L := set_object p L
      let L := { L with chars_by_label_ := label_assign L.chars_by_label_ label p }
      let added : outcome (level × entity) :=
        if p.is_human then add_player env editor_ L p
        else .done ({ L with chars_ := L.chars_ ++ [p] }, p)
      match added with
      | .done (L, p) =>
        let p := { p with state := env.on_add_to_level p }
        let L := set_object p L
        let p := { p with state := env.on_being_added p }
        let L := set_object p L
        .done (L, k, p)
      | .assertion_failed => .assertion_failed
      | .out_of_fuel => .out_of_fuel

/-- Removal `level::remove_character(e)`. -/
def remove_character (env : registry_env) (L : level) (e : entity) : level :=
  let e := { e with state := env.on_being_removed e }
  let L := set_object e L
  let L := if e.label.isEmpty = false
    then { L with chars_by_label_ := label_erase L.chars_by_label_ e.label } else L
  { L with
    chars_ := remove_object e L.chars_
    solid_chars_ := remove_object e L.solid_chars_
    active_chars_ := remove_object e L.active_chars_ }

/-- Removal `level::erase_char(c)`; the `assert` on the group fails when the
group of `c` is no bucket of `groups_`. -/
def erase_char (L : level) (c : entity) : outcome level :=
  let L := if c.label.isEmpty = false
    then { L with chars_by_label_ := label_erase L.chars_by_label_ c.label } else L
  let L := { L with chars_ := remove_object c L.chars_ }
  if c.group ≥ 0 then
    if c.group < (L.groups_.length : Int) then
      .done { L with groups_ := modify_group (remove_object c) c.group.toNat L.groups_,
                     solid_chars_ := [] }
    else .assertion_failed
  else .done { L with solid_chars_ := [] }

/-- Loading `level::load_character(c)`; `built` is the entity that
`entity::build(c)` returns and `slot` the value of `multiplayer::slot()`. The
serial number given by `set_id` and the player slot are not part of the
embedded entity; the check against `g_player_type` is taken to pass. -/
def load_character (slot : Nat) (L : level) (built : entity) : level :=
  let L := { L with chars_ := L.chars_ ++ [built] }
  let L := if built.is_human then
      let L := if L.players_.length = slot
        then { L with last_touched_player_ := some built, player_ := some built } else L
      { L with players_ := L.players_ ++ [built] }
    else L
  let L := if built.group ≥ 0 then
      let groups := if built.group ≥ (L.groups_.length : Int)
        then L.groups_ ++ List.replicate (built.group.toNat + 1 - L.groups_.length) []
        else L.groups_
      { L with groups_ := modify_group (fun g => g ++ [built]) built.group.toNat groups }
    else L
  let L := if built.label.isEmpty = false
    then { L with chars_by_label_ := label_assign L.chars_by_label_ built.label built } else L
  { L with solid_chars_ := [] }

/-- Regrouping `level::set_character_group(c, group_num)`; the result carries
the value of the object `c` after `set_group`. -/
def set_character_group (L : level) (c : entity) (group_num : Int) : outcome (level × entity) :=
  if ¬ group_num < (L.groups_.length : Int) then .assertion_failed
  else if c.group ≥ 0 ∧ ¬ c.group < (L.groups_.length : Int) then .assertion_failed
  else
    let L := if c.group ≥ 0
      then { L with groups_ := modify_group (remove_object c) c.group.toNat L.groups_ } else L
    let c := { c with group := group_num }
    let L := set_object c L
    let L := if group_num ≥ 0
      then { L with groups_ := modify_group (fun g => g ++ [c]) group_num.toNat L.groups_ } else L
    .done (L, c)

/-- New bucket `level::add_group()`: the level and the index returned. -/
def add_group (L : level) : level × Int :=
  ({ L with groups_ := L.groups_ ++ [[]] }, (L.groups_.length : Int))

/-- The invariant of the registry: every live entity with a non-empty label is
the entity stored in `chars_by_label_` under that label, and every live entity
with a group g >= 0 is in bucket g of `groups_` and in no other bucket. -/
def registry_invariant (L : level) : Prop :=
  (∀ e ∈ L.chars_, e.label.isEmpty = false →
      (L.chars_by_label_.lookup e.label).map (fun c => c.id) = some e.id)
  ∧ (∀ e ∈ L.chars_, 0 ≤ e.group →
      e.group < (L.groups_.length : Int)
      ∧ ∀ i ∈ List.range L.groups_.length,
          (e.id ∈ (L.groups_.getD i []).map (fun c => c.id) ↔ (i : Int) = e.group))

instance (L : level) : Decidable (registry_invariant L) := by
  unfold registry_invariant
  infer_instance

end level

/-- Sample collaborators of the registry: `rand()` returns 7, 8, 9, ...; no
entity is solid, destroyed or out of place; a clone is a copy at a new
address; a merge keeps the records of the map merged into. -/
def sample_registry_env : registry_env :=
  { rand := fun k => k + 7
    has_solid := fun _ => false
    on_add_to_level := fun e => e.state
    on_being_added := fun e => e.state
    on_being_removed := fun e => e.state
    on_start_level := fun e => e.state
    destroyed_before := fun _ => false
    appears_at_difficulty := fun _ => true
    clone := fun e => some { e with id := e.id + 500 }
    place_entity_in_level := fun e => some e
    merge := fun into _ _ _ => into }

/-- The sample registry of C13: the entity "door1" (address 1) as loaded. -/
def sample_doors : level :=
  level.load_character 0 (sample_level 0 []) (sample_entity 1 "door1" 0 0)

end Anura

namespace Anura

/-- A sample registry with one empty group bucket: the entity "door1" as
loaded, then `add_group()`. -/
def sample_grouped : level :=
  (level.add_group sample_doors).1

/-- A sample registry whose only entity, "crate" at address 5, is in group 0 and
in the active subset. -/
def sample_crate : level :=
  { level.load_character 0 (sample_level 0 []) { sample_entity 5 "crate" 8 8 with group := 0 } with
    active_chars_ := [{ sample_entity 5 "crate" 8 8 with group := 0 }] }

end Anura

namespace Anura

/-! ## Sub-level composition -/

/-- A rectangle `rect(x, y, w, h)`. -/
structure rect where
  x : Int
  y : Int
  w : Int
  h : Int
deriving DecidableEq

/-- A rectangle of static geometry `solid_color_rect`. -/
structure solid_color_rect where
  color : Nat
  area : rect
  layer : Int
deriving DecidableEq

/-- An entry `sub_level_data` of `sub_levels_`. The members `lvl_...` are the
members of the nested level `lvl` that the composition reads or writes. -/
structure sub_level_data where
  lvl_chars_ : List entity
  lvl_solid_ : level_solid_map
  lvl_standable_ : level_solid_map
  lvl_solid_color_rects_ : List solid_color_rect
  xbase : Int
  ybase : Int
  xoffset : Int
  yoffset : Int
  active : Bool
  objects : List entity

/-- A level with its sub-levels: the registry and engine members, the flag
`editor_`, the number of calls of `rand()` made so far, the two merged
solidity maps and the map `sub_levels_`, an association list in key order with
one entry a key. -/
structure composed_level where
  registry : level
  editor_ : Bool
  rand_calls : Nat
  solid_ : level_solid_map
  standable_ : level_solid_map
  sub_levels_ : List (String × sub_level_data)

/-- Change, through the iterator found for `name`, the entry of `name`. -/
def modify_sub (name : String) (f : sub_level_data → sub_level_data)
    (subs : List (String × sub_level_data)) : List (String × sub_level_data) :=
  subs.map (fun kv => if kv.1 = name then (kv.1, f kv.2) else kv)

/-- The merged index as the specification describes it: the merge, over an
empty map, of the maps that `pick` selects from exactly the active
sub-levels, each at its cell offset, in key order. It is compared with what
`build_solid_data_from_sub_levels` computes. -/
def merged_active (merge : level_solid_map → level_solid_map → Int → Int → level_solid_map)
    (T : Int) (pick : sub_level_data → level_solid_map)
    (subs : List (String × sub_level_data)) : level_solid_map :=
  (subs.filter (fun kv => kv.2.active)).foldl
    (fun acc kv => merge acc (pick kv.2) (kv.2.xoffset.tdiv T) (kv.2.yoffset.tdiv T))
    level_solid_map.empty

namespace level

/-- Move `level::relocate_object(e, new_x, new_y)`: the entity at its new
position when it can be placed there, unchanged otherwise. The editor
variables that follow the move are behavioural state. -/
def relocate_object (env : registry_env) (e : entity) (new_x new_y : Int) : entity :=
  match env.place_entity_in_level { e with x := new_x, y := new_y } with
  | some placed => placed
  | none => e

/-- Deactivation `level::remove_sub_level(lvl)`. -/
def remove_sub_level (env : registry_env) (W : composed_level) (lvl : String) :
    outcome composed_level :=
  match W.sub_levels_.lookup lvl with
  | none => .assertion_failed
  | some d =>
    let registry :=
      if d.active then
        d.objects.foldl
          (fun L e => if e.id ∈ L.active_chars_.map (fun c => c.id) then L
                      else remove_character env L e)
          W.registry
      else W.registry
    .done { W with
      registry := registry
      sub_levels_ := modify_sub lvl
        (fun d => { d with objects := if d.active then [] else d.objects, active := false })
        W.sub_levels_ }

/-- The loop of `add_sub_level` over the entities of the sub-level: every
non-human entity is cloned, the clone is moved by the offset of the sub-level
and, when it appears at the current difficulty, added to the parent and
recorded. The state is the parent registry, the number of calls of `rand()`
and the list `objects`. -/
def spawn_sub_objects (env : registry_env) (editor_ : Bool) (xoffset yoffset : Int) :
    List entity → level → Nat → List entity → outcome (level × Nat × List entity)
  | [], L, k, objects => .done (L, k, objects)
  | e :: rest, L, k, objects =>
    if e.is_human then spawn_sub_objects env editor_ xoffset yoffset rest L k objects
    else
      match env.clone e with
      | none => spawn_sub_objects env editor_ xoffset yoffset rest L k objects
      | some c =>
        let c := relocate_object env c (c.x + xoffset) (c.y + yoffset)
        if env.appears_at_difficulty c then
          match add_character env editor_ k L c with
          | .done (L, k, c) =>
            let c := { c with state := env.on_start_level c }
            let L := set_object c L
            spawn_sub_objects env editor_ xoffset yoffset rest L k (objects ++ [c])
          | .assertion_failed => .assertion_failed
          | .out_of_fuel => .out_of_fuel
        else spawn_sub_objects env editor_ xoffset yoffset rest L k objects

/-- Rebuild `level::build_solid_data_from_sub_levels()`: both maps are cleared,
then the maps of every active sub-level are merged in, in key order. -/
def build_solid_data_from_sub_levels (env : registry_env) (T : Int) (W : composed_level) :
    composed_level :=
  let merged := W.sub_levels_.foldl
    (fun (acc : level_solid_map × level_solid_map) kv =>
      if kv.2.active then
        let xoffset := kv.2.xoffset.tdiv T
        let yoffset := kv.2.yoffset.tdiv T
        (env.merge acc.1 kv.2.lvl_solid_ xoffset yoffset,
         env.merge acc.2 kv.2.lvl_standable_ xoffset yoffset)
      else acc)
    (level_solid_map.empty, level_solid_map.empty)
  { W with solid_ := merged.1, standable_ := merged.2 }

/-- Activation `level::add_sub_level(lvl, xoffset, yoffset, add_objects)`. -/
def add_sub_level (env : registry_env) (T : Int) (W : composed_level) (lvl : String)
    (xoffset yoffset : Int) (add_objects : Bool) : outcome composed_level :=
  match W.sub_levels_.lookup lvl with
  | none => .assertion_failed
  | some found =>
    let removed : outcome composed_level :=
      if found.active ∧ add_objects = true then remove_sub_level env W lvl else .done W
    match removed with
    | .assertion_failed => .assertion_failed
    | .out_of_fuel => .out_of_fuel
    | .done W =>
      match W.sub_levels_.lookup lvl with
      | none => .assertion_failed
      | some d =>
        let xdiff := xoffset - d.xoffset
        let ydiff := yoffset - d.yoffset
        let d := { d with xoffset := xoffset - d.xbase, yoffset := yoffset - d.ybase,
                          active := true }
        let spawned : outcome (level × Nat × List entity) :=
          if add_objects then
            spawn_sub_objects env W.editor_ d.xoffset d.yoffset d.lvl_chars_ W.registry
              W.rand_calls d.objects
          else .done (W.registry, W.rand_calls, d.objects)
        match spawned with
        | .assertion_failed => .assertion_failed
        | .out_of_fuel => .out_of_fuel
        | .done (registry, rand_calls, objects) =>
          let d := { d with
            objects := objects
            lvl_solid_color_rects_ := d.lvl_solid_color_rects_.map (fun r =>
              { r with area := { x := r.area.x + xdiff, y := r.area.y + ydiff,
                                 w := r.area.w, h := r.area.h } }) }
          .done (build_solid_data_from_sub_levels env T
            { W with registry := registry, rand_calls := rand_calls,
                     sub_levels_ := modify_sub lvl (fun _ => d) W.sub_levels_ })

end level

/-- A sample level with two sub-levels, "0" based at (0, 0) and "1" based at
(64, 0), each with one solid cell and one rectangle of static geometry. -/
def sample_composed : composed_level :=
  { registry := sample_level 0 []
    editor_ := false
    rand_calls := 0
    solid_ := level_solid_map.empty
    standable_ := level_solid_map.empty
    sub_levels_ :=
      [("0", { lvl_chars_ := [sample_entity 1 "door1" 8 8]
               lvl_solid_ := level.add_solid_rect 32 level_solid_map.empty 0 0 32 32 1 1 0 ""
               lvl_standable_ := level_solid_map.empty
               lvl_solid_color_rects_ := [{ color := 0, area := { x := 0, y := 0, w := 32, h := 32 },
                                            layer := 0 }]
               xbase := 0, ybase := 0, xoffset := 0, yoffset := 0, active := false
               objects := [] }),
       ("1", { lvl_chars_ := [sample_entity 2 "door1" 72 8]
               lvl_solid_ := level.add_solid_rect 32 level_solid_map.empty 64 0 96 32 1 1 0 ""
               lvl_standable_ := level_solid_map.empty
               lvl_solid_color_rects_ := [{ color := 0, area := { x := 64, y := 0, w := 32, h := 32 },
                                            layer := 0 }]
               xbase := 64, ybase := 0, xoffset := 0, yoffset := 0, active := false
               objects := [] })] }

end Anura

namespace Anura

/-! ## The contiguous solid region -/

/-- Rounding `round_tile_size(n)` of a pixel coordinate to the tile grid. -/
def round_tile_size (T n : Int) : Int :=
  if n ≥ 0 then n - n.tmod T
  else
    let m := -n + T; -(m - m.tmod T)

/-- The four neighbours pushed on `new_positions` for every position, in the
order of the source: left, right, up, down. -/
def neighbour_positions : List tile_pos → List tile_pos
  | [] => []
  | pos :: rest =>
    (pos.1 - 1, pos.2) :: (pos.1 + 1, pos.2) :: (pos.1, pos.2 - 1) :: (pos.1, pos.2 + 1)
      :: neighbour_positions rest

/-- Insertion `positions.insert(p)` into a `std::set<tile_pos>`, embedded as the
list of its elements in increasing order (pairs are compared first by their
first component). -/
def set_insert (p : tile_pos) : List tile_pos → List tile_pos
  | [] => [p]
  | q :: rest =>
    if p = q then q :: rest
    else if p.1 < q.1 ∨ (p.1 = q.1 ∧ p.2 < q.2) then p :: q :: rest
    else q :: set_insert p rest

namespace level

/-- The test of `get_solid_contiguous_region` on a cell, negated: the cell has a
record, and the record is `all_solid` or has a bit set. -/
def solid_there (solid_ : level_solid_map) (pos : tile_pos) : Bool :=
  match solid_.find pos with
  | none => false
  | some info => info.all_solid || decide (info.bitmap ≠ ∅)

/-- The cell `base` from which `get_solid_contiguous_region(xpos, ypos)` starts. -/
def region_base (T xpos ypos : Int) : tile_pos :=
  ((round_tile_size T xpos).tdiv T, (round_tile_size T ypos).tdiv T)

/-- One pass of the loop of `get_solid_contiguous_region`: the neighbours of all
positions are collected, then each one that is new and non-trivially solid is
inserted. -/
def region_pass (solid_ : level_solid_map) (positions : List tile_pos) : List tile_pos :=
  (neighbour_positions positions).foldl
    (fun ps pos =>
      if pos ∈ ps then ps
      else if solid_there solid_ pos then set_insert pos ps
      else ps)
    positions

/-- The loop `while(positions.size() != last_count)` of
`get_solid_contiguous_region`, with a budget of passes. -/
def region_loop (solid_ : level_solid_map) : Nat → List tile_pos → outcome (List tile_pos)
  | 0, _ => .out_of_fuel
  | fuel + 1, positions =>
    let grown := region_pass solid_ positions
    if grown.length = positions.length then .done grown
    else region_loop solid_ fuel grown

/-- Flood fill `level::get_solid_contiguous_region(xpos, ypos)` on the member
`solid_`, with a budget of passes for its loop: the cells of the region, in
the order of the set. -/
def get_solid_contiguous_region (T : Int) (fuel : Nat) (solid_ : level_solid_map)
    (xpos ypos : Int) : outcome (List tile_pos) :=
  let base := region_base T xpos ypos
  if solid_there solid_ base then region_loop solid_ fuel [base]
  else .done []

/-- A step of the region: from a cell to one of its four neighbours that is
non-trivially solid. -/
def region_step (solid_ : level_solid_map) (a b : tile_pos) : Prop :=
  (b = (a.1 - 1, a.2) ∨ b = (a.1 + 1, a.2) ∨ b = (a.1, a.2 - 1) ∨ b = (a.1, a.2 + 1))
  ∧ solid_there solid_ b = true

end level

/-- A sample solid index: the three cells (-1, 0), (0, 0) and (1, 0) are
uniformly solid, and so is the cell (3, 0), which touches none of them. -/
def sample_platform : level_solid_map :=
  level.add_solid_rect 32 (level.add_solid_rect 32 level_solid_map.empty (-32) 0 64 32 1 1 0 "")
    96 0 128 32 1 1 0 ""

end Anura

namespace Anura

/-! ## Sample data for the replay of a paused level -/

/-- A paused level without player: the counter is at 11, the ring holds the
snapshots of the cycles 0 to 10. -/
def sample_paused : level :=
  { sample_history with cycle_ := 11, paused_ := true }

/-- The same level, not paused. -/
def sample_unpaused : level :=
  { sample_history with cycle_ := 11 }

end Anura

namespace Anura

/-! ## Rectangle and multi-point queries of the solidity index -/

/-- Modelled from the spec: the accessor `rect::x2()` of the absent header
`geometry.hpp`, the first column past the rectangle. -/
def rect.x2 (r : rect) : Int := r.x + r.w

/-- Modelled from the spec: the accessor `rect::y2()` of the absent header
`geometry.hpp`, the first row past the rectangle. -/
def rect.y2 (r : rect) : Int := r.y + r.h

/-- A point `point` with its members `x` and `y`. -/
structure point where
  x : Int
  y : Int
deriving DecidableEq

/-- The constant `INT_MIN` of a 32-bit `int`. -/
def INT_MIN : Int := -2147483648

namespace level

/-- Rectangle query `level::solid(const rect& r, info)` on the member `solid_`:
the pixels of the rectangle are tried row by row, and the first solid one
decides. The loops `for(int y = ybegin; y != yend; ++y)` are embedded for
`ybegin <= yend` and `xbegin <= xend`, where `!=` and `<` end the loop at the
same value. The result is `some info` when the C++ returns true. -/
def solid_of_rect (T : Int) (solid_ : level_solid_map) (r : rect) : Option surface_info :=
  let ybegin := r.y
  let yend := r.y2
  let xbegin := r.x
  let xend := r.x2
  (loop_range ybegin yend).findSome? (fun y =>
    (loop_range xbegin xend).findSome? (fun x => solid T solid_ x y))

/-- Pre-filter `level::may_be_solid_in_rect(r)` on the member `solid_`. -/
def may_be_solid_in_rect (T : Int) (solid_ : level_solid_map) (r : rect) : Bool :=
  let cx := cell_and_offset T r.x
  let cy := cell_and_offset T r.y
  let pos : tile_pos := (cx.1, cy.1)
  let x := cx.2
  let y := cy.2
  let x2 := (x + r.w).tdiv T + (if (x + r.w).tmod T ≠ 0 then 1 else 0)
  let y2 := (y + r.h).tdiv T + (if (y + r.h).tmod T ≠ 0 then 1 else 0)
  (loop_range 0 y2).any (fun ypos =>
    (loop_range 0 x2).any (fun xpos =>
      (solid_.find (pos.1 + xpos, pos.2 + ypos)).isSome))

/-- The loop of the multi-point query `level::is_solid(map, e, points,
surf_info)`. The entity is read through `e.x()`, `e.y()`, `e.face_right()`
and `e.current_frame().width()`, the arguments `ex`, `ey`, `face_right` and
`width`. The state is the point visited before (`*(p-1)`, read only when
`prev_x` is set), `prev_x`, `prev_y` and the record `info` found last. -/
def is_solid_points_loop (T : Int) (map : level_solid_map) (ex ey : Int) (face_right : Bool)
    (width : Int) : point → Int → Int → Option tile_solid_info → List point → Option surface_info
  | _, _, _, _, [] => none
  | q, prev_x, prev_y, info, p :: rest =>
    -- if(prev_x != INT_MIN) { x = prev_x + diff_x; y = prev_y + diff_y; ... }
    let stepped : Int × Int × Int :=
      if prev_x ≠ INT_MIN then
        let diff_x := (p.x - q.x) * (if face_right then 1 else -1)
        let diff_y := p.y - q.y
        let x := prev_x + diff_x
        let y := prev_y + diff_y
        if x < 0 ∨ y < 0 ∨ x ≥ T ∨ y ≥ T then (x, y, INT_MIN) else (x, y, prev_x)
      else (prev_x, prev_y, prev_x)
    -- if(prev_x == INT_MIN) { recompute x, y and info from the absolute pixel }
    let located : Int × Int × Option tile_solid_info :=
      if stepped.2.2 = INT_MIN then
        let x := ex + (if face_right then p.x else width - 1 - p.x)
        let y := ey + p.y
        let cx := cell_and_offset T x
        let cy := cell_and_offset T y
        (cx.2, cy.2, map.find (cx.1, cy.1))
      else (stepped.1, stepped.2.1, info)
    let x := located.1
    let y := located.2.1
    match located.2.2 with
    | some s =>
      if s.all_solid then some s.info
      else
        let index := y * T + x
        if index ∈ s.bitmap then some s.info
        else is_solid_points_loop T map ex ey face_right width p x y (some s) rest
    | none => is_solid_points_loop T map ex ey face_right width p x y none rest

/-- Multi-point query `level::is_solid(map, e, points, surf_info)`: `some info`
when the C++ returns true (having stored `&info->info`), `none` when it
returns false. -/
def is_solid_points (T : Int) (map : level_solid_map) (ex ey : Int) (face_right : Bool)
    (width : Int) (points : List point) : Option surface_info :=
  is_solid_points_loop T map ex ey face_right width { x := 0, y := 0 } INT_MIN INT_MIN none points

/-- The absolute pixel of a point of an entity, as the multi-point query
computes it when it has no previous point to step from. -/
def absolute_pixel (ex ey : Int) (face_right : Bool) (width : Int) (p : point) : Int × Int :=
  (ex + (if face_right then p.x else width - 1 - p.x), ey + p.y)

end level

/-- A sample solid index for point queries: the cell (0, 0) is solid in its
pixel (31, 5) only, the cell (1, 0) is uniformly solid. -/
def sample_bits : level_solid_map :=
  level.add_solid_rect 32 (level.set_solid 32 level_solid_map.empty 31 5 50 60 0 "ice" true)
    32 0 64 32 100 100 0 "rock"

end Anura

namespace Anura

/-! ## Portals -/

/-- A transition region `level::portal`. -/
structure portal where
  area : rect
  level_dest : String
  dest_str : String
  dest : point
  dest_starting_pos : Bool
  automatic : Bool
  transition : String
deriving DecidableEq

/-- The members of `level` that `force_enter_portal` and `get_portal` read or
write. -/
structure portal_level where
  entered_portal_active_ : Bool
  entered_portal_ : portal
  player_ : Option entity
  boundaries_ : rect
  left_portal_ : portal
  right_portal_ : portal
  portals_ : List portal
deriving DecidableEq

/-- Code called by `get_portal` whose source is not at hand. -/
structure portal_env where
  /-- The rectangle `entity::body_rect()`. -/
  body_rect : entity → rect
  /-- The flag `entity::enter()`: the player asks to enter. -/
  enter : entity → Bool
  /-- The test `rects_intersect(a, b)`. -/
  rects_intersect : rect → rect → Bool

namespace level

/-- Forced transition, `level::force_enter_portal(p)`. -/
def force_enter_portal (L : portal_level) (p : portal) : portal_level :=
  { L with entered_portal_active_ := true, entered_portal_ := p }

/-- Transition query `level::get_portal()`: the portal returned (`none` for a
null pointer) and the level after the call; the member
`entered_portal_active_` is `mutable` and written by this `const` method. -/
def get_portal (env : portal_env) (L : portal_level) : Option portal × portal_level :=
  if L.entered_portal_active_ then
    (some L.entered_portal_, { L with entered_portal_active_ := false })
  else
    match L.player_ with
    | none => (none, L)
    | some player =>
      let r := env.body_rect player
      if r.x < L.boundaries_.x ∧ L.left_portal_.level_dest.isEmpty = false then
        (some L.left_portal_, L)
      else if r.x2 > L.boundaries_.x2 ∧ L.right_portal_.level_dest.isEmpty = false then
        (some L.right_portal_, L)
      else
        (L.portals_.find? (fun p =>
          env.rects_intersect r p.area && (p.automatic || env.enter player)), L)

end level

/-- Sample collaborators of the portal query: the body of an entity is the
16 x 16 rectangle at its position, it never asks to enter, and two rectangles
intersect when they overlap in both axes. -/
def sample_portal_env : portal_env :=
  { body_rect := fun e => { x := e.x, y := e.y, w := 16, h := 16 }
    enter := fun _ => false
    rects_intersect := fun a b =>
      decide (a.x < b.x + b.w ∧ b.x < a.x + a.w ∧ a.y < b.y + b.h ∧ b.y < a.y + a.h) }

/-- A sample portal to the level `dest` over the rectangle `area`. -/
def sample_portal (dest : String) (area : rect) : portal :=
  { area := area, level_dest := dest, dest_str := "", dest := { x := 0, y := 0 },
    dest_starting_pos := false, automatic := true, transition := "" }

/-- A sample level for the portal query: the player stands at (100, 100)
inside the boundaries (0, 0, 640, 480), far from the one portal, which covers
(600, 0, 40, 480); no neighbouring level is set. -/
def sample_portals : portal_level :=
  { entered_portal_active_ := false
    entered_portal_ := sample_portal "" { x := 0, y := 0, w := 0, h := 0 }
    player_ := some { sample_entity 1 "hero" 100 100 with is_human := true }
    boundaries_ := { x := 0, y := 0, w := 640, h := 480 }
    left_portal_ := sample_portal "" { x := 0, y := 0, w := 0, h := 0 }
    right_portal_ := sample_portal "" { x := 0, y := 0, w := 0, h := 0 }
    portals_ := [sample_portal "cave" { x := 600, y := 0, w := 40, h := 480 }] }

/-! ## The active subset -/

/-- Entity code called by `set_active_chars` whose source is not at hand. -/
structure activity_env where
  /-- The test `entity::is_active(screen_area)`. -/
  is_active : entity → rect → Bool
  /-- The flag `entity::use_absolute_screen_coordinates()`. -/
  use_absolute_screen_coordinates : entity → Bool
  /-- The flag `entity::dies_on_inactive()`. -/
  dies_on_inactive : entity → Bool
  /-- The behavioural state of an entity after `die_with_no_event()`. -/
  on_die_with_no_event : entity → Nat
  /-- The comparison `zorder_compare(a, b)` of the drawing order. -/
  zorder_compare : entity → entity → Bool

/-- The rest of `std::unique` on pointers after the element `prev` was kept:
an element equal to the one kept last is dropped. -/
def unique_after (prev : entity) : List entity → List entity
  | [] => []
  | b :: rest => if prev.id = b.id then unique_after prev rest else b :: unique_after b rest

/-- The elements kept by `erase(std::unique(begin, end), end)` on a vector of
`entity_ptr`: of every run of equal pointers the first one. -/
def unique_pointers : List entity → List entity
  | [] => []
  | a :: rest => a :: unique_after a rest

namespace level

/-- The loop `foreach(entity_ptr& c, chars_)` of `set_active_chars`. The state
is the part of `chars_` not yet visited (as it was on entry, `current` giving
the object an entry points to now), the entries visited and not nulled, and
the level. An active entity with a group brings in the whole bucket of its
group; an inactive entity that dies on inactive is nulled (and, when it has a
label, receives `die_with_no_event()` and loses its label entry). -/
def set_active_loop (env : activity_env) (screen_area : rect) :
    List entity → (entity → entity) → List entity → level → outcome (List entity × level)
  | [], _, kept, L => .done (kept, L)
  | entry :: rest, current, kept, L =>
    let c := current entry
    let is_active := env.is_active c screen_area || env.use_absolute_screen_coordinates c
    if is_active then
      if c.group ≥ 0 then
        if c.group < (L.groups_.length : Int) then
          set_active_loop env screen_area rest current (kept ++ [c])
            { L with active_chars_ := L.active_chars_ ++ L.groups_.getD c.group.toNat [] }
        else .assertion_failed
      else
        set_active_loop env screen_area rest current (kept ++ [c])
          { L with active_chars_ := L.active_chars_ ++ [c] }
    else if env.dies_on_inactive c then
      if c.label.isEmpty = false then
        let die : entity → entity := fun e => { e with state := env.on_die_with_no_event e }
        let g : entity → entity := fun e => if e.id = c.id then die e else e
        let L := update_objects [c.id] die L
        let L := { L with chars_by_label_ := label_erase L.chars_by_label_ c.label }
        set_active_loop env screen_area rest (fun e => g (current e)) (kept.map g) L
      else set_active_loop env screen_area rest current kept L
    else set_active_loop env screen_area rest current (kept ++ [c]) L

/-- The active subset, `level::set_active_chars()`; `screen_area` is the
rectangle that the function computes from the draw position, the zoom and the
size of the screen. After the loop the nulled entries are erased from
`chars_`, and `active_chars_` is sorted by address, freed of repeated
pointers and sorted by `zorder_compare`. -/
def set_active_chars (env : activity_env) (screen_area : rect) (L : level) : outcome level :=
  match set_active_loop env screen_area L.chars_ (fun e => e) [] { L with active_chars_ := [] } with
  | .done (kept, L) =>
    let active := List.insertionSort (fun a b => a.id ≤ b.id) L.active_chars_
    let active := unique_pointers active
    let active := List.insertionSort (fun a b => env.zorder_compare b a = false) active
    .done { L with chars_ := kept, active_chars_ := active }
  | .assertion_failed => .assertion_failed
  | .out_of_fuel => .out_of_fuel

end level

/-- Sample entity code for the active subset: an entity is active when its
position lies in the screen area, it dies on inactive when its state is 1,
and the drawing order is the order of the rows. -/
def sample_activity_env : activity_env :=
  { is_active := fun e area =>
      decide (area.x ≤ e.x ∧ e.x < area.x + area.w ∧ area.y ≤ e.y ∧ e.y < area.y + area.h)
    use_absolute_screen_coordinates := fun _ => false
    dies_on_inactive := fun e => decide (e.state = 1)
    on_die_with_no_event := fun e => e.state
    zorder_compare := fun a b => decide (a.y < b.y) }

/-- A sample registry for the active subset: the entities "lamp" (address 1, at
(10, 10)) and "moth" (address 2, at (5000, 10), dying on inactive) share the
group 0; both are live, labelled and in bucket 0. -/
def sample_swarm : level :=
  { sample_level 3
      [{ sample_entity 1 "lamp" 10 10 with group := 0 },
       { sample_entity 2 "moth" 5000 10 with group := 0, state := 1 }] with
    groups_ := [[{ sample_entity 1 "lamp" 10 10 with group := 0 },
                 { sample_entity 2 "moth" 5000 10 with group := 0, state := 1 }]]
    chars_by_label_ := [("moth", { sample_entity 2 "moth" 5000 10 with group := 0, state := 1 }),
                        ("lamp", { sample_entity 1 "lamp" 10 10 with group := 0 })] }

end Anura

namespace Anura

/-! ## The tile store -/

/-- The part of a `level_object` that the tile store reads: its address `id`,
its size, its solidity (`solid` is the set of the pixels for which
`is_solid(x, y)` holds), its surface, its colour when it is a tile of one
solid colour, and whether it is opaque. -/
structure level_object where
  id : Nat
  width : Int
  height : Int
  all_solid : Bool
  has_solid : Bool
  solid : Finset (Int × Int)
  is_passthrough : Bool
  friction : Int
  traction : Int
  damage : Int
  info : String
  solid_color : Option Nat
  is_opaque : Bool
deriving DecidableEq

/-- A placed tile `level_tile`. -/
structure level_tile where
  x : Int
  y : Int
  layer_from : Int
  zorder : Int
  object : level_object
  face_right : Bool
  draw_disabled : Bool
deriving DecidableEq

/-- Modelled from the spec: the comparison `level_tile_zorder_comparer`,
declared in an absent header: tiles are compared by their depth-order key. -/
def level_tile_zorder_comparer (a b : level_tile) : Bool :=
  decide (a.zorder < b.zorder)

/-- Modelled from the spec: the comparison `level_tile_zorder_pos_comparer`,
declared in an absent header: tiles are compared by (zorder, position), the
position being compared by row, then by column. -/
def level_tile_zorder_pos_comparer (a b : level_tile) : Bool :=
  decide (a.zorder < b.zorder ∨ (a.zorder = b.zorder ∧ a.y < b.y)
    ∨ (a.zorder = b.zorder ∧ a.y = b.y ∧ a.x < b.x))

/-- Modelled from the spec: the test `point_in_rect(point(x, y), r)` of the
absent header `geometry.hpp`: the point lies inside the rectangle. -/
def point_in_rect (x y : Int) (r : rect) : Bool :=
  decide (x ≥ r.x ∧ y ≥ r.y ∧ x < r.x2 ∧ y < r.y2)

/-- Search `std::adjacent_find(first, last, pred) != last`: some element and
its successor satisfy `pred`. -/
def adjacent_find {α : Type} (pred : α → α → Bool) : List α → Bool
  | [] => false
  | a :: rest =>
    match rest with
    | [] => false
    | b :: _ => pred a b || adjacent_find pred rest

/-- Sorting `std::sort(first, last, comp)`, embedded as a sort by insertion
under "not after". The C++ library leaves the order of elements that `comp`
does not tell apart unspecified; the embedding keeps them in the order they
had (the order that an insertion sort yields). -/
def std_sort {α : Type} (comp : α → α → Bool) (l : List α) : List α :=
  List.insertionSort (fun a b => comp b a = false) l

/-- The statement `if(std::adjacent_find(tiles_.rbegin(), tiles_.rend(),
level_tile_zorder_pos_comparer()) != tiles_.rend()) std::sort(tiles_.begin(),
tiles_.end(), level_tile_zorder_pos_comparer());`. -/
def sort_tiles_if_unsorted (tiles : List level_tile) : List level_tile :=
  if adjacent_find level_tile_zorder_pos_comparer tiles.reverse
  then std_sort level_tile_zorder_pos_comparer tiles
  else tiles

/-- Erasure `level_solid_map::erase(pos)`. -/
def level_solid_map.erase (m : level_solid_map) (pos : tile_pos) : level_solid_map :=
  fun q => if q = pos then none else m q

/-- The record `level_tile_rebuild_info` kept for a level in
`tile_rebuild_map`. The pointer `rebuild_tile_thread` is embedded as the flag
"not null". -/
structure level_tile_rebuild_info where
  tile_rebuild_in_progress : Bool
  tile_rebuild_queued : Bool
  rebuild_tile_thread : Bool
  rebuild_tile_layers_buffer : List Int
  rebuild_tile_layers_worker_buffer : List Int
  tile_rebuild_complete : Bool
  task_tiles : List level_tile
deriving DecidableEq

/-- The record as its constructor leaves it. -/
def level_tile_rebuild_info.initial : level_tile_rebuild_info :=
  { tile_rebuild_in_progress := false, tile_rebuild_queued := false,
    rebuild_tile_thread := false, rebuild_tile_layers_buffer := [],
    rebuild_tile_layers_worker_buffer := [], tile_rebuild_complete := false, task_tiles := [] }

/-- The members of `level` that the tile store reads or writes, with the
rebuild record of the level and the number `live_threads` of worker threads
created with `new threading::thread` and not yet deleted. Of the tile maps
`tile_maps_`, `layer_speed` gives what `prepare_tiles_for_drawing` reads: the
pair `(x_speed(), y_speed())` of the map of a layer. The caches that
`prepare_tiles_for_drawing` fills for the renderer (`blit_cache_`,
`solid_color_rects_`), with the assertions on their indexes, are not
embedded. -/
structure tile_store where
  tiles_ : List level_tile
  solid_ : level_solid_map
  standable_ : level_solid_map
  editor_tile_updates_frozen_ : Int
  editor_ : Bool
  is_arcade_level : Bool
  boundaries_ : rect
  layer_speed : Int → Int × Int
  info : level_tile_rebuild_info
  live_threads : Nat

/-- The tile maps `tile_maps_` of the level, whose class is declared in an
absent header: the layers that have a map, in key order, and the tiles that
`tile_map::build_tiles` generates for a layer, on the whole map or inside a
rectangle. -/
structure tile_env where
  tile_map_layers : List Int
  build_tiles : Int → List level_tile
  build_tiles_rect : Int → rect → List level_tile

/-- The elements kept by `erase(std::unique(begin, end), end)` on a vector of
`int`: of every run of equal values the first one. -/
def unique_ints : List Int → List Int
  | [] => []
  | a :: rest =>
    match rest with
    | [] => [a]
    | b :: _ => if a = b then unique_ints rest else a :: unique_ints rest

namespace level

/-- Pixel write `level::add_standable(x, y, ...)` on the member `standable_`. -/
def add_standable (T : Int) (standable_ : level_solid_map) (x y friction traction damage : Int)
    (info : String) : level_solid_map :=
  set_solid T standable_ x y friction traction damage info true

/-- The solidity of a placed tile, `level::add_tile_solid(t)`. The members
`widest_tile_` and `highest_tile_` are not embedded. -/
def add_tile_solid (T : Int) (S : tile_store) (t : level_tile) : tile_store :=
  if t.zorder ≥ 1000 then S
  else
    let obj := t.object
    if obj.all_solid then
      { S with solid_ := add_solid_rect T S.solid_ t.x t.y (t.x + obj.width) (t.y + obj.height)
                           obj.friction obj.traction obj.damage obj.info }
    else if obj.has_solid then
      (loop_range 0 obj.height).foldl
        (fun S y => (loop_range 0 obj.width).foldl
          (fun S x =>
            let xpos := if ¬ t.face_right then obj.width - x - 1 else x
            if (xpos, y) ∈ obj.solid then
              if obj.is_passthrough then
                { S with standable_ := add_standable T S.standable_ (t.x + x) (t.y + y)
                                         obj.friction obj.traction obj.damage obj.info }
              else
                { S with solid_ := add_solid T S.solid_ (t.x + x) (t.y + y)
                                     obj.friction obj.traction obj.damage obj.info }
            else S) S)
        S
    else S

/-- The last loop of `prepare_tiles_for_drawing`, which walks the tiles from
the last one to the first one and disables the tiles hidden under an opaque
tile. The list is the part not yet visited, last tile first; `skipping` is
the zorder of the run that the inner `while` is passing (a layer whose map
does not move at speed 100), and `covered` the positions of the opaque tiles
met so far, the set `opaque` of the source. The tile on which the inner
`while` stops is passed by the `--n` of the `for` statement, as it is. -/
def disable_obscured_tiles (layer_speed : Int → Int × Int) :
    Option Int → List (Int × Int) → List level_tile → List level_tile
  | _, _, [] => []
  | some z, covered, t :: rest =>
    if t.zorder = z then t :: disable_obscured_tiles layer_speed (some z) covered rest
    else t :: disable_obscured_tiles layer_speed none covered rest
  | none, covered, t :: rest =>
    if (layer_speed t.zorder).1 ≠ 100 ∨ (layer_speed t.zorder).2 ≠ 100 then
      t :: disable_obscured_tiles layer_speed (some t.zorder) covered rest
    else if ¬ t.draw_disabled ∧ (t.x, t.y) ∈ covered then
      { t with draw_disabled := true } :: disable_obscured_tiles layer_speed none covered rest
    else if level_object.is_opaque t.object then
      t :: disable_obscured_tiles layer_speed none ((t.x, t.y) :: covered) rest
    else t :: disable_obscured_tiles layer_speed none covered rest

/-- What `level::prepare_tiles_for_drawing()` does to the placed tiles: inside
the boundaries (everywhere in the editor) a tile of one solid colour gets
`draw_disabled`, unless the level is an arcade level, and every other tile
loses it; then, from the last tile to the first, a tile at the position of an
opaque tile met before gets `draw_disabled`. The order of the tiles is not
touched. -/
def prepare_tiles_for_drawing (T : Int) (S : tile_store) : tile_store :=
  let tiles := S.tiles_.map (fun t =>
      if ¬ S.editor_ ∧ (t.x ≤ S.boundaries_.x - T ∨ t.y ≤ S.boundaries_.y - T
          ∨ t.x ≥ S.boundaries_.x2 ∨ t.y ≥ S.boundaries_.y2) then t
      else if ¬ S.is_arcade_level ∧ t.object.solid_color.isSome then
        { t with draw_disabled := true }
      else { t with draw_disabled := false })
  { S with tiles_ := (disable_obscured_tiles S.layer_speed none [] tiles.reverse).reverse }

/-- Insertion `level::add_tile(t)`: the tile is inserted at the position that
`std::lower_bound` finds under `level_tile_zorder_comparer`, in front of the
first tile whose zorder is not smaller. -/
def add_tile (T : Int) (S : tile_store) (t : level_tile) : tile_store :=
  let tiles := S.tiles_.takeWhile (fun e => level_tile_zorder_comparer e t)
    ++ [t] ++ S.tiles_.dropWhile (fun e => level_tile_zorder_comparer e t)
  let S := { S with tiles_ := tiles }
  let S := add_tile_solid T S t
  prepare_tiles_for_drawing T S

/-- The test `tile_on_point(x, y)` of `remove_tiles_at`. -/
def tile_on_point (x_ y_ : Int) (t : level_tile) : Bool :=
  decide (x_ ≥ t.x ∧ y_ ≥ t.y ∧ x_ < t.x + t.object.width ∧ y_ < t.y + t.object.height)

/-- Removal `level::remove_tiles_at(x, y)`: the level after the call and the
result of the call. -/
def remove_tiles_at (T : Int) (S : tile_store) (x y : Int) : tile_store × Bool :=
  let nitems := S.tiles_.length
  let S := { S with tiles_ := S.tiles_.filter (fun t => ¬ tile_on_point x y t) }
  let result := decide (nitems ≠ S.tiles_.length)
  (prepare_tiles_for_drawing T S, result)

/-- The end of every rebuild, `level::complete_tiles_refresh()`: both solidity
maps are cleared and filled again from the placed tiles, the tiles are
sorted if the scan of adjacent pairs finds a descent, and prepared for
drawing. The event sent to the entities afterwards is entity code. -/
def complete_tiles_refresh (T : Int) (S : tile_store) : tile_store :=
  let S := { S with solid_ := level_solid_map.empty, standable_ := level_solid_map.empty }
  let S := S.tiles_.foldl (add_tile_solid T) S
  let S := { S with tiles_ := sort_tiles_if_unsorted S.tiles_ }
  prepare_tiles_for_drawing T S

/-- The tiles that `tile_map::build_tiles` appends for every tile map, in key
order. -/
def build_all_tiles (env : tile_env) : List level_tile :=
  env.tile_map_layers.foldl (fun tiles layer => tiles ++ env.build_tiles layer) []

/-- Wholesale rebuild `level::rebuild_tiles()`. -/
def rebuild_tiles (env : tile_env) (T : Int) (S : tile_store) : tile_store :=
  if S.editor_tile_updates_frozen_ ≠ 0 then S
  else
    let S := { S with tiles_ := [] }
    let S := { S with tiles_ := S.tiles_ ++ build_all_tiles env }
    complete_tiles_refresh T S

/-- Incremental rebuild `level::rebuild_tiles_rect(r)`. -/
def rebuild_tiles_rect (env : tile_env) (T : Int) (S : tile_store) (r : rect) : tile_store :=
  if S.editor_tile_updates_frozen_ ≠ 0 then S
  else
    let S := (loop_range_step r.x r.x2 T).foldl
      (fun S x => (loop_range_step r.y r.y2 T).foldl
        (fun S y =>
          let pos : tile_pos := (x.tdiv T, y.tdiv T)
          { S with solid_ := S.solid_.erase pos, standable_ := S.standable_.erase pos }) S)
      S
    let S := { S with tiles_ := S.tiles_.filter (fun t => ¬ point_in_rect t.x t.y r) }
    let tiles := env.tile_map_layers.foldl
      (fun tiles layer => tiles ++ env.build_tiles_rect layer r) []
    let S := tiles.foldl
      (fun S t =>
        let S := add_tile_solid T S t
        { S with tiles_ := S.tiles_ ++ [t] }) S
    let S := { S with tiles_ := sort_tiles_if_unsorted S.tiles_ }
    prepare_tiles_for_drawing T S

/-- The merge at the top of `start_rebuild_tiles_in_background(layers)`: the
requested layers are appended to the pending ones, the buffer is sorted and
freed of repeated values; an empty request clears the buffer. -/
def merge_rebuild_layers (info : level_tile_rebuild_info) (layers : List Int) : List Int :=
  if layers.isEmpty = false
      ∧ (¬ info.tile_rebuild_queued ∨ info.rebuild_tile_layers_buffer.isEmpty = false) then
    unique_ints (List.insertionSort (fun a b => a ≤ b) (info.rebuild_tile_layers_buffer ++ layers))
  else if layers.isEmpty then []
  else info.rebuild_tile_layers_buffer

/-- Request `level::start_rebuild_tiles_in_background(layers)`. The argument is
taken by value: when the caller passes the pending buffer itself, the merge
appends the buffer to itself. The worker created on the last line runs
`build_tiles_thread_function` on the record. -/
def start_rebuild_tiles_in_background (S : tile_store) (layers : List Int) : tile_store :=
  let info := S.info
  let info := { info with rebuild_tile_layers_buffer := merge_rebuild_layers info layers }
  if info.tile_rebuild_in_progress then
    { S with info := { info with tile_rebuild_queued := true } }
  else
    let info := { info with tile_rebuild_in_progress := true, tile_rebuild_complete := false }
    let info := { info with
      rebuild_tile_layers_worker_buffer := info.rebuild_tile_layers_buffer
      rebuild_tile_layers_buffer := [] }
    { S with info := { info with rebuild_tile_thread := true }
             live_threads := S.live_threads + 1 }

/-- The worker, `build_tiles_thread_function`, run to its end: the tiles of
the requested layers (of every layer when none is named) are stored in
`task_tiles` and the flag `tile_rebuild_complete` is set. -/
def build_tiles_thread_function (env : tile_env) (info : level_tile_rebuild_info) :
    level_tile_rebuild_info :=
  let task_tiles :=
    if info.rebuild_tile_layers_worker_buffer.isEmpty then build_all_tiles env
    else info.rebuild_tile_layers_worker_buffer.foldl
      (fun tiles layer =>
        if layer ∈ env.tile_map_layers then tiles ++ env.build_tiles layer else tiles) []
  { info with task_tiles := task_tiles, tile_rebuild_complete := true }

/-- Freeze `level::freeze_rebuild_tiles_in_background()`. -/
def freeze_rebuild_tiles_in_background (S : tile_store) : tile_store :=
  { S with info := { S.info with tile_rebuild_in_progress := true } }

/-- Unfreeze `level::unfreeze_rebuild_tiles_in_background()`. -/
def unfreeze_rebuild_tiles_in_background (S : tile_store) : tile_store :=
  if S.info.rebuild_tile_thread then S
  else
    let S := { S with info := { S.info with tile_rebuild_in_progress := false } }
    start_rebuild_tiles_in_background S S.info.rebuild_tile_layers_buffer

/-- Completion `level::complete_rebuild_tiles_in_background()`, polled by the
main thread. -/
def complete_rebuild_tiles_in_background (T : Int) (S : tile_store) : tile_store :=
  if ¬ S.info.tile_rebuild_in_progress then S
  else if ¬ S.info.tile_rebuild_complete then S
  else
    -- delete info.rebuild_tile_thread; info.rebuild_tile_thread = NULL;
    let S := { S with
      live_threads := if S.info.rebuild_tile_thread then S.live_threads - 1 else S.live_threads
      info := { S.info with rebuild_tile_thread := false } }
    let S :=
      if S.info.rebuild_tile_layers_worker_buffer.isEmpty then { S with tiles_ := [] }
      else S.info.rebuild_tile_layers_worker_buffer.foldl
        (fun S layer => { S with tiles_ := S.tiles_.filter (fun t => ¬ (t.layer_from = layer)) }) S
    let S := { S with tiles_ := S.tiles_ ++ S.info.task_tiles
                      info := { S.info with task_tiles := [] } }
    let S := complete_tiles_refresh T S
    let S := { S with info := { S.info with rebuild_tile_layers_worker_buffer := [] } }
    let S := { S with info := { S.info with tile_rebuild_in_progress := false } }
    if S.info.tile_rebuild_queued then
      let S := { S with info := { S.info with tile_rebuild_queued := false } }
      start_rebuild_tiles_in_background S S.info.rebuild_tile_layers_buffer
    else S

end level

/-- One event of the rebuild state machine: a call of one of the four
functions of the main thread, or the worker reaching its end. -/
inductive rebuild_event where
  | start (layers : List Int)
  | freeze
  | unfreeze
  | complete
  | worker_finished
deriving DecidableEq

/-- The level after an event. The worker can only reach its end while it
exists. -/
def rebuild_event.run (env : tile_env) (T : Int) (S : tile_store) : rebuild_event → tile_store
  | .start layers => level.start_rebuild_tiles_in_background S layers
  | .freeze => level.freeze_rebuild_tiles_in_background S
  | .unfreeze => level.unfreeze_rebuild_tiles_in_background S
  | .complete => level.complete_rebuild_tiles_in_background T S
  | .worker_finished =>
    if S.info.rebuild_tile_thread then
      { S with info := level.build_tiles_thread_function env S.info }
    else S

/-- The level after a sequence of events, first to last. -/
def run_rebuild_events (env : tile_env) (T : Int) (S : tile_store) (events : List rebuild_event) :
    tile_store :=
  events.foldl (rebuild_event.run env T) S

/-- A rebuild request as the specification reads it: a set of layers, or all
layers. -/
inductive layer_request where
  | all
  | layers (s : Finset Int)
deriving DecidableEq

/-- The request that a layer list stands for: an empty list stands for all
layers. -/
def layer_request.of_list (layers : List Int) : layer_request :=
  if layers.isEmpty then .all else .layers layers.toFinset

/-- The union of a pending request (`none` when nothing is pending) and a new
request. -/
def layer_request.union : Option layer_request → layer_request → layer_request
  | none, r => r
  | some .all, _ => .all
  | some (.layers _), .all => .all
  | some (.layers s), .layers t => .layers (s ∪ t)

/-- The pending request that the record holds: nothing unless a request is
queued, else the request that the pending buffer stands for. -/
def level_tile_rebuild_info.pending (info : level_tile_rebuild_info) : Option layer_request :=
  if info.tile_rebuild_queued then some (layer_request.of_list info.rebuild_tile_layers_buffer)
  else none

/-- A sample tile object: a tile of 32 x 32 without solidity. -/
def sample_object (id : Nat) : level_object :=
  { id := id, width := 32, height := 32, all_solid := false, has_solid := false, solid := ∅,
    is_passthrough := false, friction := 100, traction := 100, damage := 0, info := "",
    solid_color := none, is_opaque := false }

/-- A sample placed tile at (x, y) on the layer `zorder`. -/
def sample_tile (id : Nat) (zorder x y : Int) : level_tile :=
  { x := x, y := y, layer_from := zorder, zorder := zorder, object := sample_object id,
    face_right := false, draw_disabled := false }

/-- A sample opaque tile at (x, y) on the layer `zorder`. -/
def sample_opaque_tile (id : Nat) (zorder x y : Int) : level_tile :=
  { sample_tile id zorder x y with
    object := { sample_object id with is_opaque := true } }

/-- Sample tile maps that generate no tile at all: one map, on layer 0. -/
def sample_tile_env : tile_env :=
  { tile_map_layers := [0], build_tiles := fun _ => [], build_tiles_rect := fun _ _ => [] }

/-- A sample tile store in the editor: the given tiles and solid index, no
rebuild under way. -/
def sample_store (tiles : List level_tile) (solid_ : level_solid_map) : tile_store :=
  { tiles_ := tiles, solid_ := solid_, standable_ := level_solid_map.empty,
    editor_tile_updates_frozen_ := 0, editor_ := true, is_arcade_level := false,
    boundaries_ := { x := 0, y := 0, w := 640, h := 480 },
    layer_speed := fun _ => (100, 100),
    info := level_tile_rebuild_info.initial, live_threads := 0 }

/-- A sample solid index: the four cells (-2, 0), (-1, 0), (0, 0) and (1, 0)
are uniformly solid. -/
def sample_ground : level_solid_map :=
  level.add_solid_rect 32 level_solid_map.empty (-64) 0 64 32 100 100 0 ""

end Anura

namespace Anura

/-- The placed-tile list is sorted under `level_tile_zorder_pos_comparer`: no
tile stands before a tile that the comparison puts in front of it. -/
def tiles_sorted (tiles : List level_tile) : Prop :=
  tiles.Pairwise (fun a b => level_tile_zorder_pos_comparer b a = false)

instance (tiles : List level_tile) : Decidable (tiles_sorted tiles) := by
  unfold tiles_sorted
  infer_instance

end Anura

namespace Anura

/-- The invariant of the rebuild state machine: a request is queued whenever
the pending buffer names a layer; a worker thread exists only while a rebuild
is in progress; the number of live worker threads is one when the record
points to a thread and zero when it does not; the pending buffer is sorted
and free of repeated values. -/
def rebuild_invariant (S : tile_store) : Prop :=
  (S.info.tile_rebuild_queued = false → S.info.rebuild_tile_layers_buffer = [])
  ∧ (S.info.rebuild_tile_thread = true → S.info.tile_rebuild_in_progress = true)
  ∧ S.live_threads = (if S.info.rebuild_tile_thread then 1 else 0)
  ∧ S.info.rebuild_tile_layers_buffer.Pairwise (fun a b => a < b)

end Anura

namespace Anura

/-! ## Compiled tiles -/

/-- The constant `INT_MAX` of a 32-bit `int`. -/
def INT_MAX : Int := 2147483647

/-- A node `compiled_tiles` of the written level: the written zorder, the base
position and the characters of the string `tiles`. -/
structure compiled_tiles_node where
  zorder : String
  x : Int
  y : Int
  tiles : List Char
deriving DecidableEq

/-- Code called for compiled tiles whose source is not at hand. -/
structure compiled_env where
  /-- The value written by `write_zorder(zorder)`. -/
  write_zorder : Int → String
  /-- The zorder read by `parse_zorder(value)`. -/
  parse_zorder : String → Int
  /-- The three characters that `level_object::write_compiled_index(buf)` stores. -/
  write_compiled_index : level_object → Char × Char × Char
  /-- The object that `level_object::get_compiled(i)` finds for the three
  characters at `i`. -/
  get_compiled : Char → Char → Char → level_object

/-- The state of the loop of `level::write` that emits the compiled tiles. -/
structure compiled_writer where
  num_tiles : Nat
  last_zorder : Int
  basex : Int
  basey : Int
  last_x : Int
  last_y : Int
  tiles_str : List Char
  nodes : List compiled_tiles_node

namespace level

/-- The number of rounds of `while(last < target) { ...; last += TileSize; }`
for a positive `TileSize`. -/
def rounds_until (T last target : Int) : Nat :=
  ((target - last + T - 1) / T).toNat

/-- The characters that the inner loop of the writer appends for the tiles
stacked at one position: their compiled indexes, separated by `|`. -/
def stacked_indexes (env : compiled_env) : List level_tile → List Char
  | [] => []
  | t :: rest =>
    let buf := env.write_compiled_index t.object
    match rest with
    | [] => [buf.1, buf.2.1, buf.2.2]
    | _ :: _ => [buf.1, buf.2.1, buf.2.2] ++ ['|'] ++ stacked_indexes env rest

/-- The loop `for(int n = 0; n <= tiles_.size(); ++n)` of `level::write` that
emits the nodes `compiled_tiles`, run on the tiles from index `n` on, with a
budget of rounds (every round passes at least one tile). The result is the
list of nodes and `num_compiled_tiles`. -/
def write_compiled_loop (env : compiled_env) (T : Int) :
    Nat → List level_tile → compiled_writer → outcome (List compiled_tiles_node × Nat)
  | 0, _, _ => .out_of_fuel
  | _ + 1, [], w =>
    -- n == tiles_.size(): the last node is written and the loop is left
    let nodes :=
      if w.tiles_str.isEmpty = false then
        w.nodes ++ [{ zorder := env.write_zorder w.last_zorder, x := w.basex, y := w.basey,
                      tiles := w.tiles_str }]
      else w.nodes
    .done (nodes, w.num_tiles)
  | fuel + 1, t :: rest, w =>
    if t.draw_disabled ∧ t.object.has_solid = false then
      write_compiled_loop env T fuel rest w
    else
      let w :=
        if t.zorder ≠ w.last_zorder then
          let nodes :=
            if w.tiles_str.isEmpty = false then
              w.nodes ++ [{ zorder := env.write_zorder w.last_zorder, x := w.basex, y := w.basey,
                            tiles := w.tiles_str }]
            else w.nodes
          let same := (t :: rest).takeWhile (fun m => m.zorder = t.zorder)
          let basex := same.foldl (fun b m => if m.x < b then m.x else b) INT_MAX
          let basey := same.foldl (fun b m => if m.y < b then m.y else b) INT_MAX
          { w with nodes := nodes, tiles_str := [], last_zorder := t.zorder,
                   basex := basex, basey := basey, last_x := basex, last_y := basey }
        else w
      -- while(last_y < tiles_[n].y) { tiles_str += "\n"; last_y += TileSize; last_x = basex; }
      let down := rounds_until T w.last_y t.y
      let w := { w with tiles_str := w.tiles_str ++ List.replicate down '\n'
                        last_y := w.last_y + (down : Int) * T
                        last_x := if down = 0 then w.last_x else w.basex }
      -- while(last_x < tiles_[n].x) { tiles_str += ","; last_x += TileSize; }
      let right := rounds_until T w.last_x t.x
      let w := { w with tiles_str := w.tiles_str ++ List.replicate right ','
                        last_x := w.last_x + (right : Int) * T }
      if w.last_x ≠ t.x then .assertion_failed
      else if w.last_y ≠ t.y then .assertion_failed
      else
        let w := if t.face_right then { w with tiles_str := w.tiles_str ++ ['~'] } else w
        let here : level_tile → Bool := fun m => m.x = t.x ∧ m.y = t.y ∧ m.zorder = t.zorder
        let stacked := t :: rest.takeWhile here
        let w := { w with tiles_str := w.tiles_str ++ stacked_indexes env stacked
                          num_tiles := w.num_tiles + stacked.length }
        let w := { w with tiles_str := w.tiles_str ++ [','], last_x := w.last_x + T }
        write_compiled_loop env T fuel (rest.dropWhile here) w

/-- The compiled tiles written by `level::write()` (with
`preferences::compiling_tiles` set and `tiles_` not empty): the tiles are
sorted, then the nodes `compiled_tiles` and `num_compiled_tiles` are
emitted. -/
def write_compiled_tiles (env : compiled_env) (T : Int) (tiles_ : List level_tile) :
    outcome (List compiled_tiles_node × Nat) :=
  let tiles_ := std_sort level_tile_zorder_pos_comparer tiles_
  write_compiled_loop env T (tiles_.length + 1) tiles_
    { num_tiles := 0, last_zorder := INT_MIN, basex := 0, basey := 0, last_x := 0, last_y := 0,
      tiles_str := [], nodes := [] }

/-- The loop `while(i != end)` of `read_compiled_tiles`, with a budget of
rounds (every round passes at least one character). The state is the
characters from `i` on, the position `x`, `y`, the tiles written through
`out` so far and the number of tiles that `out` may still write. A tile that
is written keeps the `layer_from` of the tile that `resize` created. -/
def read_compiled_loop (env : compiled_env) (T : Int) (xbase zorder : Int) :
    Nat → List Char → Int → Int → List level_tile → Nat → outcome (List level_tile × Nat)
  | 0, _, _, _, _, _ => .out_of_fuel
  | _ + 1, [], _, _, out, room => .done (out, room)
  | fuel + 1, c :: rest, x, y, out, room =>
    if c = '|' then read_compiled_loop env T xbase zorder fuel rest x y out room
    else if c = ',' then read_compiled_loop env T xbase zorder fuel rest (x + T) y out room
    else if c = '\n' then read_compiled_loop env T xbase zorder fuel rest xbase (y + T) out room
    else
      match room with
      | 0 => .assertion_failed
      | room + 1 =>
        let face_right := decide (c = '~')
        let i := if c = '~' then rest else c :: rest
        match i with
        | a :: b :: d :: after =>
          let tile : level_tile :=
            { x := x, y := y, layer_from := 0, zorder := zorder,
              object := env.get_compiled a b d, face_right := face_right, draw_disabled := false }
          read_compiled_loop env T xbase zorder fuel after x y (out ++ [tile]) room
        | _ => .assertion_failed

/-- Parsing of one node, `level::read_compiled_tiles(node, out)`. -/
def read_compiled_tiles (env : compiled_env) (T : Int) (node : compiled_tiles_node)
    (out : List level_tile) (room : Nat) : outcome (List level_tile × Nat) :=
  let xbase := node.x
  let ybase := node.y
  let zorder := env.parse_zorder node.zorder
  read_compiled_loop env T xbase zorder (node.tiles.length + 1) node.tiles xbase ybase out room

/-- The part of the constructor of `level` that reads the compiled tiles:
`tiles_` is grown by `num_compiled_tiles` (the room left for `out` at the
start), every node is parsed into the new tiles, and the count is checked.
The result is the parsed tiles. -/
def read_all_compiled_tiles (env : compiled_env) (T : Int) :
    List compiled_tiles_node → List level_tile → Nat → outcome (List level_tile)
  | [], out, room => if room = 0 then .done out else .assertion_failed
  | node :: rest, out, room =>
    match read_compiled_tiles env T node out room with
    | .done (out, room) => read_all_compiled_tiles env T rest out room
    | .assertion_failed => .assertion_failed
    | .out_of_fuel => .out_of_fuel

/-- The round trip of the compiled tiles: the nodes and the count written for
`tiles_`, parsed back. -/
def compiled_round_trip (env : compiled_env) (T : Int) (tiles_ : List level_tile) :
    outcome (List level_tile) :=
  match write_compiled_tiles env T tiles_ with
  | .done (nodes, num) => read_all_compiled_tiles env T nodes [] num
  | .assertion_failed => .assertion_failed
  | .out_of_fuel => .out_of_fuel

end level

/-- Sample code for compiled tiles: the zorder is written in decimal (the
layers 0 and 1 are read back), and the object at address k has the compiled
index "AA" followed by the k-th letter after 'A'. -/
def sample_compiled_env : compiled_env :=
  { write_zorder := fun z => toString z
    parse_zorder := fun s => if s = "1" then 1 else 0
    write_compiled_index := fun obj =>
      ('A', 'A', if obj.id = 1 then 'B' else if obj.id = 2 then 'C' else 'D')
    get_compiled := fun _ _ c =>
      sample_object (if c = 'B' then 1 else if c = 'C' then 2 else 3) }

end Anura

/-! # Theorems -/

namespace Anura

open level

/-! ## Arithmetic of the pixel-to-cell resolution -/

theorem neg_tmod_eq (x T : Int) : (-x).tmod T = -(x.tmod T) := by
  rw [Int.tmod_def, Int.tmod_def, Int.neg_tdiv]
  ring

theorem neg_lt_tmod (x : Int) {T : Int} (hT : 0 < T) : -T < x.tmod T := by
  rcases le_or_lt 0 x with h | h
  · have := Int.tmod_nonneg T h
    omega
  · have h1 : (-x).tmod T < T := Int.tmod_lt_of_pos _ hT
    rw [neg_tmod_eq] at h1
    omega

/-- The resolution of the source (truncating division, then a correction of
negative remainders) is floor division: the cell is `x / T` and the offset
`x % T`, for the flooring `/` and `%` of `Int`. -/
theorem cell_and_offset_eq {T : Int} (hT : 0 < T) (x : Int) :
    cell_and_offset T x = (x / T, x % T) := by
  have h1 := Int.tdiv_add_tmod x T
  have h2 := Int.tmod_lt_of_pos x hT
  have h3 := neg_lt_tmod x hT
  unfold cell_and_offset
  simp only
  split_ifs with h
  · have := (Int.ediv_emod_unique (a := x) (r := x.tmod T + T) (q := x.tdiv T - 1) hT).2
      ⟨by rw [mul_sub]; omega, by omega, by omega⟩
    rw [this.1, this.2]
  · have := (Int.ediv_emod_unique (a := x) (r := x.tmod T) (q := x.tdiv T) hT).2
      ⟨by omega, by omega, by omega⟩
    rw [this.1, this.2]

theorem offset_index_range {T a b : Int} (ha0 : 0 ≤ a) (ha : a < T) (hb0 : 0 ≤ b) (hb : b < T) :
    a * T + b ∈ bitmap_all T := by
  unfold bitmap_all
  rw [Finset.mem_Ico]
  constructor
  · nlinarith
  · nlinarith

theorem offset_index_inj {T a b c d : Int} (hb0 : 0 ≤ b) (hb : b < T)
    (hd0 : 0 ≤ d) (hd : d < T) (h : a * T + b = c * T + d) : a = c ∧ b = d := by
  have hac : a = c := by
    by_contra hne
    rcases lt_or_gt_of_ne hne with h1 | h1
    · nlinarith
    · nlinarith
  subst hac
  exact ⟨rfl, by linarith⟩

/-! ## The point query and the pixel write, in terms of floor division -/

theorem is_solid_eq {T : Int} (hT : 0 < T) (m : level_solid_map) (x y : Int) :
    is_solid T m x y =
      match m (x / T, y / T) with
      | some info =>
        if info.all_solid then some info.info
        else if (y % T) * T + x % T ∈ info.bitmap then some info.info else none
      | none => none := by
  unfold is_solid level_solid_map.find
  simp only [cell_and_offset_eq hT]

/-- The record that `set_solid` leaves in the cell it writes, from the record
`r` that `insert_or_find` returned. -/
theorem set_solid_eq {T : Int} (hT : 0 < T) (m : level_solid_map) (x y f t d : Int)
    (s : String) (b : Bool) :
    set_solid T m x y f t d s b =
      m.store (x / T, y / T)
        (let r := m.insert_or_find (x / T, y / T)
         let dmg := merge_damage r.info.damage d
         if b then
           { bitmap := insert ((y % T) * T + x % T) r.bitmap, all_solid := r.all_solid,
             info := { friction := f, traction := t, damage := dmg,
                       info := update_tag r.info.info s } }
         else
           { bitmap := (if r.all_solid then bitmap_all T else r.bitmap).erase ((y % T) * T + x % T),
             all_solid := false,
             info := { friction := r.info.friction, traction := r.info.traction, damage := dmg,
                       info := update_tag r.info.info s } }) := by
  unfold set_solid
  simp only [cell_and_offset_eq hT]
  cases b <;> simp
  split_ifs with h <;> simp [h]

theorem store_same (m : level_solid_map) (p : tile_pos) (s : tile_solid_info) :
    (m.store p s) p = some s := by
  simp [level_solid_map.store]

theorem store_other (m : level_solid_map) (p q : tile_pos) (s : tile_solid_info) (h : q ≠ p) :
    (m.store p s) q = m q := by
  simp [level_solid_map.store, h]

/-! ## C1: write then query -/

/-- C1: for every pixel (x, y), negative coordinates included, and every map
with no record for the owning cell, after `set_solid` with `solid = true` the
query `is_solid` at (x, y) returns true and reports exactly the friction,
traction and damage written; the record is stored under the cell
(floor(x/TileSize), floor(y/TileSize)) and no other cell changes; pixel
x = -1 is stored in cell -1 and cell 0 is left as it was. -/
theorem C1_set_solid_then_is_solid (T : Int) (hT : 0 < T) (m : level_solid_map)
    (x y friction traction damage : Int) (info : String)
    (hm : m.find (x / T, y / T) = none) :
    is_solid T (set_solid T m x y friction traction damage info true) x y
        = some { friction := friction, traction := traction, damage := damage,
                 info := update_tag none info }
    ∧ (∃ r, (set_solid T m x y friction traction damage info true).find (x / T, y / T) = some r
          ∧ r.info.friction = friction ∧ r.info.traction = traction
          ∧ r.info.damage = damage)
    ∧ (∀ q, q ≠ (x / T, y / T) →
          (set_solid T m x y friction traction damage info true).find q = m.find q)
    ∧ (∀ (m0 : level_solid_map) (y0 : Int),
          ((set_solid T m0 (-1) y0 friction traction damage info true).find (-1, y0 / T)).isSome
            = true
          ∧ (set_solid T m0 (-1) y0 friction traction damage info true).find (0, y0 / T)
            = m0.find (0, y0 / T)) := by
  have hfresh : m.insert_or_find (x / T, y / T) = tile_solid_info.fresh := by
    unfold level_solid_map.insert_or_find
    unfold level_solid_map.find at hm
    rw [hm]; rfl
  have hd : merge_damage tile_solid_info.fresh.info.damage damage = damage := by
    simp [merge_damage, tile_solid_info.fresh]
  have hd' : merge_damage (-1) damage = damage := by
    simp [merge_damage]
  refine ⟨?_, ?_, ?_, ?_⟩
  · rw [is_solid_eq hT, set_solid_eq hT, store_same]
    simp [hfresh, hd', tile_solid_info.fresh]
  · rw [set_solid_eq hT]
    unfold level_solid_map.find
    rw [store_same]
    simp [hfresh, hd', tile_solid_info.fresh]
  · intro q hq
    rw [set_solid_eq hT]
    unfold level_solid_map.find
    rw [store_other _ _ _ _ hq]
  · intro m0 y0
    have h1 : (-1 : Int) / T = -1 := by
      have := (Int.ediv_emod_unique (a := -1) (r := T - 1) (q := -1) hT).2
        ⟨by ring, by omega, by omega⟩
      exact this.1
    rw [set_solid_eq hT, h1]
    unfold level_solid_map.find
    constructor
    · rw [store_same]; rfl
    · rw [store_other]
      simp

/-- Witness of C1 at TileSize 32: the pixel (-1, -33) of the empty map lies in
cell (-1, -2). -/
theorem C1_set_solid_then_is_solid_witness :
    (0 : Int) < 32 ∧ level_solid_map.empty.find ((-1 : Int) / 32, (-33 : Int) / 32) = none
    ∧ is_solid 32 (set_solid 32 level_solid_map.empty (-1) (-33) 7 8 9 "" true) (-1) (-33)
        = some { friction := 7, traction := 8, damage := 9, info := none }
    ∧ ((set_solid 32 level_solid_map.empty (-1) (-33) 7 8 9 "" true).find (-1, -2)).isSome = true :=
  ⟨by decide, rfl,
   (C1_set_solid_then_is_solid 32 (by decide) level_solid_map.empty (-1) (-33) 7 8 9 "" rfl).1,
   by decide⟩

/-! ## C6: clearing one pixel of a uniformly solid cell -/

/-- C6: when the record of the cell of pixel (x, y) is `all_solid`, after
`set_solid` with `solid = false` at (x, y) the query is false at (x, y) and
still true at every other pixel of the same cell: the record is no longer
`all_solid` and its bitmap is the fully set bitmap with the one bit cleared. -/
theorem C6_clear_pixel_of_all_solid_cell (T : Int) (hT : 0 < T) (m : level_solid_map)
    (r : tile_solid_info) (x y friction traction damage : Int) (info : String)
    (hr : m.find (x / T, y / T) = some r) (hall : r.all_solid = true) :
    is_solid T (set_solid T m x y friction traction damage info false) x y = none
    ∧ (∀ qx qy : Int, qx / T = x / T → qy / T = y / T → (qx, qy) ≠ (x, y) →
        (is_solid T (set_solid T m x y friction traction damage info false) qx qy).isSome = true)
    ∧ (∃ r', (set_solid T m x y friction traction damage info false).find (x / T, y / T) = some r'
        ∧ r'.all_solid = false
        ∧ r'.bitmap = (bitmap_all T).erase ((y % T) * T + x % T)) := by
  have hfind : m.insert_or_find (x / T, y / T) = r := by
    unfold level_solid_map.insert_or_find
    unfold level_solid_map.find at hr
    rw [hr]; rfl
  refine ⟨?_, ?_, ?_⟩
  · rw [is_solid_eq hT, set_solid_eq hT, store_same]
    simp [hfind, hall]
  · intro qx qy hx hy hne
    rw [is_solid_eq hT, hx, hy, set_solid_eq hT, store_same]
    have hidx : (qy % T) * T + qx % T ≠ (y % T) * T + x % T := by
      intro h
      have hT0 : T ≠ 0 := ne_of_gt hT
      have := offset_index_inj (Int.emod_nonneg qx hT0) (Int.emod_lt_of_pos qx hT)
        (Int.emod_nonneg x hT0) (Int.emod_lt_of_pos x hT) h
      apply hne
      have e1 := Int.emod_add_ediv qx T
      have e2 := Int.emod_add_ediv x T
      have e3 := Int.emod_add_ediv qy T
      have e4 := Int.emod_add_ediv y T
      rw [hx, this.2] at e1
      rw [hy, this.1] at e3
      rw [Prod.mk.injEq]
      exact ⟨e1.symm.trans e2, e3.symm.trans e4⟩
    have hT0 : T ≠ 0 := ne_of_gt hT
    have hin := offset_index_range (Int.emod_nonneg qy hT0) (Int.emod_lt_of_pos qy hT)
      (Int.emod_nonneg qx hT0) (Int.emod_lt_of_pos qx hT)
    simp [hfind, hall, hidx, hin]
  · rw [set_solid_eq hT]
    unfold level_solid_map.find
    rw [store_same]
    simp [hfind, hall]

/-- Witness of C6 at TileSize 32: a cell marked by `add_solid_rect`, cleared at
pixel (3, 4). -/
theorem C6_clear_pixel_of_all_solid_cell_witness :
    (0 : Int) < 32
    ∧ (add_solid_rect 32 level_solid_map.empty 0 0 32 32 1 1 0 "").find ((3 : Int) / 32, (4 : Int) / 32)
        = some { bitmap := ∅, all_solid := true,
                 info := { friction := 1, traction := 1, damage := 0, info := none } }
    ∧ is_solid 32 (set_solid 32 (add_solid_rect 32 level_solid_map.empty 0 0 32 32 1 1 0 "")
        3 4 0 0 0 "" false) 3 4 = none :=
  ⟨by decide, by decide,
   (C6_clear_pixel_of_all_solid_cell 32 (by decide)
      (add_solid_rect 32 level_solid_map.empty 0 0 32 32 1 1 0 "")
      { bitmap := ∅, all_solid := true,
        info := { friction := 1, traction := 1, damage := 0, info := none } }
      3 4 0 0 0 "" (by decide) rfl).1⟩

end Anura

namespace Anura

open level

/-! ## Folding writes over a list of cells -/

theorem foldl_loop_grid {α : Type} (g : α → Int → Int → α) (xs ys : List Int) (a : α) :
    ys.foldl (fun m y => xs.foldl (fun m x => g m x y) m) a
      = (loop_grid xs ys).foldl (fun m p => g m p.1 p.2) a := by
  induction ys generalizing a with
  | nil => rfl
  | cons y rest ih =>
    simp only [List.foldl_cons, loop_grid, List.foldl_append, List.foldl_map]
    exact ih _

theorem mem_loop_grid (xs ys : List Int) (p : Int × Int) :
    p ∈ loop_grid xs ys ↔ p.1 ∈ xs ∧ p.2 ∈ ys := by
  induction ys with
  | nil => simp [loop_grid]
  | cons y rest ih =>
    simp only [loop_grid, List.mem_append, List.mem_map, ih, List.mem_cons]
    constructor
    · rintro (⟨x, hx, rfl⟩ | ⟨h1, h2⟩)
      · exact ⟨hx, Or.inl rfl⟩
      · exact ⟨h1, Or.inr h2⟩
    · rintro ⟨h1, h2 | h2⟩
      · left; exact ⟨p.1, h1, by rw [← h2]⟩
      · right; exact ⟨h1, h2⟩

/-- A loop whose body rewrites one cell, the new record standing in relation
`R` to the record `insert_or_find` returned: when `R` composes, a cell the
loop reaches ends in relation `R` to its record before the loop, and a cell
it does not reach keeps its record. -/
theorem foldl_cells {β : Type} (R : tile_solid_info → tile_solid_info → Prop)
    (hR : ∀ a b c, R a b → R b c → R a c)
    (st : level_solid_map → β → level_solid_map) (pos : β → tile_pos)
    (h1 : ∀ m p q, q ≠ pos p → (st m p) q = m q)
    (h2 : ∀ m p, ∃ r, (st m p) (pos p) = some r ∧ R (m.insert_or_find (pos p)) r)
    (ps : List β) (m : level_solid_map) (q : tile_pos) :
    (q ∈ ps.map pos → ∃ r, (ps.foldl st m) q = some r ∧ R (m.insert_or_find q) r)
    ∧ (q ∉ ps.map pos → (ps.foldl st m) q = m q) := by
  induction ps generalizing m with
  | nil => simp
  | cons p rest ih =>
    simp only [List.foldl_cons, List.map_cons, List.mem_cons]
    obtain ⟨ih1, ih2⟩ := ih (st m p)
    constructor
    · intro hq
      by_cases hrest : q ∈ rest.map pos
      · obtain ⟨r, hr, hrel⟩ := ih1 hrest
        refine ⟨r, hr, ?_⟩
        by_cases hqp : q = pos p
        · subst hqp
          obtain ⟨r0, hr0, hrel0⟩ := h2 m p
          have : (st m p).insert_or_find (pos p) = r0 := by
            unfold level_solid_map.insert_or_find
            rw [hr0]; rfl
          rw [this] at hrel
          exact hR _ _ _ hrel0 hrel
        · have : (st m p).insert_or_find q = m.insert_or_find q := by
            unfold level_solid_map.insert_or_find
            rw [h1 m p q hqp]
          rw [this] at hrel
          exact hrel
      · have hqp : q = pos p := by
          rcases hq with h | h
          · exact h
          · exact absurd h hrest
        subst hqp
        obtain ⟨r0, hr0, hrel0⟩ := h2 m p
        exact ⟨r0, by rw [ih2 hrest, hr0], hrel0⟩
    · intro hq
      push_neg at hq
      rw [ih2 hq.2, h1 m p q hq.1]

theorem merge_damage_idem (a d : Int) : merge_damage (merge_damage a d) d = merge_damage a d := by
  unfold merge_damage
  split_ifs <;> omega

theorem update_tag_idem (t : Option String) (s : String) :
    update_tag (update_tag t s) s = update_tag t s := by
  unfold update_tag
  split_ifs <;> rfl

theorem add_solid_rect_cell_eq (T : Int) (m : level_solid_map) (x y f t d : Int) (s : String) :
    add_solid_rect_cell T m x y f t d s
      = m.store (x.tdiv T, y.tdiv T)
          (rect_cell_record f t d s (m.insert_or_find (x.tdiv T, y.tdiv T))) := rfl

theorem rect_cell_record_idem (f t d : Int) (s : String) (a : tile_solid_info) :
    rect_cell_record f t d s (rect_cell_record f t d s a) = rect_cell_record f t d s a := by
  simp [rect_cell_record, merge_damage_idem, update_tag_idem]

/-- The tile-aligned branch of `add_solid_rect`, cell by cell. -/
theorem add_solid_rect_aligned (T : Int) (m : level_solid_map) (x1 y1 x2 y2 f t d : Int)
    (s : String) (hx1 : x1.tmod T = 0) (hy1 : y1.tmod T = 0) (hx2 : x2.tmod T = 0)
    (hy2 : y2.tmod T = 0) (q : tile_pos) :
    (q ∈ (loop_grid (loop_range_step x1 x2 T) (loop_range_step y1 y2 T)).map
          (fun p => (p.1.tdiv T, p.2.tdiv T)) →
        (add_solid_rect T m x1 y1 x2 y2 f t d s) q
          = some (rect_cell_record f t d s (m.insert_or_find q)))
    ∧ (q ∉ (loop_grid (loop_range_step x1 x2 T) (loop_range_step y1 y2 T)).map
          (fun p => (p.1.tdiv T, p.2.tdiv T)) →
        (add_solid_rect T m x1 y1 x2 y2 f t d s) q = m q) := by
  have hfold : add_solid_rect T m x1 y1 x2 y2 f t d s
      = (loop_grid (loop_range_step x1 x2 T) (loop_range_step y1 y2 T)).foldl
          (fun m p => add_solid_rect_cell T m p.1 p.2 f t d s) m := by
    unfold add_solid_rect
    rw [if_neg (by simp [hx1, hy1, hx2, hy2])]
    exact foldl_loop_grid (fun m x y => add_solid_rect_cell T m x y f t d s) _ _ m
  have key := foldl_cells (fun a b => b = rect_cell_record f t d s a)
    (fun a b c hab hbc => by rw [hbc, hab, rect_cell_record_idem])
    (fun m (p : Int × Int) => add_solid_rect_cell T m p.1 p.2 f t d s)
    (fun p => (p.1.tdiv T, p.2.tdiv T))
    (fun m p q hq => by beta_reduce; rw [add_solid_rect_cell_eq]; exact store_other _ _ _ _ hq)
    (fun m p => ⟨_, by beta_reduce; rw [add_solid_rect_cell_eq]; exact store_same _ _ _, rfl⟩)
    (loop_grid (loop_range_step x1 x2 T) (loop_range_step y1 y2 T)) m q
  rw [hfold]
  constructor
  · intro hq
    obtain ⟨r, hr, hrel⟩ := key.1 hq
    rw [hr, hrel]
  · exact key.2

theorem mem_loop_range_step_aligned {T : Int} (hT : 0 < T) (a b v : Int) :
    v ∈ loop_range_step (T * a) (T * b) T ↔ ∃ c : Int, a ≤ c ∧ c < b ∧ v = T * c := by
  have hlen : (T * b - T * a + T - 1) / T = b - a := by
    have := (Int.ediv_emod_unique (a := T * b - T * a + T - 1) (r := T - 1) (q := b - a) hT).2
      ⟨by ring, by omega, by omega⟩
    exact this.1
  unfold loop_range_step
  rw [hlen]
  simp only [List.mem_map, List.mem_range]
  constructor
  · rintro ⟨k, hk, rfl⟩
    refine ⟨a + k, by omega, by omega, by ring⟩
  · rintro ⟨c, hac, hcb, rfl⟩
    refine ⟨(c - a).toNat, by omega, ?_⟩
    have : ((c - a).toNat : Int) = c - a := Int.toNat_of_nonneg (by omega)
    rw [this]; ring

theorem mem_aligned_cells {T : Int} (hT : 0 < T) (a b c e : Int) (q : tile_pos) :
    q ∈ (loop_grid (loop_range_step (T * a) (T * b) T) (loop_range_step (T * c) (T * e) T)).map
          (fun p => (p.1.tdiv T, p.2.tdiv T))
      ↔ a ≤ q.1 ∧ q.1 < b ∧ c ≤ q.2 ∧ q.2 < e := by
  have hT0 : T ≠ 0 := ne_of_gt hT
  simp only [List.mem_map, mem_loop_grid, mem_loop_range_step_aligned hT]
  constructor
  · rintro ⟨p, ⟨⟨u, hu1, hu2, hu⟩, ⟨v, hv1, hv2, hv⟩⟩, rfl⟩
    simp only [hu, hv, Int.mul_tdiv_cancel_left _ hT0]
    exact ⟨hu1, hu2, hv1, hv2⟩
  · rintro ⟨h1, h2, h3, h4⟩
    refine ⟨(T * q.1, T * q.2), ⟨⟨q.1, h1, h2, rfl⟩, ⟨q.2, h3, h4, rfl⟩⟩, ?_⟩
    simp only [Int.mul_tdiv_cancel_left _ hT0]

/-! ## C8: a tile-aligned rectangle on an empty index -/

/-- C8: for a rectangle [x1,x2) x [y1,y2) whose four coordinates are multiples
of TileSize (negative ones included), written by `add_solid_rect` on the empty
solid index with friction f: `solid(x, y)` returns true, with friction f (and
the traction and damage written), exactly for the pixels with x1 <= x < x2 and
y1 <= y < y2, and returns false for every other pixel. -/
theorem C8_aligned_rect_on_empty_index (T : Int) (hT : 0 < T)
    (x1 y1 x2 y2 friction traction damage : Int) (info : String)
    (hx1 : T ∣ x1) (hy1 : T ∣ y1) (hx2 : T ∣ x2) (hy2 : T ∣ y2) (x y : Int) :
    ((x1 ≤ x ∧ x < x2 ∧ y1 ≤ y ∧ y < y2) →
      solid T (add_solid_rect T level_solid_map.empty x1 y1 x2 y2 friction traction damage info) x y
        = some { friction := friction, traction := traction, damage := damage,
                 info := update_tag none info })
    ∧ (¬ (x1 ≤ x ∧ x < x2 ∧ y1 ≤ y ∧ y < y2) →
      solid T (add_solid_rect T level_solid_map.empty x1 y1 x2 y2 friction traction damage info) x y
        = none) := by
  obtain ⟨a, rfl⟩ := hx1
  obtain ⟨c, rfl⟩ := hy1
  obtain ⟨b, rfl⟩ := hx2
  obtain ⟨e, rfl⟩ := hy2
  have hT0 : T ≠ 0 := ne_of_gt hT
  have key := add_solid_rect_aligned T level_solid_map.empty (T * a) (T * c) (T * b) (T * e)
    friction traction damage info (Int.tmod_eq_zero_of_dvd ⟨a, rfl⟩)
    (Int.tmod_eq_zero_of_dvd ⟨c, rfl⟩) (Int.tmod_eq_zero_of_dvd ⟨b, rfl⟩)
    (Int.tmod_eq_zero_of_dvd ⟨e, rfl⟩) (x / T, y / T)
  rw [mem_aligned_cells hT] at key
  have hcell : (a ≤ x / T ∧ x / T < b ∧ c ≤ y / T ∧ y / T < e)
      ↔ (T * a ≤ x ∧ x < T * b ∧ T * c ≤ y ∧ y < T * e) := by
    rw [Int.le_ediv_iff_mul_le hT, Int.ediv_lt_iff_lt_mul hT, Int.le_ediv_iff_mul_le hT,
      Int.ediv_lt_iff_lt_mul hT, mul_comm a T, mul_comm b T, mul_comm c T, mul_comm e T]
  rw [hcell] at key
  unfold solid
  rw [is_solid_eq hT]
  constructor
  · intro h
    rw [key.1 h]
    simp [rect_cell_record, level_solid_map.insert_or_find, level_solid_map.empty,
      tile_solid_info.fresh, merge_damage]
  · intro h
    rw [key.2 h]
    rfl

/-- Witness of C8: TileSize 32, rectangle (0,0)-(64,32), friction 50: the pixel
(16,16) is solid with friction 50 and the pixel (16,48) is not solid. -/
theorem C8_aligned_rect_on_empty_index_witness :
    (0 : Int) < 32 ∧ ((32 : Int) ∣ 0) ∧ ((32 : Int) ∣ 64) ∧ ((32 : Int) ∣ 32)
    ∧ solid 32 (add_solid_rect 32 level_solid_map.empty 0 0 64 32 50 0 0 "") 16 16
        = some { friction := 50, traction := 0, damage := 0, info := none }
    ∧ solid 32 (add_solid_rect 32 level_solid_map.empty 0 0 64 32 50 0 0 "") 16 48 = none :=
  ⟨by decide, by decide, by decide, by decide,
   (C8_aligned_rect_on_empty_index 32 (by decide) 0 0 64 32 50 0 0 "" (by decide) (by decide)
      (by decide) (by decide) 16 16).1 (by decide),
   (C8_aligned_rect_on_empty_index 32 (by decide) 0 0 64 32 50 0 0 "" (by decide) (by decide)
      (by decide) (by decide) 16 48).2 (by decide)⟩

end Anura

namespace Anura

open level

/-! ## C7: the damage stored in a cell -/

theorem set_solid_cell (T : Int) (m : level_solid_map) (x y f t d : Int) (s : String) (b : Bool) :
    ∃ r, set_solid T m x y f t d s b
        = m.store ((cell_and_offset T x).1, (cell_and_offset T y).1) r
      ∧ r.info.damage
        = merge_damage
            (m.insert_or_find ((cell_and_offset T x).1, (cell_and_offset T y).1)).info.damage d := by
  unfold set_solid
  cases b
  · by_cases h : (m.insert_or_find ((cell_and_offset T x).1, (cell_and_offset T y).1)).all_solid
    · exact ⟨_, rfl, by simp [h]⟩
    · exact ⟨_, rfl, by simp [h]⟩
  · exact ⟨_, rfl, by simp⟩

/-- The relation between the record of a cell before and after a write of
damage `d` that reaches it. -/
theorem damage_rel_comp (d : Int) (a b c : tile_solid_info)
    (hab : b.info.damage = merge_damage a.info.damage d)
    (hbc : c.info.damage = merge_damage b.info.damage d) :
    c.info.damage = merge_damage a.info.damage d := by
  rw [hbc, hab, merge_damage_idem]

/-- One write, seen from one cell: a cell the write reaches holds a record
afterwards, whose damage is the merge of the damage it had (the default one
when it had no record) with the damage written; any other cell is unchanged. -/
theorem write_effect (T : Int) (w : solid_write) (m : level_solid_map) (c : tile_pos) :
    (c ∈ w.cells T → ∃ r, (w.run T m) c = some r
        ∧ r.info.damage = merge_damage (m.insert_or_find c).info.damage w.damage)
    ∧ (c ∉ w.cells T → (w.run T m) c = m c) := by
  cases w with
  | pixel x y f t d s b =>
    obtain ⟨r, hr, hd⟩ := set_solid_cell T m x y f t d s b
    simp only [solid_write.cells, solid_write.run, solid_write.damage, List.mem_singleton]
    constructor
    · intro hc
      subst hc
      exact ⟨r, by rw [hr, store_same], hd⟩
    · intro hc
      rw [hr, store_other _ _ _ _ hc]
  | rect x1 y1 x2 y2 f t d s =>
    simp only [solid_write.cells, solid_write.run, solid_write.damage]
    by_cases hal : x1.tmod T ≠ 0 ∨ y1.tmod T ≠ 0 ∨ x2.tmod T ≠ 0 ∨ y2.tmod T ≠ 0
    · have hfold : add_solid_rect T m x1 y1 x2 y2 f t d s
          = (loop_grid (loop_range x1 x2) (loop_range y1 y2)).foldl
              (fun m p => add_solid T m p.1 p.2 f t d s) m := by
        unfold add_solid_rect
        rw [if_pos hal]
        exact foldl_loop_grid (fun m x y => add_solid T m x y f t d s) _ _ m
      rw [if_pos hal, hfold]
      exact foldl_cells (fun a b => b.info.damage = merge_damage a.info.damage d)
        (damage_rel_comp d)
        (fun m (p : Int × Int) => add_solid T m p.1 p.2 f t d s)
        (fun p => ((cell_and_offset T p.1).1, (cell_and_offset T p.2).1))
        (fun m p q hq => by
          obtain ⟨r, hr, _⟩ := set_solid_cell T m p.1 p.2 f t d s true
          beta_reduce
          unfold add_solid
          rw [hr]
          exact store_other _ _ _ _ hq)
        (fun m p => by
          obtain ⟨r, hr, hd⟩ := set_solid_cell T m p.1 p.2 f t d s true
          refine ⟨r, ?_, hd⟩
          beta_reduce
          unfold add_solid
          rw [hr]
          exact store_same _ _ _)
        _ m c
    · have hfold : add_solid_rect T m x1 y1 x2 y2 f t d s
          = (loop_grid (loop_range_step x1 x2 T) (loop_range_step y1 y2 T)).foldl
              (fun m p => add_solid_rect_cell T m p.1 p.2 f t d s) m := by
        unfold add_solid_rect
        rw [if_neg hal]
        exact foldl_loop_grid (fun m x y => add_solid_rect_cell T m x y f t d s) _ _ m
      rw [if_neg hal, hfold]
      exact foldl_cells (fun a b => b.info.damage = merge_damage a.info.damage d)
        (damage_rel_comp d)
        (fun m (p : Int × Int) => add_solid_rect_cell T m p.1 p.2 f t d s)
        (fun p => (p.1.tdiv T, p.2.tdiv T))
        (fun m p q hq => by
          beta_reduce; rw [add_solid_rect_cell_eq]; exact store_other _ _ _ _ hq)
        (fun m p => ⟨_, by beta_reduce; rw [add_solid_rect_cell_eq]; exact store_same _ _ _, rfl⟩)
        _ m c

theorem touches_iff (T : Int) (w : solid_write) (c : tile_pos) :
    w.touches T c = true ↔ c ∈ w.cells T := by
  have h := write_effect T w level_solid_map.empty c
  unfold solid_write.touches
  constructor
  · intro ht
    by_contra hc
    rw [h.2 hc] at ht
    simp [level_solid_map.empty] at ht
  · intro hc
    obtain ⟨r, hr, _⟩ := h.1 hc
    rw [hr]; rfl

/-- The damage of a cell after a sequence of writes: the merges, in order, of
the damages of the writes that touch the cell. -/
theorem run_writes_damage (T : Int) (ws : List solid_write) (m : level_solid_map) (c : tile_pos) :
    ((run_writes T m ws).insert_or_find c).info.damage
      = ((ws.filter (fun w => w.touches T c)).map solid_write.damage).foldl merge_damage
          (m.insert_or_find c).info.damage := by
  induction ws generalizing m with
  | nil => rfl
  | cons w rest ih =>
    have hstep : run_writes T m (w :: rest) = run_writes T (w.run T m) rest := rfl
    rw [hstep, ih (w.run T m)]
    have h := write_effect T w m c
    by_cases ht : w.touches T c = true
    · obtain ⟨r, hr, hd⟩ := h.1 ((touches_iff T w c).1 ht)
      have : ((w.run T m).insert_or_find c).info.damage
          = merge_damage (m.insert_or_find c).info.damage w.damage := by
        unfold level_solid_map.insert_or_find at hd ⊢
        rw [hr]; exact hd
      rw [this]
      simp [List.filter_cons, ht]
    · have hc : c ∉ w.cells T := fun hc => ht ((touches_iff T w c).2 hc)
      have : (w.run T m).insert_or_find c = m.insert_or_find c := by
        unfold level_solid_map.insert_or_find
        rw [h.2 hc]
      rw [this]
      simp [List.filter_cons, ht]

theorem run_writes_isSome (T : Int) (ws : List solid_write) (m : level_solid_map) (c : tile_pos)
    (h : (∃ w ∈ ws, w.touches T c = true) ∨ (m c).isSome = true) :
    ((run_writes T m ws) c).isSome = true := by
  induction ws generalizing m with
  | nil =>
    rcases h with ⟨w, hw, _⟩ | h
    · simp at hw
    · exact h
  | cons w rest ih =>
    have hstep : run_writes T m (w :: rest) = run_writes T (w.run T m) rest := rfl
    rw [hstep]
    apply ih
    have he := write_effect T w m c
    by_cases ht : w.touches T c = true
    · right
      obtain ⟨r, hr, _⟩ := he.1 ((touches_iff T w c).1 ht)
      rw [hr]; rfl
    · rcases h with ⟨w', hw', ht'⟩ | h
      · rcases List.mem_cons.1 hw' with rfl | hmem
        · exact absurd ht' ht
        · left; exact ⟨w', hmem, ht'⟩
      · right
        have hc : c ∉ w.cells T := fun hc => ht ((touches_iff T w c).2 hc)
        rw [he.2 hc]; exact h

/-- Merging non-negative damages into a non-negative stored damage computes
the minimum. -/
theorem foldl_merge_nonneg (ds : List Int) (acc : Int) (hacc : 0 ≤ acc)
    (hds : ∀ d ∈ ds, 0 ≤ d) :
    0 ≤ ds.foldl merge_damage acc
    ∧ (ds.foldl merge_damage acc = acc ∨ ds.foldl merge_damage acc ∈ ds)
    ∧ ds.foldl merge_damage acc ≤ acc
    ∧ ∀ d ∈ ds, ds.foldl merge_damage acc ≤ d := by
  induction ds generalizing acc with
  | nil => simp [hacc]
  | cons d rest ih =>
    have hd : 0 ≤ d := hds d (List.mem_cons_self _ _)
    have hm : merge_damage acc d = min acc d := by simp [merge_damage, hacc]
    have hm0 : 0 ≤ merge_damage acc d := by rw [hm]; exact le_min hacc hd
    obtain ⟨h0, hin, hle, hall⟩ := ih (merge_damage acc d) hm0
      (fun e he => hds e (List.mem_cons_of_mem _ he))
    simp only [List.foldl_cons]
    refine ⟨h0, ?_, ?_, ?_⟩
    · rcases hin with h | h
      · rw [h, hm]
        rcases min_choice acc d with h' | h'
        · left; exact h'
        · right; rw [h']; exact List.mem_cons_self _ _
      · right; exact List.mem_cons_of_mem _ h
    · exact le_trans hle (by rw [hm]; exact min_le_left _ _)
    · intro e he
      rcases List.mem_cons.1 he with rfl | hmem
      · exact le_trans hle (by rw [hm]; exact min_le_right _ _)
      · exact hall e hmem

theorem foldl_merge_from_default (ds : List Int) (hne : ds ≠ []) (hds : ∀ d ∈ ds, 0 ≤ d) :
    ds.foldl merge_damage (-1) ∈ ds ∧ ∀ d ∈ ds, ds.foldl merge_damage (-1) ≤ d := by
  cases ds with
  | nil => exact absurd rfl hne
  | cons d rest =>
    have hd : 0 ≤ d := hds d (List.mem_cons_self _ _)
    have hm : merge_damage (-1) d = d := by simp [merge_damage]
    simp only [List.foldl_cons, hm]
    obtain ⟨_, hin, hle, hall⟩ := foldl_merge_nonneg rest d hd
      (fun e he => hds e (List.mem_cons_of_mem _ he))
    constructor
    · rcases hin with h | h
      · rw [h]; exact List.mem_cons_self _ _
      · exact List.mem_cons_of_mem _ h
    · intro e he
      rcases List.mem_cons.1 he with rfl | hmem
      · exact hle
      · exact hall e hmem

/-- C7 (as amended): for every cell with no record and every sequence of
writes through `set_solid` (solid or not) and `add_solid_rect` of which at
least one touches the cell, when the damage arguments of the writes that
touch the cell are all non-negative, the damage stored in the cell after the
sequence is the minimum of the damage arguments of the writes that touch it;
and one more such write never raises it. -/
theorem C7_damage_is_minimum_of_nonnegative_writes (T : Int) (m : level_solid_map)
    (ws : List solid_write) (c : tile_pos) (hm : m.find c = none)
    (hnn : ∀ w ∈ ws, w.touches T c = true → 0 ≤ w.damage)
    (ht : ∃ w ∈ ws, w.touches T c = true) :
    ∃ r, (run_writes T m ws).find c = some r
      ∧ (∃ w ∈ ws, w.touches T c = true ∧ r.info.damage = w.damage)
      ∧ (∀ w ∈ ws, w.touches T c = true → r.info.damage ≤ w.damage)
      ∧ (∀ w : solid_write, 0 ≤ w.damage →
          ∃ r', (run_writes T m (ws ++ [w])).find c = some r'
            ∧ r'.info.damage ≤ r.info.damage) := by
  have hsome := run_writes_isSome T ws m c (Or.inl ht)
  obtain ⟨r, hr⟩ := Option.isSome_iff_exists.1 hsome
  have hdmg := run_writes_damage T ws m c
  have hr' : (run_writes T m ws).insert_or_find c = r := by
    unfold level_solid_map.insert_or_find
    rw [hr]; rfl
  have hm' : (m.insert_or_find c).info.damage = -1 := by
    unfold level_solid_map.insert_or_find
    unfold level_solid_map.find at hm
    rw [hm]; rfl
  rw [hr', hm'] at hdmg
  have hne : (ws.filter (fun w => w.touches T c)).map solid_write.damage ≠ [] := by
    obtain ⟨w, hw, hwt⟩ := ht
    intro h
    have : w.damage ∈ (ws.filter (fun w => w.touches T c)).map solid_write.damage :=
      List.mem_map.2 ⟨w, List.mem_filter.2 ⟨hw, hwt⟩, rfl⟩
    rw [h] at this
    simp at this
  have hds : ∀ d ∈ (ws.filter (fun w => w.touches T c)).map solid_write.damage, 0 ≤ d := by
    intro d hd
    obtain ⟨w, hw, rfl⟩ := List.mem_map.1 hd
    obtain ⟨hw1, hw2⟩ := List.mem_filter.1 hw
    exact hnn w hw1 hw2
  obtain ⟨hin, hall⟩ := foldl_merge_from_default _ hne hds
  rw [← hdmg] at hin hall
  refine ⟨r, hr, ?_, ?_, ?_⟩
  · obtain ⟨w, hw, hwd⟩ := List.mem_map.1 hin
    obtain ⟨hw1, hw2⟩ := List.mem_filter.1 hw
    exact ⟨w, hw1, hw2, hwd.symm⟩
  · intro w hw hwt
    exact hall _ (List.mem_map.2 ⟨w, List.mem_filter.2 ⟨hw, hwt⟩, rfl⟩)
  · intro w hw0
    have hr0 : 0 ≤ r.info.damage := by
      obtain ⟨w', hw', hwd⟩ := List.mem_map.1 hin
      obtain ⟨hw1, hw2⟩ := List.mem_filter.1 hw'
      rw [← hwd]
      exact hnn w' hw1 hw2
    have happ : run_writes T m (ws ++ [w]) = w.run T (run_writes T m ws) := by
      unfold run_writes
      rw [List.foldl_append]
      rfl
    have he := write_effect T w (run_writes T m ws) c
    by_cases hc : c ∈ w.cells T
    · obtain ⟨r', hr'', hd⟩ := he.1 hc
      refine ⟨r', by unfold level_solid_map.find; rw [happ, hr''], ?_⟩
      rw [hd, hr']
      have : merge_damage r.info.damage w.damage = min r.info.damage w.damage := by
        simp [merge_damage, hr0]
      rw [this]
      exact min_le_left _ _
    · refine ⟨r, by unfold level_solid_map.find; rw [happ, he.2 hc, hr], le_refl _⟩

/-- Witness of C7 (as amended): TileSize 32, a pixel write of damage 4, a
rectangle write of damage 2 and a non-solid pixel write of damage 7, all in
cell (0, 0). -/
theorem C7_damage_is_minimum_of_nonnegative_writes_witness :
    level_solid_map.empty.find (0, 0) = none
    ∧ ∃ r, (run_writes 32 level_solid_map.empty
          [solid_write.pixel 1 1 0 0 4 "" true, solid_write.rect 0 0 32 32 0 0 2 "",
           solid_write.pixel 5 5 0 0 7 "" false]).find (0, 0) = some r
        ∧ (∀ w ∈ [solid_write.pixel 1 1 0 0 4 "" true, solid_write.rect 0 0 32 32 0 0 2 "",
                   solid_write.pixel 5 5 0 0 7 "" false],
            w.touches 32 (0, 0) = true → r.info.damage ≤ w.damage) := by
  refine ⟨rfl, ?_⟩
  obtain ⟨r, hr, _, hall, _⟩ := C7_damage_is_minimum_of_nonnegative_writes 32
    level_solid_map.empty
    [solid_write.pixel 1 1 0 0 4 "" true, solid_write.rect 0 0 32 32 0 0 2 "",
     solid_write.pixel 5 5 0 0 7 "" false] (0, 0) rfl
    (by
      intro w hw _
      simp only [List.mem_cons, List.mem_singleton, List.not_mem_nil, or_false] at hw
      rcases hw with rfl | rfl | rfl <;> decide)
    ⟨solid_write.pixel 1 1 0 0 4 "" true, List.mem_cons_self _ _, by decide⟩
  exact ⟨r, hr, hall⟩

/-- C7 fails as stated: with TileSize 32, after a write of damage -5 and then a
write of damage 3 to the pixel (0, 0) of an empty map, cell (0, 0) stores the
damage 3, which is not the minimum -5 of the two damage arguments; the second
write raised the stored damage from -5 to 3. -/
theorem C7_counterexample :
    ((run_writes 32 level_solid_map.empty
        [solid_write.pixel 0 0 0 0 (-5) "" true, solid_write.pixel 0 0 0 0 3 "" true]).find
        (0, 0)).map (fun r => r.info.damage) = some 3
    ∧ ((run_writes 32 level_solid_map.empty
        [solid_write.pixel 0 0 0 0 (-5) "" true]).find (0, 0)).map (fun r => r.info.damage)
        = some (-5)
    ∧ (solid_write.pixel 0 0 0 0 (-5) "" true).touches 32 (0, 0) = true
    ∧ (solid_write.pixel 0 0 0 0 3 "" true).touches 32 (0, 0) = true
    ∧ min (solid_write.pixel 0 0 0 0 (-5) "" true).damage
          (solid_write.pixel 0 0 0 0 3 "" true).damage = -5 := by
  decide

end Anura

namespace Anura

open level

/-! ## The snapshot ring: `backup()` -/

theorem backup_noop (env : collaborators) (L : level) (s : backup_snapshot)
    (h : L.backups_.getLast? = some s) (hc : s.cycle = L.cycle_) : backup env L = L := by
  unfold backup
  rw [h]
  simp [hc]

theorem backup_push (env : collaborators) (L : level)
    (h : ∀ s, L.backups_.getLast? = some s → s.cycle ≠ L.cycle_) :
    backup env L = { L with backups_ := ring_push L.backups_ (take_snapshot env L) } := by
  unfold backup
  cases hl : L.backups_.getLast? with
  | none => rfl
  | some s => simp [h s hl]

/-- `backup()` changes no member but the ring. -/
theorem backup_frame (env : collaborators) (L : level) :
    backup env L = { L with backups_ := (backup env L).backups_ } := by
  unfold backup
  cases L.backups_.getLast? with
  | none => rfl
  | some s =>
    simp only
    split_ifs <;> rfl

theorem ring_push_newest (ring : List backup_snapshot) (s : backup_snapshot) :
    (ring_push ring s).getLast? = some s := by
  unfold ring_push
  simp only
  split_ifs with h
  · cases ring with
    | nil => simp at h
    | cons a rest => simp
  · simp

/-- After `backup()` the newest snapshot of the ring has the current cycle. -/
theorem backup_newest (env : collaborators) (L : level) :
    ∃ s, (backup env L).backups_.getLast? = some s ∧ s.cycle = L.cycle_ := by
  by_cases h : ∃ s, L.backups_.getLast? = some s ∧ s.cycle = L.cycle_
  · obtain ⟨s, hs, hc⟩ := h
    exact ⟨s, by rw [backup_noop env L s hs hc]; exact hs, hc⟩
  · have h' : ∀ s, L.backups_.getLast? = some s → s.cycle ≠ L.cycle_ :=
      fun s hs hc => h ⟨s, hs, hc⟩
    refine ⟨take_snapshot env L, ?_, rfl⟩
    rw [backup_push env L h']
    exact ring_push_newest _ _

theorem backup_cycle (env : collaborators) (L : level) : (backup env L).cycle_ = L.cycle_ := by
  rw [backup_frame]

theorem backup_paused (env : collaborators) (L : level) : (backup env L).paused_ = L.paused_ := by
  rw [backup_frame]

theorem backup_chars (env : collaborators) (L : level) : (backup env L).chars_ = L.chars_ := by
  rw [backup_frame]

theorem ring_push_length_le (ring : List backup_snapshot) (s : backup_snapshot)
    (h : ring.length ≤ 250) : (ring_push ring s).length ≤ 250 := by
  unfold ring_push
  simp only
  split_ifs with hlen
  · simp only [List.length_drop, List.length_append, List.length_singleton]
    omega
  · simp only [List.length_append, List.length_singleton] at hlen ⊢
    omega

/-- The ring never grows past the cap. -/
theorem backup_length_le (env : collaborators) (L : level) (h : L.backups_.length ≤ 250) :
    (backup env L).backups_.length ≤ 250 := by
  by_cases hn : ∃ s, L.backups_.getLast? = some s ∧ s.cycle = L.cycle_
  · obtain ⟨s, hs, hc⟩ := hn
    rw [backup_noop env L s hs hc]; exact h
  · have h' : ∀ s, L.backups_.getLast? = some s → s.cycle ≠ L.cycle_ :=
      fun s hs hc => hn ⟨s, hs, hc⟩
    rw [backup_push env L h']
    exact ring_push_length_le _ _ h

/-! ## C5: `backup()` twice in the same cycle -/

/-- C5: for every level state, a second `backup()` in a row (the cycle counter
is not changed by the first) leaves the level, and so the ring, exactly as the
first call left it: same length, same snapshots. When the first call appended
a snapshot, its cycle differs from the cycle of the snapshot that was the
newest before, so the two adjacent entries do not share a cycle. -/
theorem C5_backup_idempotent_per_cycle (env : collaborators) (L : level) :
    backup env (backup env L) = backup env L
    ∧ (backup env (backup env L)).backups_.length = (backup env L).backups_.length
    ∧ (backup env L).cycle_ = L.cycle_
    ∧ (∀ older : backup_snapshot, L.backups_.getLast? = some older →
        (backup env L).backups_ ≠ L.backups_ →
        ∃ newest, (backup env L).backups_.getLast? = some newest
          ∧ newest.cycle ≠ older.cycle) := by
  have hidem : backup env (backup env L) = backup env L := by
    obtain ⟨s, hs, hc⟩ := backup_newest env L
    exact backup_noop env (backup env L) s hs (by rw [hc, backup_cycle])
  refine ⟨hidem, by rw [hidem], backup_cycle env L, ?_⟩
  intro older hold hne
  obtain ⟨s, hs, hc⟩ := backup_newest env L
  refine ⟨s, hs, ?_⟩
  intro heq
  apply hne
  rw [backup_noop env L older hold (by rw [← heq, hc])]

end Anura

namespace Anura

open level

/-! ## C4: the cap of the ring and the order of eviction -/

theorem take_snapshot_ring_irrelevant (env : collaborators) (w : level)
    (ring : List backup_snapshot) :
    take_snapshot env { w with backups_ := ring } = take_snapshot env w := rfl

/-- Pushing snapshots one after the other onto a ring within the cap: all of
them appended, then cut down from the front to the cap. -/
theorem foldl_ring_push (snaps : List backup_snapshot) (ring : List backup_snapshot)
    (hcap : ring.length ≤ 250) :
    snaps.foldl ring_push ring = (ring ++ snaps).drop (ring.length + snaps.length - 250) := by
  induction snaps generalizing ring with
  | nil =>
    have : ring.length + ([] : List backup_snapshot).length - 250 = 0 := by
      simp only [List.length_nil]
      omega
    rw [this]
    simp
  | cons s rest ih =>
    rw [List.foldl_cons, ih _ (ring_push_length_le ring s hcap)]
    rcases Nat.lt_or_ge ring.length 250 with hlt | hge
    · have hp : ring_push ring s = ring ++ [s] := by
        unfold ring_push
        simp only [List.length_append, List.length_singleton, List.length_cons, List.length_nil]
        rw [if_neg (by omega)]
      have e : (ring ++ [s]).length + rest.length - 250
          = ring.length + (s :: rest).length - 250 := by
        simp only [List.length_append, List.length_singleton, List.length_cons, List.length_nil]
        omega
      rw [hp, e, List.append_assoc, List.singleton_append]
    · have h250 : ring.length = 250 := by omega
      cases ring with
      | nil => simp at h250
      | cons a tl =>
        simp only [List.length_cons] at h250
        have hp : ring_push (a :: tl) s = tl ++ [s] := by
          unfold ring_push
          simp only [List.length_append, List.length_singleton, List.length_cons, List.length_nil]
          rw [if_pos (by omega)]
          rfl
        have e1 : (tl ++ [s]).length + rest.length - 250 = rest.length := by
          simp only [List.length_append, List.length_singleton, List.length_cons, List.length_nil]
          omega
        have e2 : (a :: tl).length + (s :: rest).length - 250 = rest.length + 1 := by
          simp only [List.length_cons]
          omega
        rw [hp, e1, e2, List.cons_append, List.drop_succ_cons, List.append_assoc,
          List.singleton_append]

/-- The ring after a run of `backup()` calls at increasing cycles, each newer
than the newest snapshot of the ring: one snapshot pushed for each call. -/
theorem ring_after_backup_each (env : collaborators) (worlds : List level) (L : level)
    (hnew : ∀ s, L.backups_.getLast? = some s → ∀ w ∈ worlds, s.cycle < w.cycle_)
    (hinc : (worlds.map (fun w => w.cycle_)).Pairwise (fun a b => a < b)) :
    (backup_each env L worlds).backups_
      = (worlds.map (take_snapshot env)).foldl ring_push L.backups_ := by
  induction worlds generalizing L with
  | nil => rfl
  | cons w rest ih =>
    have hstep : backup_each env L (w :: rest)
        = backup_each env (backup env { w with backups_ := L.backups_ }) rest := rfl
    have hring : (backup env { w with backups_ := L.backups_ }).backups_
        = ring_push L.backups_ (take_snapshot env w) := by
      rw [backup_push env { w with backups_ := L.backups_ }
        (fun s hs => ne_of_lt (hnew s hs w (List.mem_cons_self _ _)))]
      rfl
    have hinc' : (∀ c ∈ rest.map (fun w => w.cycle_), w.cycle_ < c)
        ∧ (rest.map (fun w => w.cycle_)).Pairwise (fun a b => a < b) :=
      List.pairwise_cons.1 hinc
    have hlast : ∀ s, (backup env { w with backups_ := L.backups_ }).backups_.getLast? = some s →
        ∀ w' ∈ rest, s.cycle < w'.cycle_ := by
      intro s hs w' hw'
      rw [hring, ring_push_newest] at hs
      have : s = take_snapshot env w := (Option.some.inj hs).symm
      rw [this]
      exact hinc'.1 w'.cycle_ (List.mem_map.2 ⟨w', hw', rfl⟩)
    rw [hstep, ih _ hlast hinc'.2, hring]
    rfl

/-- C4: the ring never holds more than 250 snapshots after `backup()` returns,
and eviction is oldest first: after 250 + K snapshots have been inserted by
`backup()` at strictly increasing cycles into an empty ring, the ring holds
exactly the newest 250 of them in insertion order, its size is 250, the
oldest K are no longer in it, and `earliest_backup_cycle()` is the cycle of the
(K+1)-th inserted snapshot. -/
theorem C4_ring_cap_and_oldest_first_eviction (env : collaborators) (L0 : level)
    (worlds : List level) (K : Nat) (hempty : L0.backups_ = [])
    (hlen : worlds.length = 250 + K)
    (hinc : (worlds.map (fun w => w.cycle_)).Pairwise (fun a b => a < b)) :
    (backup_each env L0 worlds).backups_ = (worlds.map (take_snapshot env)).drop K
    ∧ (backup_each env L0 worlds).backups_.length = 250
    ∧ (∀ s ∈ (worlds.take K).map (take_snapshot env), s ∉ (backup_each env L0 worlds).backups_)
    ∧ (∃ w, worlds.get? K = some w ∧ earliest_backup_cycle (backup_each env L0 worlds) = w.cycle_)
    ∧ (∀ j, (backup_each env L0 (worlds.take j)).backups_.length ≤ 250) := by
  have hring : (backup_each env L0 worlds).backups_ = (worlds.map (take_snapshot env)).drop K := by
    rw [ring_after_backup_each env worlds L0
      (by intro s hs; rw [hempty] at hs; simp at hs) hinc, hempty,
      foldl_ring_push _ _ (by simp)]
    simp [hlen]
  refine ⟨hring, ?_, ?_, ?_, ?_⟩
  · rw [hring]
    simp [hlen]
  · intro s hs hin
    rw [hring] at hin
    obtain ⟨w1, hw1, rfl⟩ := List.mem_map.1 hs
    rw [← List.map_drop] at hin
    obtain ⟨w2, hw2, h12⟩ := List.mem_map.1 hin
    have hc : w2.cycle_ = w1.cycle_ := by
      have := congrArg backup_snapshot.cycle h12
      exact this
    have hsplit : worlds = worlds.take K ++ worlds.drop K := (List.take_append_drop K worlds).symm
    rw [hsplit, List.map_append, List.pairwise_append] at hinc
    have := hinc.2.2 w1.cycle_ (List.mem_map.2 ⟨w1, hw1, rfl⟩) w2.cycle_
      (List.mem_map.2 ⟨w2, hw2, rfl⟩)
    omega
  · have hK : K < worlds.length := by omega
    refine ⟨worlds.get ⟨K, hK⟩, List.get?_eq_get hK, ?_⟩
    unfold earliest_backup_cycle
    rw [hring, ← List.map_drop, List.drop_eq_getElem_cons hK]
    rfl
  · intro j
    have hpw : ((worlds.take j).map (fun w => w.cycle_)).Pairwise (fun a b => a < b) := by
      rw [List.map_take]
      exact List.Pairwise.sublist (List.take_sublist _ _) hinc
    rw [ring_after_backup_each env (worlds.take j) L0
      (by intro s hs; rw [hempty] at hs; simp at hs) hpw, hempty,
      foldl_ring_push _ _ (by simp)]
    simp only [List.nil_append, List.length_nil, Nat.zero_add, List.length_drop, List.length_map]
    omega

end Anura

namespace Anura

open level

/-- Witness of C4 with K = 1: 251 snapshots at the cycles 0 to 250 leave a ring
of 250 snapshots whose oldest is the one of cycle 1. -/
theorem C4_ring_cap_and_oldest_first_eviction_witness :
    (sample_level 0 []).backups_ = []
    ∧ ((List.range 251).map (fun (i : Nat) => sample_level (i : Int) [])).length = 250 + 1
    ∧ (backup_each sample_env (sample_level 0 [])
        ((List.range 251).map (fun (i : Nat) => sample_level (i : Int) []))).backups_.length = 250
    ∧ ((backup_each sample_env (sample_level 0 [])
        ((List.range 251).map (fun (i : Nat) => sample_level (i : Int) []))).backups_
        = (((List.range 251).map (fun (i : Nat) => sample_level (i : Int) [])).map
            (take_snapshot sample_env)).drop 1) :=
  have hinc : (((List.range 251).map (fun (i : Nat) => sample_level (i : Int) [])).map
      (fun w => w.cycle_)).Pairwise (fun a b => a < b) := by
    rw [List.map_map]
    exact List.Pairwise.map _ (fun a b hab => by
      show ((a : Int)) < (b : Int)
      exact Int.ofNat_lt.2 hab) (List.pairwise_lt_range 251)
  ⟨rfl, by simp,
   (C4_ring_cap_and_oldest_first_eviction sample_env (sample_level 0 []) _ 1 rfl (by simp) hinc).2.1,
   (C4_ring_cap_and_oldest_first_eviction sample_env (sample_level 0 []) _ 1 rfl (by simp) hinc).1⟩

end Anura

namespace Anura

open level

/-! ## Restoring a snapshot -/

theorem restore_cycle (env : collaborators) (L : level) (s : backup_snapshot) :
    (restore_from_backup env L s).cycle_ = s.cycle := rfl

theorem restore_backups (env : collaborators) (L : level) (s : backup_snapshot) :
    (restore_from_backup env L s).backups_ = L.backups_ := rfl

theorem restore_paused (env : collaborators) (L : level) (s : backup_snapshot) :
    (restore_from_backup env L s).paused_ = L.paused_ := rfl

/-- The live entities after a restore are the clones of the snapshot, in
order, each having received the load event. -/
theorem restore_chars (env : collaborators) (L : level) (s : backup_snapshot) :
    (restore_from_backup env L s).chars_ = s.chars.map (entity.handle_event_load env) := by
  show s.chars.map (fun e => if e.id ∈ s.chars.map (fun e => e.id)
      then entity.handle_event_load env e else e) = _
  apply List.map_congr_left
  intro e he
  rw [if_pos (List.mem_map.2 ⟨e, he, rfl⟩)]

/-- The clones listed in a snapshot, from the live entities. -/
theorem take_snapshot_chars (env : collaborators) (L : level) :
    (take_snapshot env L).chars
      = L.chars_.map (fun e =>
          entity.map_entities (backup_entity_map env L.chars_) (env.entity_backup e)) := by
  unfold take_snapshot
  simp only [List.map_map]
  rfl

/-! ## C2: backup, then restore of the snapshot just taken -/

/-- C2: when `backup()` appends a snapshot and `restore_from_backup` is then
called on that snapshot, the live entity list is, entry by entry and in the
same order, the list of the clones of the entities that were live immediately
before the restore: it has the same length, and (the clone made by
`entity::backup` copying label and position) each restored entity has the
label and the position of the live entity it was cloned from; the cycle
counter is unchanged. -/
theorem C2_backup_then_restore (env : collaborators) (L : level) (snapshot : backup_snapshot)
    (hcopy : ∀ e, (env.entity_backup e).label = e.label ∧ (env.entity_backup e).x = e.x
      ∧ (env.entity_backup e).y = e.y)
    (happended : (backup env L).backups_ ≠ L.backups_)
    (hsnapshot : (backup env L).backups_.getLast? = some snapshot) :
    (restore_from_backup env (backup env L) snapshot).chars_.length
        = (backup env L).chars_.length
    ∧ List.Forall₂ (fun live restored => restored.label = live.label
          ∧ restored.x = live.x ∧ restored.y = live.y)
        (backup env L).chars_ (restore_from_backup env (backup env L) snapshot).chars_
    ∧ (restore_from_backup env (backup env L) snapshot).chars_
        = (backup env L).chars_.map (fun e => entity.handle_event_load env
            (entity.map_entities (backup_entity_map env L.chars_) (env.entity_backup e)))
    ∧ (restore_from_backup env (backup env L) snapshot).cycle_ = (backup env L).cycle_ := by
  have hpush : ∀ s, L.backups_.getLast? = some s → s.cycle ≠ L.cycle_ := by
    intro s hs hc
    exact happended (by rw [backup_noop env L s hs hc])
  have hsnap : snapshot = take_snapshot env L := by
    rw [backup_push env L hpush] at hsnapshot
    simp only [ring_push_newest] at hsnapshot
    exact (Option.some.inj hsnapshot).symm
  have hchars : (restore_from_backup env (backup env L) snapshot).chars_
      = (backup env L).chars_.map (fun e => entity.handle_event_load env
          (entity.map_entities (backup_entity_map env L.chars_) (env.entity_backup e))) := by
    rw [restore_chars, hsnap, take_snapshot_chars, backup_chars, List.map_map]
    rfl
  refine ⟨?_, ?_, hchars, ?_⟩
  · rw [hchars, List.length_map]
  · rw [hchars, List.forall₂_map_right_iff]
    apply List.forall₂_same.2
    intro e _
    exact hcopy e
  · rw [restore_cycle, hsnap, backup_cycle]
    rfl

/-- Witness of C2: two entities at cycle 7, an empty ring. -/
theorem C2_backup_then_restore_witness :
    (backup sample_env (sample_level 7 [sample_entity 1 "door1" 10 20,
        sample_entity 2 "key" (-5) 3])).backups_
      ≠ (sample_level 7 [sample_entity 1 "door1" 10 20, sample_entity 2 "key" (-5) 3]).backups_
    ∧ (restore_from_backup sample_env
        (backup sample_env (sample_level 7 [sample_entity 1 "door1" 10 20,
          sample_entity 2 "key" (-5) 3]))
        (take_snapshot sample_env (sample_level 7 [sample_entity 1 "door1" 10 20,
          sample_entity 2 "key" (-5) 3]))).cycle_ = 7
    ∧ (restore_from_backup sample_env
        (backup sample_env (sample_level 7 [sample_entity 1 "door1" 10 20,
          sample_entity 2 "key" (-5) 3]))
        (take_snapshot sample_env (sample_level 7 [sample_entity 1 "door1" 10 20,
          sample_entity 2 "key" (-5) 3]))).chars_.length = 2 :=
  ⟨by decide,
   (C2_backup_then_restore sample_env
      (sample_level 7 [sample_entity 1 "door1" 10 20, sample_entity 2 "key" (-5) 3])
      (take_snapshot sample_env
        (sample_level 7 [sample_entity 1 "door1" 10 20, sample_entity 2 "key" (-5) 3]))
      (fun _ => ⟨rfl, rfl, rfl⟩) (by decide) rfl).2.2.2,
   (C2_backup_then_restore sample_env
      (sample_level 7 [sample_entity 1 "door1" 10 20, sample_entity 2 "key" (-5) 3])
      (take_snapshot sample_env
        (sample_level 7 [sample_entity 1 "door1" 10 20, sample_entity 2 "key" (-5) 3]))
      (fun _ => ⟨rfl, rfl, rfl⟩) (by decide) rfl).1⟩

end Anura

namespace Anura

open level

/-! ## C9: rewinding to a retained cycle -/

theorem pop_newer_skip (n : Int) (post rest : List backup_snapshot)
    (hpost : ∀ t ∈ post, t.cycle > n) (hrest : rest ≠ []) :
    pop_newer n (post ++ rest) = pop_newer n rest := by
  induction post with
  | nil => rfl
  | cons t post' ih =>
    have hne : post' ++ rest ≠ [] := by
      intro h
      exact hrest (List.append_eq_nil.1 h).2
    rw [List.cons_append, pop_newer, if_pos ⟨hne, hpost t (List.mem_cons_self _ _)⟩]
    exact ih (fun u hu => hpost u (List.mem_cons_of_mem _ hu))

theorem pop_newer_stop (n : Int) (s : backup_snapshot) (older : List backup_snapshot)
    (hs : ¬ s.cycle > n) : pop_newer n (s :: older) = s :: older := by
  rw [pop_newer, if_neg (fun h => hs h.2)]

/-- In a ring with one snapshot a cycle from cycle `c0` on, the snapshot at
index `i` has cycle `c0 + i`. -/
theorem consecutive_cycle_at (ring : List backup_snapshot) (c0 : Int)
    (hring : ring.map (fun s => s.cycle)
      = (List.range ring.length).map (fun (i : Nat) => c0 + (i : Int)))
    (i : Nat) (s : backup_snapshot) (hs : ring[i]? = some s) : s.cycle = c0 + (i : Int) := by
  have hi : i < ring.length := by
    by_contra hge
    rw [List.getElem?_eq_none (by omega)] at hs
    exact Option.noConfusion hs
  have h := congrArg (fun l => l[i]?) hring
  simp only [List.getElem?_map, hs, Option.map_some', List.getElem?_range hi] at h
  exact Option.some.inj h

theorem reverse_one_cycle_snoc (env : collaborators) (L : level) (older : List backup_snapshot)
    (s : backup_snapshot) :
    reverse_one_cycle env { L with backups_ := older ++ [s] }
      = { restore_from_backup env { L with backups_ := older ++ [s] } s with backups_ := older } := by
  unfold reverse_one_cycle
  simp

/-- C9: in a ring that holds one snapshot a cycle for the consecutive cycles
c0, c0+1, ..., and for a target n among these cycles, after
`reverse_to_cycle(n)` the cycle counter is n, the live entities are the clones
stored in the snapshot of cycle n (each having received the load event), and
the ring holds exactly the snapshots of the cycles c0 to n-1, in order. -/
theorem C9_reverse_to_retained_cycle (env : collaborators) (L : level) (c0 n : Int)
    (hring : L.backups_.map (fun s => s.cycle)
      = (List.range L.backups_.length).map (fun (i : Nat) => c0 + (i : Int)))
    (hlo : c0 ≤ n) (hhi : n < c0 + (L.backups_.length : Int)) :
    ∃ snapshot, L.backups_.get? (n - c0).toNat = some snapshot
      ∧ snapshot.cycle = n
      ∧ (reverse_to_cycle env L n).cycle_ = n
      ∧ (reverse_to_cycle env L n).chars_ = snapshot.chars.map (entity.handle_event_load env)
      ∧ (reverse_to_cycle env L n).chars_.map (fun e => e.id) = snapshot.chars.map (fun e => e.id)
      ∧ (reverse_to_cycle env L n).backups_ = L.backups_.take (n - c0).toNat
      ∧ (reverse_to_cycle env L n).backups_.map (fun s => s.cycle)
          = (List.range (n - c0).toNat).map (fun (i : Nat) => c0 + (i : Int)) := by
  have hk : (n - c0).toNat < L.backups_.length := by omega
  have hkn : c0 + ((n - c0).toNat : Int) = n := by omega
  have hget : L.backups_[(n - c0).toNat]? = some (L.backups_.get ⟨(n - c0).toNat, hk⟩) := by
    rw [List.getElem?_eq_getElem hk]
    rfl
  refine ⟨L.backups_.get ⟨(n - c0).toNat, hk⟩, List.get?_eq_get hk, ?_⟩
  have hcyc : (L.backups_.get ⟨(n - c0).toNat, hk⟩).cycle = n := by
    rw [consecutive_cycle_at L.backups_ c0 hring _ _ hget, hkn]
  have hsplit : L.backups_
      = L.backups_.take (n - c0).toNat
        ++ L.backups_.get ⟨(n - c0).toNat, hk⟩ :: L.backups_.drop ((n - c0).toNat + 1) := by
    conv_lhs => rw [← List.take_append_drop (n - c0).toNat L.backups_]
    rw [List.drop_eq_getElem_cons hk]
    rfl
  have hpost : ∀ t ∈ (L.backups_.drop ((n - c0).toNat + 1)).reverse, t.cycle > n := by
    intro t ht
    rw [List.mem_reverse] at ht
    obtain ⟨j, hj⟩ := List.mem_iff_getElem?.1 ht
    rw [List.getElem?_drop] at hj
    rw [consecutive_cycle_at L.backups_ c0 hring _ _ hj]
    push_cast
    omega
  have hpop : (pop_newer n L.backups_.reverse).reverse
      = L.backups_.take (n - c0).toNat ++ [L.backups_.get ⟨(n - c0).toNat, hk⟩] := by
    conv_lhs => rw [hsplit]
    rw [List.reverse_append, List.reverse_cons, List.append_assoc, List.singleton_append,
      pop_newer_skip n _ _ hpost (by simp), pop_newer_stop n _ _ (by rw [hcyc]; omega)]
    simp
  have hne : L.backups_ ≠ [] := by
    intro h; rw [h] at hk; simp at hk
  have hrev : reverse_to_cycle env L n
      = { restore_from_backup env
            { L with backups_ := L.backups_.take (n - c0).toNat
                ++ [L.backups_.get ⟨(n - c0).toNat, hk⟩] }
            (L.backups_.get ⟨(n - c0).toNat, hk⟩)
          with backups_ := L.backups_.take (n - c0).toNat } := by
    unfold reverse_to_cycle
    rw [if_neg hne, hpop]
    exact reverse_one_cycle_snoc env L _ _
  have hchars : (reverse_to_cycle env L n).chars_
      = (L.backups_.get ⟨(n - c0).toNat, hk⟩).chars.map (entity.handle_event_load env) := by
    rw [hrev]
    exact restore_chars env _ _
  refine ⟨hcyc, ?_, hchars, ?_, ?_, ?_⟩
  · rw [hrev]
    exact hcyc
  · rw [hchars, List.map_map]
    rfl
  · rw [hrev]
  · rw [hrev]
    show (L.backups_.take (n - c0).toNat).map (fun s => s.cycle) = _
    rw [List.map_take, hring, ← List.map_take, List.take_range, Nat.min_eq_left (le_of_lt hk)]

/-- Witness of C9: the cycles 0 to 10 backed up, then `reverse_to_cycle(3)`: the
counter is 3, the entity is where the snapshot of cycle 3 recorded it, and the
ring holds the snapshots of the cycles 0 to 2. -/
theorem C9_reverse_to_retained_cycle_witness :
    sample_history.backups_.map (fun s => s.cycle)
        = (List.range sample_history.backups_.length).map (fun (i : Nat) => (0 : Int) + (i : Int))
    ∧ (reverse_to_cycle sample_env sample_history 3).cycle_ = 3
    ∧ (reverse_to_cycle sample_env sample_history 3).backups_.map (fun s => s.cycle) = [0, 1, 2]
    ∧ (reverse_to_cycle sample_env sample_history 3).chars_.map (fun e => (e.label, e.x))
        = [("a", 3)] := by
  have hring : sample_history.backups_.map (fun s => s.cycle)
      = (List.range sample_history.backups_.length).map (fun (i : Nat) => (0 : Int) + (i : Int)) := by
    decide
  obtain ⟨snapshot, hget, _, hcycle, hchars, _, _, hcycles⟩ :=
    C9_reverse_to_retained_cycle sample_env sample_history 0 3 hring (by decide) (by decide)
  refine ⟨hring, hcycle, ?_, ?_⟩
  · rw [hcycles]; decide
  · have hs : sample_history.backups_.get? ((3 : Int) - 0).toNat
        = some (take_snapshot sample_env (sample_level 3 [sample_entity 1 "a" 3 0])) := by
      decide
    rw [hs] at hget
    rw [hchars, ← Option.some.inj hget]
    decide

end Anura

namespace Anura

open level

/-! ## C10: replaying from a retained cycle -/

/-- The sample entity code leaves the engine alone. -/
theorem sample_env_keeps_engine : entity_code_keeps_engine sample_env :=
  fun _ => ⟨⟨rfl, rfl, rfl⟩, ⟨rfl, rfl, rfl⟩⟩

/-- With entity code that leaves the engine alone, one step keeps the ring and
the flag `paused_`, and advances the counter by one unless the level is
paused. -/
theorem do_processing_engine (env : collaborators) (henv : entity_code_keeps_engine env)
    (L : level) :
    (do_processing env L).backups_ = L.backups_
    ∧ (do_processing env L).paused_ = L.paused_
    ∧ (do_processing env L).cycle_ = (if L.paused_ then L.cycle_ else L.cycle_ + 1) := by
  have e1 : ∀ M : level,
      (if M.cycle_ = 0 then env.start_level M else M).backups_ = M.backups_
      ∧ (if M.cycle_ = 0 then env.start_level M else M).paused_ = M.paused_
      ∧ (if M.cycle_ = 0 then env.start_level M else M).cycle_ = M.cycle_ := by
    intro M
    by_cases h : M.cycle_ = 0
    · rw [if_pos h]
      exact ⟨(henv M).1.2.2, (henv M).1.2.1, (henv M).1.1⟩
    · rw [if_neg h]
      exact ⟨rfl, rfl, rfl⟩
  have e2 : ∀ M : level,
      (if ¬ M.paused_ = true then { M with cycle_ := M.cycle_ + 1 } else M).backups_ = M.backups_
      ∧ (if ¬ M.paused_ = true then { M with cycle_ := M.cycle_ + 1 } else M).paused_ = M.paused_
      ∧ (if ¬ M.paused_ = true then { M with cycle_ := M.cycle_ + 1 } else M).cycle_
          = (if M.paused_ then M.cycle_ else M.cycle_ + 1) := by
    intro M
    by_cases h : M.paused_ = true
    · rw [if_neg (not_not.2 h)]
      simp [h]
    · rw [if_pos h]
      simp [h]
  have e3 : ∀ M : level,
      (if M.player_.isNone = true then M else env.process_chars M).backups_ = M.backups_
      ∧ (if M.player_.isNone = true then M else env.process_chars M).paused_ = M.paused_
      ∧ (if M.player_.isNone = true then M else env.process_chars M).cycle_ = M.cycle_ := by
    intro M
    by_cases h : M.player_.isNone = true
    · rw [if_pos h]
      exact ⟨rfl, rfl, rfl⟩
    · rw [if_neg h]
      exact ⟨(henv M).2.2.2, (henv M).2.2.1, (henv M).2.1⟩
  unfold do_processing
  simp only
  obtain ⟨a1, a2, a3⟩ := e1 L
  obtain ⟨b1, b2, b3⟩ := e2 (if L.cycle_ = 0 then env.start_level L else L)
  obtain ⟨c1, c2, c3⟩ := e3 (if ¬ (if L.cycle_ = 0 then env.start_level L else L).paused_ = true
    then { (if L.cycle_ = 0 then env.start_level L else L) with
           cycle_ := (if L.cycle_ = 0 then env.start_level L else L).cycle_ + 1 }
    else (if L.cycle_ = 0 then env.start_level L else L))
  refine ⟨c1.trans (b1.trans a1), c2.trans (b2.trans a2), ?_⟩
  rw [c3, b3, a2, a3]

theorem do_processing_backups (env : collaborators) (henv : entity_code_keeps_engine env)
    (L : level) : (do_processing env L).backups_ = L.backups_ :=
  (do_processing_engine env henv L).1

theorem do_processing_paused (env : collaborators) (henv : entity_code_keeps_engine env)
    (L : level) : (do_processing env L).paused_ = L.paused_ :=
  (do_processing_engine env henv L).2.1

/-- One step of an unpaused level advances the counter by one. -/
theorem do_processing_cycle (env : collaborators) (henv : entity_code_keeps_engine env)
    (L : level) (h : L.paused_ = false) : (do_processing env L).cycle_ = L.cycle_ + 1 := by
  rw [(do_processing_engine env henv L).2.2, h]
  rfl

theorem replay_step_cycle (env : collaborators) (henv : entity_code_keeps_engine env)
    (L : level) (h : L.paused_ = false) : (replay_step env L).cycle_ = L.cycle_ + 1 := by
  unfold replay_step
  rw [do_processing_cycle env henv _ (by rw [backup_paused]; exact h), backup_cycle]

theorem replay_step_paused (env : collaborators) (henv : entity_code_keeps_engine env)
    (L : level) : (replay_step env L).paused_ = L.paused_ := by
  unfold replay_step
  rw [do_processing_paused env henv, backup_paused]

/-- The ring after one `backup(); do_processing();` when every retained
snapshot is older than the current cycle and the ring is below the cap. -/
theorem replay_step_backups (env : collaborators) (henv : entity_code_keeps_engine env)
    (L : level)
    (hold : ∀ s ∈ L.backups_, s.cycle < L.cycle_) (hcap : L.backups_.length < 250) :
    (replay_step env L).backups_ = L.backups_ ++ [take_snapshot env L] := by
  unfold replay_step
  rw [do_processing_backups env henv, backup_push env L
    (fun s hs => ne_of_lt (hold s (List.mem_of_getLast?_eq_some hs)))]
  show ring_push L.backups_ (take_snapshot env L) = _
  unfold ring_push
  simp only [List.length_append, List.length_singleton]
  rw [if_neg (by omega)]

theorem replay_iterate_paused (env : collaborators) (henv : entity_code_keeps_engine env)
    (S : level) (hun : S.paused_ = false)
    (i : Nat) : ((replay_step env)^[i] S).paused_ = false := by
  induction i with
  | zero => exact hun
  | succ i ih => rw [Function.iterate_succ_apply', replay_step_paused env henv, ih]

theorem replay_iterate_cycle (env : collaborators) (henv : entity_code_keeps_engine env)
    (S : level) (hun : S.paused_ = false)
    (i : Nat) : ((replay_step env)^[i] S).cycle_ = S.cycle_ + (i : Int) := by
  induction i with
  | zero => simp
  | succ i ih =>
    rw [Function.iterate_succ_apply',
      replay_step_cycle env henv _ (replay_iterate_paused env henv S hun i), ih]
    push_cast
    ring

/-- The ring reached by iterating `backup(); do_processing();` on an unpaused
level whose retained snapshots are older than the current cycle, while the
ring has room: one new snapshot an iteration, none evicted. -/
theorem replay_iterate_backups (env : collaborators) (henv : entity_code_keeps_engine env)
    (S : level) (hun : S.paused_ = false)
    (hold : ∀ s ∈ S.backups_, s.cycle < S.cycle_) (j : Nat)
    (hcap : S.backups_.length + j ≤ 250) :
    ((replay_step env)^[j] S).backups_
      = S.backups_ ++ (List.range j).map (fun i => take_snapshot env ((replay_step env)^[i] S)) := by
  induction j with
  | zero => simp
  | succ j ih =>
    have hb := ih (by omega)
    have hold' : ∀ s ∈ ((replay_step env)^[j] S).backups_,
        s.cycle < ((replay_step env)^[j] S).cycle_ := by
      intro s hs
      rw [hb, List.mem_append] at hs
      rw [replay_iterate_cycle env henv S hun j]
      rcases hs with hs | hs
      · have := hold s hs
        omega
      · obtain ⟨i, hi, rfl⟩ := List.mem_map.1 hs
        have hi' : i < j := List.mem_range.1 hi
        show ((replay_step env)^[i] S).cycle_ < _
        rw [replay_iterate_cycle env henv S hun i]
        omega
    have hlen : ((replay_step env)^[j] S).backups_.length < 250 := by
      rw [hb, List.length_append, List.length_map, List.length_range]
      omega
    rw [Function.iterate_succ_apply', replay_step_backups env henv _ hold' hlen, hb,
      List.range_succ,
      List.map_append, List.append_assoc]
    rfl

/-- The loop of `replay_from_cycle` ends, given iterations enough, in the state
reached by the iterations of its body that are needed. -/
theorem replay_loop_done (env : collaborators) (henv : entity_code_keeps_engine env)
    (target : Int) (k : Nat) :
    ∀ (fuel : Nat) (S : level), S.paused_ = false → S.cycle_ + (k : Int) = target → k ≤ fuel →
      replay_loop env target fuel S = .done ((replay_step env)^[k] S) := by
  induction k with
  | zero =>
    intro fuel S _ hc _
    have : ¬ S.cycle_ < target := by
      simp only [Nat.cast_zero, add_zero] at hc
      omega
    cases fuel with
    | zero => simp [replay_loop, this]
    | succ f => simp [replay_loop, this]
  | succ k ih =>
    intro fuel S hun hc hfuel
    have hlt : S.cycle_ < target := by
      push_cast at hc
      omega
    cases fuel with
    | zero => omega
    | succ f =>
      rw [replay_loop, if_pos hlt, Function.iterate_succ_apply]
      exact ih f (replay_step env S) (by rw [replay_step_paused env henv]; exact hun)
        (by rw [replay_step_cycle env henv S hun]; push_cast at hc; omega) (by omega)

/-- C10 (as amended): when the entity code run by `do_processing` writes
neither the counter `cycle_` nor the flag `paused_` nor the ring, then for an
unpaused level whose ring (within the cap of 250) holds one snapshot a cycle
for the consecutive cycles c0 to cycle_-1, and a target n with
c0 <= n < cycle_, `replay_from_cycle(n)` returns: it restores the snapshot of
cycle n, drops that snapshot and every newer one from the ring, and runs
`backup(); do_processing();` exactly cycle_ - n times, which brings the
counter back to its value before the call. On return the ring holds again
one snapshot a cycle from c0 to cycle_-1: the ones of the cycles below n are
the ones retained, the ones of the cycles from n on are newly taken from the
states of the replay. -/
theorem C10_replay_from_retained_cycle (env : collaborators) (L : level) (c0 n : Int)
    (fuel : Nat) (henv : entity_code_keeps_engine env) (hun : L.paused_ = false)
    (hring : L.backups_.map (fun s => s.cycle)
      = (List.range L.backups_.length).map (fun (i : Nat) => c0 + (i : Int)))
    (hend : c0 + (L.backups_.length : Int) = L.cycle_)
    (hcap : L.backups_.length ≤ 250)
    (hlo : c0 ≤ n) (hhi : n < L.cycle_) (hfuel : (L.cycle_ - n).toNat ≤ fuel) :
    ∃ snapshot S0 L', L.backups_.get? (n - c0).toNat = some snapshot
      ∧ snapshot.cycle = n
      ∧ S0 = { restore_from_backup env L snapshot with
                backups_ := L.backups_.take (n - c0).toNat }
      ∧ replay_from_cycle env fuel L n = .done L'
      ∧ L' = (replay_step env)^[(L.cycle_ - n).toNat] S0
      ∧ L'.cycle_ = L.cycle_
      ∧ L'.backups_ = L.backups_.take (n - c0).toNat
          ++ (List.range (L.cycle_ - n).toNat).map
              (fun i => take_snapshot env ((replay_step env)^[i] S0))
      ∧ L'.backups_.map (fun s => s.cycle) = L.backups_.map (fun s => s.cycle) := by
  have hk : (n - c0).toNat < L.backups_.length := by omega
  have hget : L.backups_[(n - c0).toNat]? = some (L.backups_.get ⟨(n - c0).toNat, hk⟩) := by
    rw [List.getElem?_eq_getElem hk]
    rfl
  have hget' : L.backups_.get? (n - c0).toNat = some (L.backups_.get ⟨(n - c0).toNat, hk⟩) :=
    List.get?_eq_get hk
  have hcyc : (L.backups_.get ⟨(n - c0).toNat, hk⟩).cycle = n := by
    rw [consecutive_cycle_at L.backups_ c0 hring _ _ hget]
    omega
  have hidx : ((L.backups_.length : Int) - (L.cycle_ - n)).toNat = (n - c0).toNat := by
    congr 1
    omega
  have hS0p : ({ restore_from_backup env L (L.backups_.get ⟨(n - c0).toNat, hk⟩) with
      backups_ := L.backups_.take (n - c0).toNat } : level).paused_ = false := hun
  have hS0c : ({ restore_from_backup env L (L.backups_.get ⟨(n - c0).toNat, hk⟩) with
      backups_ := L.backups_.take (n - c0).toNat } : level).cycle_ = n := hcyc
  have hold : ∀ s ∈ L.backups_.take (n - c0).toNat, s.cycle < n := by
    intro s hs
    obtain ⟨i, hi⟩ := List.mem_iff_getElem?.1 hs
    have hilt : i < (n - c0).toNat := by
      by_contra hge
      rw [List.getElem?_take_eq_none (by omega)] at hi
      exact Option.noConfusion hi
    rw [List.getElem?_take, if_pos hilt] at hi
    rw [consecutive_cycle_at L.backups_ c0 hring _ _ hi]
    omega
  have hrun : replay_from_cycle env fuel L n
      = .done ((replay_step env)^[(L.cycle_ - n).toNat]
          { restore_from_backup env L (L.backups_.get ⟨(n - c0).toNat, hk⟩) with
            backups_ := L.backups_.take (n - c0).toNat }) := by
    unfold replay_from_cycle
    simp only
    rw [if_neg (by omega), if_neg (by omega), hidx, hget']
    simp only
    rw [if_neg (by rw [restore_cycle, hcyc]; simp)]
    exact replay_loop_done env henv L.cycle_ (L.cycle_ - n).toNat fuel _ hS0p
      (by rw [hS0c]; omega) hfuel
  have hb := replay_iterate_backups env henv _ hS0p
    (by intro s hs; rw [hS0c]; exact hold s hs) (L.cycle_ - n).toNat
    (by
      show (L.backups_.take (n - c0).toNat).length + _ ≤ 250
      rw [List.length_take]
      omega)
  refine ⟨_, _, _, hget', hcyc, rfl, hrun, rfl, ?_, hb, ?_⟩
  · rw [replay_iterate_cycle env henv _ hS0p, hS0c]
    omega
  · rw [hb, List.map_append, List.map_map]
    have hnew : (List.range (L.cycle_ - n).toNat).map
        ((fun s => s.cycle) ∘ fun i => take_snapshot env ((replay_step env)^[i]
          { restore_from_backup env L (L.backups_.get ⟨(n - c0).toNat, hk⟩) with
            backups_ := L.backups_.take (n - c0).toNat }))
        = (List.range (L.cycle_ - n).toNat).map (fun (i : Nat) => n + (i : Int)) := by
      apply List.map_congr_left
      intro i _
      show ((replay_step env)^[i] _).cycle_ = _
      rw [replay_iterate_cycle env henv _ hS0p, hS0c]
    rw [hnew]
    show (L.backups_.take (n - c0).toNat).map (fun s => s.cycle) ++ _ = _
    rw [List.map_take, hring, ← List.map_take, List.take_range, Nat.min_eq_left (le_of_lt hk)]
    have hsum : L.backups_.length = (n - c0).toNat + (L.cycle_ - n).toNat := by omega
    conv_rhs => rw [hsum, List.range_add, List.map_append, List.map_map]
    congr 1
    apply List.map_congr_left
    intro i _
    simp only [Function.comp]
    push_cast
    omega

end Anura

namespace Anura

open level

/-- Witness of C10 (as amended): the sample game at cycle 11 with the snapshots
of the cycles 0 to 10, replayed from cycle 3; its entity code moves the
entities and writes no member of the engine. -/
theorem C10_replay_from_retained_cycle_witness :
    entity_code_keeps_engine sample_env
    ∧ sample_played.paused_ = false
    ∧ sample_played.cycle_ = 11
    ∧ sample_played.backups_.map (fun s => s.cycle) = [0, 1, 2, 3, 4, 5, 6, 7, 8, 9, 10]
    ∧ ∃ L', replay_from_cycle sample_env 8 sample_played 3 = .done L'
        ∧ L'.cycle_ = sample_played.cycle_
        ∧ L'.backups_.map (fun s => s.cycle) = sample_played.backups_.map (fun s => s.cycle) := by
  refine ⟨sample_env_keeps_engine, by decide, by decide, by decide, ?_⟩
  obtain ⟨_, _, L', _, _, _, hrun, _, hcycle, _, hcycles⟩ :=
    C10_replay_from_retained_cycle sample_env sample_played 0 3 8 sample_env_keeps_engine
      (by decide) (by decide) (by decide) (by decide) (by decide) (by decide) (by decide)
  exact ⟨L', hrun, hcycle, hcycles⟩

/-- Under the sample entity code that pauses the level, a paused level stays
paused and its counter stays where it is. -/
theorem replay_step_pausing (L : level) (hp : L.paused_ = true) :
    (replay_step sample_pausing_env L).paused_ = true
    ∧ (replay_step sample_pausing_env L).cycle_ = L.cycle_ := by
  have hb : (backup sample_pausing_env L).paused_ = true := by rw [backup_paused]; exact hp
  have hc : (backup sample_pausing_env L).cycle_ = L.cycle_ := backup_cycle _ L
  have hproc : ∀ M : level, (sample_pausing_env.process_chars M).paused_ = true
      ∨ (sample_pausing_env.process_chars M).paused_ = M.paused_ := by
    intro M
    show (if M.chars_.any (fun e => e.state = 1) then
        { sample_env.process_chars M with paused_ := true }
      else sample_env.process_chars M).paused_ = true ∨ _
    by_cases h : M.chars_.any (fun e => e.state = 1) = true
    · left
      rw [if_pos h]
    · right
      show _ = M.paused_
      have : sample_pausing_env.process_chars M = sample_env.process_chars M := by
        show (if M.chars_.any (fun e => e.state = 1) then
            { sample_env.process_chars M with paused_ := true }
          else sample_env.process_chars M) = _
        rw [if_neg h]
      rw [this]
      rfl
  have hprocc : ∀ M : level, (sample_pausing_env.process_chars M).cycle_ = M.cycle_ := by
    intro M
    show (if M.chars_.any (fun e => e.state = 1) then
        { sample_env.process_chars M with paused_ := true }
      else sample_env.process_chars M).cycle_ = _
    split_ifs <;> rfl
  have key : ∀ M : level, M.paused_ = true →
      (do_processing sample_pausing_env M).paused_ = true
      ∧ (do_processing sample_pausing_env M).cycle_ = M.cycle_ := by
    intro M hM
    unfold do_processing
    have hs : (if M.cycle_ = 0 then sample_pausing_env.start_level M else M) = M := by
      split_ifs <;> rfl
    simp only [hs, hM, not_true_eq_false, if_false]
    by_cases hpl : M.player_.isNone = true
    · rw [if_pos hpl]
      exact ⟨hM, rfl⟩
    · rw [if_neg hpl]
      refine ⟨?_, hprocc M⟩
      rcases hproc M with h | h
      · exact h
      · rw [h]
        exact hM
  unfold replay_step
  exact ⟨(key _ hb).1, (key _ hb).2.trans hc⟩

theorem replay_loop_pausing (target : Int) :
    ∀ (fuel : Nat) (S : level), S.paused_ = true → S.cycle_ < target →
      replay_loop sample_pausing_env target fuel S = .out_of_fuel := by
  intro fuel
  induction fuel with
  | zero =>
    intro S _ hlt
    simp [replay_loop, hlt]
  | succ f ih =>
    intro S hp hlt
    rw [replay_loop, if_pos hlt]
    exact ih _ (replay_step_pausing S hp).1 (by rw [(replay_step_pausing S hp).2]; exact hlt)

/-- Entity code that behaves as the sample entity code as long as no entity
is marked plays the same game as the sample entity code, step by step, as
long as no entity is marked. -/
theorem replay_iterate_unmarked (env : collaborators)
    (hb : ∀ L : level, backup env L = backup sample_env L)
    (hs : ∀ L : level, env.start_level L = L)
    (hp : ∀ M : level, M.chars_.any (fun e => e.state = 1) = false →
      env.process_chars M = sample_env.process_chars M)
    (S : level) :
    ∀ k : Nat, (∀ j < k, ((replay_step sample_env)^[j] S).chars_.any (fun e => e.state = 1) = false) →
      (replay_step env)^[k] S = (replay_step sample_env)^[k] S := by
  have hstep : ∀ L : level, L.chars_.any (fun e => e.state = 1) = false →
      replay_step env L = replay_step sample_env L := by
    intro L hL
    unfold replay_step
    rw [hb]
    have hc : (backup sample_env L).chars_.any (fun e => e.state = 1) = false := by
      rw [backup_chars]
      exact hL
    generalize backup sample_env L = M at hc
    unfold do_processing
    rw [hs]
    have hs' : sample_env.start_level M = M := rfl
    rw [hs']
    simp only [ite_self]
    split_ifs
    · rfl
    · exact hp _ hc
    · rfl
    · exact hp _ hc
  intro k
  induction k with
  | zero => intro _; rfl
  | succ k ih =>
    intro h
    rw [Function.iterate_succ_apply', Function.iterate_succ_apply',
      ih (fun j hj => h j (Nat.lt_succ_of_lt hj))]
    exact hstep _ (h k (Nat.lt_succ_self k))

/-- C10 fails as stated, because the entity code that `do_processing` runs
receives the level and can write the counter and the flag `paused_` through
their setters. The sample game is played from cycle 0 to cycle 11 and is not
paused; its ring holds the snapshots of the cycles 0 to 10; the entity code
leaves the engine alone as long as no snapshot has been loaded.
(1) With entity code that, once a snapshot is loaded, advances the counter by
one more cycle, `replay_from_cycle(8)` returns after two iterations with the
counter at 12, not 11, and with no snapshot of the cycle 9 in the ring.
(2) With entity code that, once a snapshot is loaded, pauses the level,
`replay_from_cycle(8)` never returns: the first iteration leaves the level
paused at cycle 9, and every budget of iterations is used up. -/
theorem C10_counterexample :
    sample_played.paused_ = false
    ∧ sample_played.cycle_ = 11
    ∧ sample_played.backups_.map (fun s => s.cycle) = [0, 1, 2, 3, 4, 5, 6, 7, 8, 9, 10]
    ∧ (Nat.iterate (replay_step sample_skipping_env) 11
        { sample_level 0 [{ sample_entity 1 "hero" 0 0 with is_human := true }] with
          player_ := some { sample_entity 1 "hero" 0 0 with is_human := true }
          players_ := [{ sample_entity 1 "hero" 0 0 with is_human := true }] } = sample_played)
    ∧ (∃ L', replay_from_cycle sample_skipping_env 2 sample_played 8 = .done L'
        ∧ L'.cycle_ = 12
        ∧ L'.backups_.map (fun s => s.cycle) = [0, 1, 2, 3, 4, 5, 6, 7, 8, 10])
    ∧ (Nat.iterate (replay_step sample_pausing_env) 11
        { sample_level 0 [{ sample_entity 1 "hero" 0 0 with is_human := true }] with
          player_ := some { sample_entity 1 "hero" 0 0 with is_human := true }
          players_ := [{ sample_entity 1 "hero" 0 0 with is_human := true }] } = sample_played)
    ∧ (∀ fuel : Nat, replay_from_cycle sample_pausing_env fuel sample_played 8 = .out_of_fuel) := by
  refine ⟨by decide, by decide, by decide, ?_, ⟨_, rfl, by decide, by decide⟩, ?_, ?_⟩
  · exact replay_iterate_unmarked sample_skipping_env (fun _ => rfl) (fun _ => rfl)
      (fun M h => by
        show (if M.chars_.any (fun e => e.state = 1) then _ else _) = _
        rw [if_neg (by rw [h]; simp)]) _ 11 (by decide)
  · exact replay_iterate_unmarked sample_pausing_env (fun _ => rfl) (fun _ => rfl)
      (fun M h => by
        show (if M.chars_.any (fun e => e.state = 1) then _ else _) = _
        rw [if_neg (by rw [h]; simp)]) _ 11 (by decide)
  intro fuel
  have hget : sample_played.backups_.get? 8
      = some (take_snapshot sample_env
          ((replay_step sample_env)^[8]
            { sample_level 0 [{ sample_entity 1 "hero" 0 0 with is_human := true }] with
              player_ := some { sample_entity 1 "hero" 0 0 with is_human := true }
              players_ := [{ sample_entity 1 "hero" 0 0 with is_human := true }] })) := by
    decide
  unfold replay_from_cycle
  have h1 : ¬ (sample_played.cycle_ - 8 ≤ 0) := by decide
  have h2 : ¬ ((sample_played.backups_.length : Int) - (sample_played.cycle_ - 8) < 0) := by
    decide
  have h3 : ((sample_played.backups_.length : Int) - (sample_played.cycle_ - 8)).toNat = 8 := by
    decide
  simp only [h1, h2, if_false, h3, hget]
  rw [if_neg (by decide)]
  cases fuel with
  | zero => rfl
  | succ f =>
    rw [replay_loop, if_pos (by decide)]
    exact replay_loop_pausing _ f _ (by decide) (by decide)

theorem predict_loop_returns (env : collaborators) (henv : entity_code_keeps_engine env)
    (controls_end : Int) (fuel : Nat)
    (L : level) (hun : L.paused_ = false)
    (hfuel : (controls_end - L.cycle_).toNat ≤ fuel) :
    ∃ L', predict_loop env controls_end fuel L = .done L' := by
  induction fuel generalizing L with
  | zero =>
    have : ¬ L.cycle_ < controls_end := by omega
    exact ⟨L, by simp [predict_loop, this]⟩
  | succ f ih =>
    by_cases hlt : L.cycle_ < controls_end
    · by_cases hv : env.validation_failure L = true
      · exact ⟨_, by rw [predict_loop, if_pos hlt, if_pos hv]⟩
      · have hstep := ih (backup env (process env L))
          (by rw [backup_paused]; unfold process; rw [do_processing_paused env henv]; exact hun)
          (by
            rw [backup_cycle]
            unfold process
            rw [do_processing_cycle env henv L hun]
            omega)
        obtain ⟨L', hL'⟩ := hstep
        exact ⟨L', by rw [predict_loop, if_pos hlt, if_neg hv]; exact hL'⟩
    · exact ⟨L, by rw [predict_loop, if_neg hlt]⟩

/-- When the ring holds no snapshot of the current cycle, `predict_future`
leaves the live world as it was, whatever was simulated: the counter has its
value, and the live entities are, in order, the clones of the entities that
were live, with their labels and positions (the clone made by
`entity::backup` copying label and position). For an unpaused level whose
entity code leaves the engine alone the call returns, given iterations
enough. -/
theorem predict_future_restores_fresh_snapshot (env : collaborators) (controls_end : Int)
    (fuel : Nat) (L : level) (e : entity) (ncycles : Int)
    (hcopy : ∀ e, (env.entity_backup e).label = e.label ∧ (env.entity_backup e).x = e.x
      ∧ (env.entity_backup e).y = e.y)
    (hfresh : ∀ s, L.backups_.getLast? = some s → s.cycle ≠ L.cycle_) :
    (∀ traced L', predict_future env controls_end fuel L e ncycles = .done (traced, L') →
      L'.cycle_ = L.cycle_
      ∧ List.Forall₂ (fun live restored => restored.label = live.label
          ∧ restored.x = live.x ∧ restored.y = live.y) L.chars_ L'.chars_)
    ∧ (entity_code_keeps_engine env → L.paused_ = false →
        (controls_end - L.cycle_).toNat ≤ fuel →
        ∃ traced L', predict_future env controls_end fuel L e ncycles = .done (traced, L')) := by
  have hlast : (backup env L).backups_.getLast? = some (take_snapshot env L) := by
    rw [backup_push env L hfresh]
    exact ring_push_newest _ _
  constructor
  · intro traced L' hrun
    unfold predict_future at hrun
    simp only [hlast] at hrun
    cases hloop : predict_loop env controls_end fuel
        { backup env L with backups_ := (backup env L).backups_.dropLast } with
    | done S =>
      rw [hloop] at hrun
      simp only [outcome.done.injEq, Prod.mk.injEq] at hrun
      rw [← hrun.2]
      refine ⟨rfl, ?_⟩
      rw [restore_chars, take_snapshot_chars, List.map_map, List.forall₂_map_right_iff]
      apply List.forall₂_same.2
      intro a _
      exact hcopy a
    | assertion_failed => rw [hloop] at hrun; exact outcome.noConfusion hrun
    | out_of_fuel => rw [hloop] at hrun; exact outcome.noConfusion hrun
  · intro henv hun hfuel
    obtain ⟨S, hS⟩ := predict_loop_returns env henv controls_end fuel
      { backup env L with backups_ := (backup env L).backups_.dropLast }
      (by show (backup env L).paused_ = false; rw [backup_paused]; exact hun)
      (by show (controls_end - (backup env L).cycle_).toNat ≤ fuel; rw [backup_cycle]; exact hfuel)
    unfold predict_future
    simp only [hlast, hS]
    exact ⟨_, _, rfl⟩

/-- C3 fails on the code when a snapshot of the current cycle is already in
the ring: on the sample level at cycle 5, whose entity "a" is at x = 10 and
whose newest snapshot, of cycle 5, records it at x = 0, `predict_future`
returns with "a" at x = 0, both when nothing is simulated (`controls_end` 5)
and when three cycles are (`controls_end` 8). -/
theorem C3_predict_future_restores_stale_snapshot :
    sample_stale.chars_.map (fun e => (e.label, e.x, e.y)) = [("a", 10, 0)]
    ∧ (∃ traced L', predict_future sample_env 5 0 sample_stale (sample_entity 1 "a" 10 0) 0
          = .done (traced, L')
        ∧ L'.cycle_ = sample_stale.cycle_
        ∧ L'.chars_.map (fun e => (e.label, e.x, e.y)) = [("a", 0, 0)])
    ∧ (∃ traced L', predict_future sample_env 8 3 sample_stale (sample_entity 1 "a" 10 0) 3
          = .done (traced, L')
        ∧ L'.cycle_ = sample_stale.cycle_
        ∧ L'.chars_.map (fun e => (e.label, e.x, e.y)) = [("a", 0, 0)]) := by
  refine ⟨by decide, ⟨_, _, rfl, by decide, by decide⟩, ⟨_, _, rfl, by decide, by decide⟩⟩

end Anura

namespace Anura

open level

/-! ## C11: the ring after `predict_future` -/

set_option maxRecDepth 100000

/-- C11 fails on the code. (1) When the newest snapshot of the ring already
has the current cycle, `predict_future` pops it and the ring has lost it on
return. (2) When the ring is at its cap of 250, the snapshot taken on entry
evicts the oldest one, which is missing on return. (3) When the ring reaches
the cap during the prediction, the evictions shift the ring, and the
truncation on return keeps two snapshots created during the prediction and
drops the two oldest retained ones. -/
theorem C11_predict_future_changes_the_ring :
    (sample_stale.backups_.length = 1
      ∧ ∃ traced L', predict_future sample_env 5 0 sample_stale (sample_entity 1 "a" 10 0) 0
          = .done (traced, L')
        ∧ L'.backups_ = [])
    ∧ (sample_full.backups_.map (fun s => s.cycle) = (List.range 250).map (fun (i : Nat) => (i : Int))
      ∧ ∃ traced L', predict_future sample_env 250 0 sample_full (sample_entity 1 "a" 0 0) 0
          = .done (traced, L')
        ∧ L'.backups_.map (fun s => s.cycle)
            = (List.range 249).map (fun (i : Nat) => (i : Int) + 1))
    ∧ (sample_nearly_full.backups_.map (fun s => s.cycle)
          = (List.range 249).map (fun (i : Nat) => (i : Int))
      ∧ ∃ traced L', predict_future sample_env 252 3 sample_nearly_full (sample_entity 1 "a" 0 0) 3
          = .done (traced, L')
        ∧ L'.backups_.map (fun s => s.cycle)
            = (List.range 247).map (fun (i : Nat) => (i : Int) + 2) ++ [250, 251]) := by
  refine ⟨⟨rfl, _, _, rfl, by decide⟩, ⟨by decide, _, _, rfl, by decide⟩,
    ⟨by decide, _, _, rfl, by decide⟩⟩

end Anura

namespace Anura

open level

/-! ## C12: the references stored in a snapshot -/

theorem mem_of_lookup_eq_some (m : List (Nat × entity)) (k : Nat) (v : entity)
    (h : m.lookup k = some v) : (k, v) ∈ m := by
  induction m with
  | nil => simp at h
  | cons kv tl ih =>
    rw [List.lookup_cons] at h
    by_cases hk : k = kv.1
    · subst hk
      simp only [beq_self_eq_true] at h
      have : kv = (kv.1, v) := by
        rw [← Option.some.inj h]
      rw [this]
      exact List.mem_cons_self _ _
    · have hne : (k == kv.1) = false := by simpa using hk
      rw [hne] at h
      exact List.mem_cons_of_mem _ (ih h)

/-- Every value of the map built by `backup()` is the clone of a live entity,
stored under the address of that entity. -/
theorem backup_entity_map_values (env : collaborators) (chars : List entity) (key : Nat)
    (c : entity) (h : (backup_entity_map env chars).lookup key = some c) :
    ∃ e ∈ chars, e.id = key ∧ c = env.entity_backup e := by
  have gen : ∀ (l : List entity) (m : List (Nat × entity)),
      (∀ kv ∈ m, ∃ e ∈ chars, e.id = kv.1 ∧ kv.2 = env.entity_backup e) →
      (∀ e ∈ l, e ∈ chars) →
      ∀ kv ∈ l.foldl (fun m e => (e.id, env.entity_backup e) :: m.filter (fun kv => kv.1 ≠ e.id))
        m, ∃ e ∈ chars, e.id = kv.1 ∧ kv.2 = env.entity_backup e := by
    intro l
    induction l with
    | nil => intro m hm _ kv hkv; exact hm kv hkv
    | cons a rest ih =>
      intro m hm hl kv hkv
      rw [List.foldl_cons] at hkv
      refine ih _ ?_ (fun e he => hl e (List.mem_cons_of_mem _ he)) kv hkv
      intro kv' hkv'
      rcases List.mem_cons.1 hkv' with rfl | hmem
      · exact ⟨a, hl a (List.mem_cons_self _ _), rfl, rfl⟩
      · exact hm kv' (List.mem_filter.1 hmem).1
  have := gen chars [] (fun kv hkv => by simp at hkv) (fun e he => he) (key, c)
    (mem_of_lookup_eq_some _ _ _ h)
  exact this

theorem backup_player_is_clone (env : collaborators) (L : level) (c : entity)
    (h : backup_player env L = some c) : ∃ e ∈ L.chars_, c = env.entity_backup e := by
  unfold backup_player at h
  have gen : ∀ (l : List entity) (acc : Option entity),
      (∀ c, acc = some c → ∃ e ∈ L.chars_, c = env.entity_backup e) →
      (∀ e ∈ l, e ∈ L.chars_) →
      ∀ c, l.foldl (fun acc e =>
          if (env.entity_backup e).is_human ∧ L.player_.map (fun p => p.id) = some e.id
          then some (env.entity_backup e) else acc) acc = some c →
        ∃ e ∈ L.chars_, c = env.entity_backup e := by
    intro l
    induction l with
    | nil => intro acc hacc _ c hc; exact hacc c hc
    | cons a rest ih =>
      intro acc hacc hl c hc
      rw [List.foldl_cons] at hc
      refine ih _ ?_ (fun e he => hl e (List.mem_cons_of_mem _ he)) c hc
      intro c' hc'
      split_ifs at hc' with hcond
      · exact ⟨a, hl a (List.mem_cons_self _ _), (Option.some.inj hc').symm⟩
      · exact hacc c' hc'
  exact gen L.chars_ none (fun c hc => Option.noConfusion hc) (fun e he => he) c h

/-- What `backup()` does right: the entries of `players`, the field `player`
and the entries of every group bucket of a snapshot are clones listed in
`chars`, each bucket being the image, in order, of the live bucket under the
map from live entities to clones (a live entry that has no clone is left out). -/
theorem take_snapshot_references (env : collaborators) (L : level) :
    (∀ c ∈ (take_snapshot env L).players, c ∈ (take_snapshot env L).chars)
    ∧ (∀ c, (take_snapshot env L).player = some c → c ∈ (take_snapshot env L).chars)
    ∧ (∀ g ∈ (take_snapshot env L).groups, ∀ c ∈ g, c ∈ (take_snapshot env L).chars)
    ∧ (take_snapshot env L).groups = L.groups_.map (fun g => g.filterMap (fun e =>
        ((backup_entity_map env L.chars_).lookup e.id).map
          (entity.map_entities (backup_entity_map env L.chars_))))
    ∧ (take_snapshot env L).last_touched_player = L.last_touched_player_ := by
  refine ⟨?_, ?_, ?_, rfl, rfl⟩
  · intro c hc
    unfold take_snapshot at hc ⊢
    simp only [List.mem_map, List.mem_filter] at hc ⊢
    obtain ⟨a, ⟨⟨e, he, rfl⟩, _⟩, rfl⟩ := hc
    exact ⟨env.entity_backup e, ⟨e, he, rfl⟩, rfl⟩
  · intro c hc
    unfold take_snapshot at hc ⊢
    simp only [Option.map_eq_some'] at hc
    obtain ⟨a, ha, rfl⟩ := hc
    obtain ⟨e, he, rfl⟩ := backup_player_is_clone env L a ha
    simp only [List.mem_map]
    exact ⟨env.entity_backup e, ⟨e, he, rfl⟩, rfl⟩
  · intro g hg c hc
    unfold take_snapshot at hg ⊢
    simp only [List.mem_map] at hg ⊢
    obtain ⟨g0, _, rfl⟩ := hg
    simp only [List.mem_filterMap, Option.map_eq_some'] at hc
    obtain ⟨e0, _, a, ha, rfl⟩ := hc
    obtain ⟨e, he, _, rfl⟩ := backup_entity_map_values env L.chars_ _ _ ha
    exact ⟨env.entity_backup e, ⟨e, he, rfl⟩, rfl⟩

/-- C12 fails on the code for `last_touched_player`: in the snapshot that
`backup()` takes of the sample level, whose player (address 1) is also the
player touched last, the clones have the addresses 1001 and 1002; `players`,
`player` and the group bucket refer to these clones, but
`last_touched_player` is the live entity at address 1, which is no clone of
the snapshot. -/
theorem C12_snapshot_keeps_live_last_touched_player :
    (backup sample_env sample_touched).backups_.getLast?
      = some (take_snapshot sample_env sample_touched)
    ∧ sample_touched.chars_.map (fun e => e.id) = [1, 2]
    ∧ (take_snapshot sample_env sample_touched).chars.map (fun e => e.id) = [1001, 1002]
    ∧ (take_snapshot sample_env sample_touched).players.map (fun e => e.id) = [1001]
    ∧ (take_snapshot sample_env sample_touched).player.map (fun e => e.id) = some 1001
    ∧ (take_snapshot sample_env sample_touched).groups.map (fun g => g.map (fun e => e.id))
        = [[1001, 1002]]
    ∧ (take_snapshot sample_env sample_touched).chars.map (fun e => e.refs) = [[], [1001]]
    ∧ (take_snapshot sample_env sample_touched).last_touched_player.map (fun e => e.id) = some 1
    ∧ (take_snapshot sample_env sample_touched).last_touched_player
        = sample_touched.last_touched_player_
    ∧ ∀ c ∈ (take_snapshot sample_env sample_touched).chars,
        (take_snapshot sample_env sample_touched).last_touched_player ≠ some c := by
  decide

/-! ## C18: rewinding past the retained window -/

/-- C18 (as amended): for every non-empty ring whose cycles do not decrease
from the oldest snapshot to the newest, and every target cycle older than the
cycle of the oldest retained snapshot, `reverse_to_cycle(target)` does not
fail: it pops every snapshot but the oldest, restores the oldest one (the
counter becomes its cycle, the live entities its clones) and leaves the ring
empty. -/
theorem C18_reverse_past_window_restores_oldest (env : collaborators) (L : level)
    (oldest : backup_snapshot) (newer : List backup_snapshot) (ncycle : Int)
    (hring : L.backups_ = oldest :: newer)
    (hsorted : (L.backups_.map (fun s => s.cycle)).Pairwise (fun a b => a ≤ b))
    (hpast : ncycle < oldest.cycle) :
    (reverse_to_cycle env L ncycle).cycle_ = oldest.cycle
    ∧ (reverse_to_cycle env L ncycle).cycle_ ≠ ncycle
    ∧ (reverse_to_cycle env L ncycle).chars_ = oldest.chars.map (entity.handle_event_load env)
    ∧ (reverse_to_cycle env L ncycle).backups_ = [] := by
  have hnewer : ∀ t ∈ newer.reverse, t.cycle > ncycle := by
    intro t ht
    rw [List.mem_reverse] at ht
    rw [hring, List.map_cons, List.pairwise_cons] at hsorted
    have := hsorted.1 t.cycle (List.mem_map.2 ⟨t, ht, rfl⟩)
    omega
  have hpop : (pop_newer ncycle L.backups_.reverse).reverse = [] ++ [oldest] := by
    rw [hring, List.reverse_cons, pop_newer_skip ncycle _ _ hnewer (by simp)]
    simp [pop_newer]
  have hrev : reverse_to_cycle env L ncycle
      = { restore_from_backup env { L with backups_ := [] ++ [oldest] } oldest with
          backups_ := [] } := by
    unfold reverse_to_cycle
    rw [if_neg (by rw [hring]; simp), hpop]
    exact reverse_one_cycle_snoc env L [] oldest
  have hc : (reverse_to_cycle env L ncycle).cycle_ = oldest.cycle := by rw [hrev]; rfl
  refine ⟨hc, by rw [hc]; omega, ?_, by rw [hrev]⟩
  rw [hrev]
  exact restore_chars env _ _

/-- Witness of C18 (as amended): with the cycles 0 to 10 backed up,
`reverse_to_cycle(-5)` returns with the counter at 0 and an empty ring. -/
theorem C18_reverse_past_window_restores_oldest_witness :
    (-5 : Int) < sample_history.earliest_backup_cycle
    ∧ (reverse_to_cycle sample_env sample_history (-5)).cycle_ = 0
    ∧ (reverse_to_cycle sample_env sample_history (-5)).backups_ = [] := by
  have h := C18_reverse_past_window_restores_oldest sample_env sample_history
    (take_snapshot sample_env (sample_level 0 [sample_entity 1 "a" 0 0]))
    ((List.range 10).map (fun (i : Nat) =>
      take_snapshot sample_env (sample_level ((i : Int) + 1) [sample_entity 1 "a" ((i : Int) + 1) 0])))
    (-5) (by decide) (by decide) (by decide)
  exact ⟨by decide, h.1, h.2.2.2⟩

/-- C18 fails as stated: `reverse_to_cycle` has no assertion. With the cycles
0 to 10 retained, the target -5 is older than the oldest retained cycle, and
the call returns normally, having restored the state of cycle 0. -/
theorem C18_counterexample :
    sample_history.backups_.map (fun s => s.cycle) = [0, 1, 2, 3, 4, 5, 6, 7, 8, 9, 10]
    ∧ (reverse_to_cycle sample_env sample_history (-5)).cycle_ = 0
    ∧ (reverse_to_cycle sample_env sample_history (-5)).chars_.map (fun e => (e.label, e.x))
        = [("a", 0)]
    ∧ (reverse_to_cycle sample_env sample_history (-5)).backups_ = [] := by
  decide

end Anura

namespace Anura

open level

/-! ## C19: tracing the past -/

theorem newest_of_each_cycle_sublist (l : List backup_snapshot) :
    List.Sublist (newest_of_each_cycle l) l := by
  induction l with
  | nil => exact List.Sublist.refl _
  | cons s older ih =>
    rw [newest_of_each_cycle]
    exact List.Sublist.cons₂ s ((List.filter_sublist _).trans ih)

/-- The snapshots kept have pairwise different cycles. -/
theorem newest_of_each_cycle_distinct (l : List backup_snapshot) :
    (newest_of_each_cycle l).Pairwise (fun a b => a.cycle ≠ b.cycle) := by
  induction l with
  | nil => exact List.Pairwise.nil
  | cons s older ih =>
    rw [newest_of_each_cycle, List.pairwise_cons]
    constructor
    · intro t ht
      have := (List.mem_filter.1 ht).2
      simp only [ne_eq, decide_not, Bool.not_eq_true', decide_eq_false_iff_not] at this
      exact fun h => this h.symm
    · exact List.Pairwise.sublist (List.filter_sublist _) ih

/-- Every cycle of the list is the cycle of a snapshot kept. -/
theorem newest_of_each_cycle_covers (l : List backup_snapshot) (s : backup_snapshot)
    (hs : s ∈ l) : ∃ t ∈ newest_of_each_cycle l, t.cycle = s.cycle := by
  induction l with
  | nil => simp at hs
  | cons a older ih =>
    rw [newest_of_each_cycle]
    rcases List.mem_cons.1 hs with rfl | hmem
    · exact ⟨s, List.mem_cons_self _ _, rfl⟩
    · obtain ⟨t, ht, htc⟩ := ih hmem
      by_cases hta : t.cycle = a.cycle
      · exact ⟨a, List.mem_cons_self _ _, by rw [← htc, hta]⟩
      · exact ⟨t, List.mem_cons_of_mem _ (List.mem_filter.2 ⟨ht, by simpa using hta⟩), htc⟩

theorem filter_filter_same_cycle (l : List backup_snapshot) (c : Int) :
    (l.filter (fun t => t.cycle ≠ c)).filter (fun t => t.cycle ≠ c)
      = l.filter (fun t => t.cycle ≠ c) := by
  rw [List.filter_filter]
  congr 1
  funext t
  simp

/-- The loop of `trace_past` on a list of snapshots given newest first whose
cycles do not increase and are never -1: the snapshots visited are the
newest of each cycle not older than `ncycle`, but for the cycle visited just
before. -/
theorem trace_loop_eq (label : String) (ncycle : Int) (l : List backup_snapshot) :
    ∀ (prev : Int), (l.map (fun s => s.cycle)).Pairwise (fun a b => b ≤ a) →
      (∀ s ∈ l, s.cycle ≠ -1) → (prev = -1 ∨ ∀ s ∈ l, s.cycle ≤ prev) →
      trace_loop label ncycle prev l
        = ((newest_of_each_cycle (l.filter (fun s => ncycle ≤ s.cycle))).filter
            (fun t => t.cycle ≠ prev)).filterMap
            (fun s => s.chars.find? (fun ghost => ghost.label = label)) := by
  induction l with
  | nil => intro prev _ _ _; rfl
  | cons s older ih =>
    intro prev hsorted hne hprev
    rw [List.map_cons, List.pairwise_cons] at hsorted
    have holder_le : ∀ t ∈ older, t.cycle ≤ s.cycle :=
      fun t ht => hsorted.1 t.cycle (List.mem_map.2 ⟨t, ht, rfl⟩)
    have hne' : ∀ t ∈ older, t.cycle ≠ -1 := fun t ht => hne t (List.mem_cons_of_mem _ ht)
    rw [trace_loop]
    by_cases hge : s.cycle ≥ ncycle
    · rw [if_pos hge]
      have hfilter : (s :: older).filter (fun s => ncycle ≤ s.cycle)
          = s :: older.filter (fun s => ncycle ≤ s.cycle) := by
        rw [List.filter_cons, if_pos (by simpa using hge)]
      rw [hfilter, newest_of_each_cycle]
      by_cases hskip : prev ≠ -1 ∧ s.cycle = prev
      · rw [if_pos hskip]
        have hprev' : prev = -1 ∨ ∀ t ∈ older, t.cycle ≤ prev :=
          Or.inr (fun t ht => by rw [← hskip.2]; exact holder_le t ht)
        rw [ih prev hsorted.2 hne' hprev', List.filter_cons,
          if_neg (by simp [hskip.2]), ← hskip.2, filter_filter_same_cycle]
      · rw [if_neg hskip]
        have hsprev : s.cycle ≠ prev := by
          intro h
          apply hskip
          refine ⟨?_, h⟩
          intro hp
          exact hne s (List.mem_cons_self _ _) (h.trans hp)
        have hnone : ∀ t ∈ older, t.cycle ≠ prev := by
          intro t ht heq
          rcases hprev with hp | hp
          · exact hne' t ht (heq.trans hp)
          · have h1 := hp s (List.mem_cons_self _ _)
            have h2 := holder_le t ht
            omega
        have hid : ((newest_of_each_cycle (older.filter (fun s => ncycle ≤ s.cycle))).filter
            (fun t => t.cycle ≠ s.cycle)).filter (fun t => t.cycle ≠ prev)
            = (newest_of_each_cycle (older.filter (fun s => ncycle ≤ s.cycle))).filter
                (fun t => t.cycle ≠ s.cycle) := by
          apply List.filter_eq_self.2
          intro t ht
          have ht' : t ∈ older :=
            (List.mem_filter.1 ((newest_of_each_cycle_sublist _).subset
              (List.mem_filter.1 ht).1)).1
          simpa using hnone t ht'
        have ihs := ih s.cycle hsorted.2 hne' (Or.inr holder_le)
        rw [List.filter_cons, if_pos (by simpa using hsprev), hid, List.filterMap_cons]
        cases hfind : s.chars.find? (fun ghost => ghost.label = label) with
        | none => simp only [ihs]
        | some ghost => simp only [ihs]
    · rw [if_neg hge]
      have hempty : (s :: older).filter (fun s => ncycle ≤ s.cycle) = [] := by
        apply List.filter_eq_nil_iff.2
        intro t ht
        rcases List.mem_cons.1 ht with rfl | hmem
        · simpa using hge
        · have := holder_le t hmem
          simp only [decide_eq_true_eq, not_le]
          omega
      rw [hempty]
      rfl

/-- The ring that `backup()` builds never holds two neighbouring snapshots of
the same cycle: the empty ring of a new level does not, and `backup()`
appends a snapshot only when the newest one is of another cycle. -/
theorem backup_no_equal_neighbours (env : collaborators) (L : level)
    (h : (L.backups_.map (fun s => s.cycle)).Chain' (fun a b => a ≠ b)) :
    ((backup env L).backups_.map (fun s => s.cycle)).Chain' (fun a b => a ≠ b) := by
  have hpush : ∀ s : backup_snapshot, (∀ t ∈ L.backups_.getLast?, t.cycle ≠ s.cycle) →
      ((ring_push L.backups_ s).map (fun s => s.cycle)).Chain' (fun a b => a ≠ b) := by
    intro s hs
    have happ : ((L.backups_ ++ [s]).map (fun s => s.cycle)).Chain' (fun a b => a ≠ b) := by
      rw [List.map_append]
      refine List.Chain'.append h (List.chain'_singleton _) ?_
      intro x hx y hy
      rw [List.getLast?_map] at hx
      simp only [List.map_cons, List.map_nil, List.head?_cons, Option.mem_def,
        Option.some.injEq] at hy
      simp only [Option.mem_def, Option.map_eq_some'] at hx
      obtain ⟨t, ht, rfl⟩ := hx
      rw [← hy]
      exact hs t ht
    unfold ring_push
    simp only
    split_ifs
    · rw [List.map_drop]
      exact List.Chain'.drop happ 1
    · exact happ
  unfold backup
  cases hlast : L.backups_.getLast? with
  | none =>
    simp only
    exact hpush _ (by rw [hlast]; intro t ht; simp at ht)
  | some newest =>
    simp only
    by_cases hc : newest.cycle = L.cycle_
    · rw [if_pos hc]
      exact h
    · rw [if_neg hc]
      refine hpush _ ?_
      rw [hlast]
      intro t ht
      simp only [Option.mem_def, Option.some.injEq] at ht
      rw [← ht]
      exact hc

/-- The ring that `replay_from_cycle` and `reverse_to_cycle` leave, a ring with
the newest snapshots dropped, holds no two neighbouring snapshots of the same
cycle either. -/
theorem take_no_equal_neighbours (ring : List backup_snapshot) (n : Nat)
    (h : (ring.map (fun s => s.cycle)).Chain' (fun a b => a ≠ b)) :
    ((ring.take n).map (fun s => s.cycle)).Chain' (fun a b => a ≠ b) := by
  rw [List.map_take]
  exact List.Chain'.take h n

/-- Cycles that do not decrease and never repeat from one snapshot to the next
increase strictly. -/
theorem increasing_of_no_equal_neighbours :
    ∀ (l : List Int), l.Pairwise (fun a b => a ≤ b) → l.Chain' (fun a b => a ≠ b) →
      l.Pairwise (fun a b => a < b)
  | [], _, _ => List.Pairwise.nil
  | [a], _, _ => List.pairwise_singleton _ a
  | a :: c :: rest, hs, hc => by
    rw [List.chain'_cons] at hc
    rw [List.pairwise_cons] at hs
    have ih := increasing_of_no_equal_neighbours (c :: rest) hs.2 hc.2
    rw [List.pairwise_cons]
    refine ⟨?_, ih⟩
    intro b hb
    have hac : a < c := lt_of_le_of_ne (hs.1 c (List.mem_cons_self _ _)) hc.1
    rcases List.mem_cons.1 hb with rfl | hmem
    · exact hac
    · exact lt_trans hac ((List.pairwise_cons.1 ih).1 b hmem)

/-- The loop of `trace_past` on a list of snapshots given newest first whose
cycles decrease strictly: every snapshot not older than `ncycle` is visited,
and the loop stops at the first older one. -/
theorem trace_loop_strict (label : String) (ncycle : Int) (l : List backup_snapshot) :
    ∀ (prev : Int), l.Pairwise (fun a b => b.cycle < a.cycle) →
      (prev = -1 ∨ ∀ s ∈ l, s.cycle < prev) →
      trace_loop label ncycle prev l
        = (l.filter (fun s => ncycle ≤ s.cycle)).filterMap
            (fun s => s.chars.find? (fun ghost => ghost.label = label)) := by
  induction l with
  | nil => intro prev _ _; rfl
  | cons s older ih =>
    intro prev hsorted hprev
    rw [List.pairwise_cons] at hsorted
    rw [trace_loop]
    by_cases hge : s.cycle ≥ ncycle
    · rw [if_pos hge]
      have hskip : ¬ (prev ≠ -1 ∧ s.cycle = prev) := by
        rintro ⟨h1, h2⟩
        rcases hprev with hp | hp
        · exact h1 hp
        · have := hp s (List.mem_cons_self _ _)
          omega
      have ihs := ih s.cycle hsorted.2 (Or.inr hsorted.1)
      rw [if_neg hskip, List.filter_cons, if_pos (by simpa using hge), List.filterMap_cons]
      cases hfind : s.chars.find? (fun ghost => ghost.label = label) with
      | none => simp only [ihs]
      | some ghost => simp only [ihs]
    · rw [if_neg hge]
      have hempty : (s :: older).filter (fun s => ncycle ≤ s.cycle) = [] := by
        apply List.filter_eq_nil_iff.2
        intro t ht
        rcases List.mem_cons.1 ht with rfl | hmem
        · simpa using hge
        · have := hsorted.1 t hmem
          simp only [decide_eq_true_eq, not_le]
          omega
      rw [hempty]
      rfl

/-- A list of snapshots of pairwise different cycles holds, for each cycle,
its newest snapshot only. -/
theorem newest_of_each_cycle_eq_self (l : List backup_snapshot)
    (h : l.Pairwise (fun a b => a.cycle ≠ b.cycle)) : newest_of_each_cycle l = l := by
  induction l with
  | nil => rfl
  | cons s older ih =>
    rw [List.pairwise_cons] at h
    rw [newest_of_each_cycle, ih h.2]
    congr 1
    apply List.filter_eq_self.2
    intro t ht
    simpa using fun heq => h.1 t ht heq.symm

/-- The ring of the sample history, built by `backup()` alone, holds no two
neighbouring snapshots of the same cycle. -/
theorem sample_history_no_equal_neighbours :
    (sample_history.backups_.map (fun s => s.cycle)).Chain' (fun a b => a ≠ b) := by
  rw [show sample_history.backups_.map (fun s => s.cycle) = [0, 1, 2, 3, 4, 5, 6, 7, 8, 9, 10]
    from by decide]
  simp

/-- C19: for every ring with non-decreasing cycles that `backup()` has built
(it never appends a snapshot of the cycle of the newest one, so that no two
neighbouring snapshots are of the same cycle), every entity e and every cycle
`since`: once the snapshot of the current cycle has been taken, each cycle of
the ring has one snapshot, and `trace_past(e, since)` returns, newest cycle
first, exactly one clone for each cycle c >= since of the ring in which some
clone carries the label of e, namely the first clone of the snapshot of c
whose label is the label of e, and nothing for the cycles older than
`since`. This is the trace as the specification words it; the snapshots the
clones are taken from have pairwise different cycles, so that no two clones
of the result come from the same cycle. -/
theorem C19_trace_past_one_clone_per_cycle (env : collaborators) (L : level) (e : entity)
    (since : Int)
    (hbuilt : (L.backups_.map (fun s => s.cycle)).Chain' (fun a b => a ≠ b))
    (hsorted : ((backup env L).backups_.map (fun s => s.cycle)).Pairwise (fun a b => a ≤ b)) :
    (trace_past env L e since).1
      = ((backup env L).backups_.reverse.filter (fun s => since ≤ s.cycle)).filterMap
          (fun s => s.chars.find? (fun ghost => ghost.label = e.label))
    ∧ ((backup env L).backups_.map (fun s => s.cycle)).Pairwise (fun a b => a < b)
    ∧ (trace_past env L e since).1 = trace_past_spec e.label since (backup env L).backups_
    ∧ (trace_past env L e since).2 = backup env L
    ∧ (newest_of_each_cycle ((backup env L).backups_.reverse.filter
          (fun s => since ≤ s.cycle))).Pairwise (fun a b => a.cycle ≠ b.cycle)
    ∧ (∀ s ∈ (backup env L).backups_, since ≤ s.cycle →
        ∃ t ∈ newest_of_each_cycle ((backup env L).backups_.reverse.filter
          (fun s => since ≤ s.cycle)), t.cycle = s.cycle)
    ∧ (∀ t ∈ newest_of_each_cycle ((backup env L).backups_.reverse.filter
          (fun s => since ≤ s.cycle)), t ∈ (backup env L).backups_ ∧ since ≤ t.cycle) := by
  have hstrict := increasing_of_no_equal_neighbours _ hsorted
    (backup_no_equal_neighbours env L hbuilt)
  have hrev : (backup env L).backups_.reverse.Pairwise (fun a b => b.cycle < a.cycle) := by
    rw [List.pairwise_reverse]
    exact List.pairwise_map.1 hstrict
  have hloop : (trace_past env L e since).1
      = ((backup env L).backups_.reverse.filter (fun s => since ≤ s.cycle)).filterMap
          (fun s => s.chars.find? (fun ghost => ghost.label = e.label)) := by
    unfold trace_past
    simp only
    exact trace_loop_strict e.label since _ (-1) hrev (Or.inl rfl)
  refine ⟨hloop, hstrict, ?_, rfl, newest_of_each_cycle_distinct _, ?_, ?_⟩
  · rw [hloop]
    unfold trace_past_spec
    rw [newest_of_each_cycle_eq_self]
    exact List.Pairwise.sublist (List.filter_sublist _)
      (List.Pairwise.imp (fun h => (ne_of_lt h).symm) hrev)
  · intro s hs hsince
    exact newest_of_each_cycle_covers _ s
      (List.mem_filter.2 ⟨List.mem_reverse.2 hs, by simpa using hsince⟩)
  · intro t ht
    have ht' := List.mem_filter.1 ((newest_of_each_cycle_sublist _).subset ht)
    exact ⟨List.mem_reverse.1 ht'.1, by simpa using ht'.2⟩

/-- Witness of C19: with the cycles 0 to 10 backed up, the trace of "a" since
cycle 8 is its clones of the cycles 10, 9 and 8. -/
theorem C19_trace_past_one_clone_per_cycle_witness :
    (sample_history.backups_.map (fun s => s.cycle)).Chain' (fun a b => a ≠ b)
    ∧ ((backup sample_env sample_history).backups_.map (fun s => s.cycle)).Pairwise
        (fun a b => a ≤ b)
    ∧ (trace_past sample_env sample_history (sample_entity 1 "a" 10 0) 8).1
        = trace_past_spec "a" 8 (backup sample_env sample_history).backups_
    ∧ (trace_past sample_env sample_history (sample_entity 1 "a" 10 0) 8).1.map (fun g => g.x)
        = [10, 9, 8] :=
  ⟨sample_history_no_equal_neighbours, by decide,
   (C19_trace_past_one_clone_per_cycle sample_env sample_history (sample_entity 1 "a" 10 0) 8
      sample_history_no_equal_neighbours (by decide)).2.2.1,
   by decide⟩

/-- A level at cycle -1 with an empty ring: `trace_past(e, -1)` takes the one
snapshot of cycle -1 and returns its one clone of "a". -/
theorem trace_past_at_cycle_minus_one :
    ((backup sample_env (sample_level (-1) [sample_entity 1 "a" 4 0])).backups_.map
        (fun s => s.cycle)) = [-1]
    ∧ (trace_past sample_env (sample_level (-1) [sample_entity 1 "a" 4 0])
        (sample_entity 1 "a" 4 0) (-1)).1.map (fun g => (g.label, g.x)) = [("a", 4)] := by
  decide

end Anura

namespace Anura

open level

/-! ## C13: adding an entity whose label is taken -/

theorem toDigitsCore_length (b : Nat) : ∀ (fuel n : Nat) (ds : List Char),
    ds.length ≤ (Nat.toDigitsCore b fuel n ds).length
    ∧ (0 < fuel → ds.length < (Nat.toDigitsCore b fuel n ds).length) := by
  intro fuel
  induction fuel with
  | zero => intro n ds; simp [Nat.toDigitsCore]
  | succ f ih =>
    intro n ds
    simp only [Nat.toDigitsCore]
    split_ifs with h
    · simp
    · have := (ih (n / b) (Nat.digitChar (n % b) :: ds)).1
      simp only [List.length_cons] at this
      constructor
      · omega
      · intro _; omega

/-- The decimal text of a number has at least one digit. -/
theorem toString_nat_length_pos (n : Nat) : 0 < (toString n).length := by
  show 0 < (Nat.repr n).length
  unfold Nat.repr Nat.toDigits
  have := (toDigitsCore_length 10 (n + 1) n []).2 (Nat.succ_pos n)
  simpa [List.asString] using this

theorem le_label_bound (m : List (String × entity)) (key : String)
    (h : (m.lookup key).isSome = true) : key.length ≤ label_bound m := by
  induction m with
  | nil => simp at h
  | cons kv rest ih =>
    rw [List.lookup_cons] at h
    rw [label_bound]
    by_cases hk : key = kv.1
    · subst hk
      exact le_max_left _ _
    · have hne : (key == kv.1) = false := by simpa using hk
      rw [hne] at h
      exact le_trans (ih h) (le_max_right _ _)

/-- The renaming loop ends within its budget: it reaches a label that is no
key of the map, at least as long as the label it started from, and longer
when that label was a key. -/
theorem rename_loop_total (rand : Nat → Nat) (m : List (String × entity)) :
    ∀ (fuel k : Nat) (label : String), label_bound m < label.length + fuel →
      ∃ label' k', rename_loop rand m fuel k label = some (label', k')
        ∧ m.lookup label' = none
        ∧ label.length ≤ label'.length
        ∧ ((m.lookup label).isSome = true → label.length < label'.length) := by
  intro fuel
  induction fuel with
  | zero =>
    intro k label hb
    by_cases hkey : (m.lookup label).isSome = true
    · have := le_label_bound m label hkey
      omega
    · exact ⟨label, k, by simp [rename_loop, hkey], Option.not_isSome_iff_eq_none.1 hkey,
        le_refl _, fun h => absurd h hkey⟩
  | succ f ih =>
    intro k label hb
    by_cases hkey : (m.lookup label).isSome = true
    · have hlen : (label ++ toString (rand k)).length = label.length + (toString (rand k)).length :=
        String.length_append _ _
      have hpos := toString_nat_length_pos (rand k)
      obtain ⟨label', k', hrun, hnone, hle, _⟩ :=
        ih (k + 1) (label ++ toString (rand k)) (by omega)
      refine ⟨label', k', by rw [rename_loop, if_pos hkey]; exact hrun, hnone, by omega,
        fun _ => by omega⟩
    · exact ⟨label, k, by rw [rename_loop, if_neg hkey], Option.not_isSome_iff_eq_none.1 hkey,
        le_refl _, fun h => absurd h hkey⟩

theorem lookup_label_erase (m : List (String × entity)) (key k : String) :
    (label_erase m key).lookup k = if k = key then none else m.lookup k := by
  unfold label_erase
  induction m with
  | nil => simp
  | cons kv rest ih =>
    rw [List.filter_cons]
    by_cases hkv : kv.1 = key
    · rw [if_neg (by simp [hkv]), ih, List.lookup_cons]
      by_cases hk : k = key
      · simp [hk]
      · have : (k == kv.1) = false := by
          simp only [beq_eq_false_iff_ne, ne_eq]
          intro h; exact hk (h.trans hkv)
        simp [hk, this]
    · rw [if_pos (by simp [hkv]), List.lookup_cons, List.lookup_cons, ih]
      by_cases hk : k = kv.1
      · subst hk
        simp [hkv]
      · have : (k == kv.1) = false := by simpa using hk
        rw [this]

theorem lookup_label_assign (m : List (String × entity)) (key k : String) (e : entity) :
    (label_assign m key e).lookup k = if k = key then some e else m.lookup k := by
  unfold label_assign
  rw [List.lookup_cons]
  by_cases hk : k = key
  · subst hk
    simp
  · have : (k == key) = false := by simpa using hk
    rw [this, if_neg hk]
    have := lookup_label_erase m key k
    unfold label_erase at this
    rw [this, if_neg hk]

theorem lookup_map_values (m : List (String × entity)) (g : entity → entity) (k : String) :
    (m.map (fun kv => (kv.1, g kv.2))).lookup k = (m.lookup k).map g := by
  induction m with
  | nil => rfl
  | cons kv rest ih =>
    rw [List.map_cons, List.lookup_cons, List.lookup_cons, ih]
    cases (k == kv.1) <;> rfl

theorem set_object_labels (v : entity) (L : level) (k : String) :
    (set_object v L).chars_by_label_.lookup k
      = (L.chars_by_label_.lookup k).map (fun e => if e.id ∈ [v.id] then v else e) := by
  exact lookup_map_values L.chars_by_label_ (fun e => if e.id ∈ [v.id] then v else e) k

theorem set_object_chars (v : entity) (L : level) :
    (set_object v L).chars_ = L.chars_.map (fun e => if e.id ∈ [v.id] then v else e) := rfl

/-- C13: in a registry where the label of p is already mapped to an entity a,
another object, adding the non-human entity p with `add_character` returns;
afterwards the label of p differs from the label it came with,
`get_entity_by_label` of the final label of p returns p,
`get_entity_by_label` of the old label still returns a, and p is in the live
entity list. (The keys of `chars_by_label_` are non-empty labels.) -/
theorem C13_add_character_renames_on_collision (env : registry_env) (editor_ : Bool) (k : Nat)
    (L : level) (a p : entity)
    (hmapped : get_entity_by_label L p.label = some a) (hother : a.id ≠ p.id)
    (hlabel : p.label.isEmpty = false) (hnonhuman : p.is_human = false) :
    ∃ L' k' p', add_character env editor_ k L p = .done (L', k', p')
      ∧ p'.id = p.id
      ∧ p'.label ≠ p.label
      ∧ get_entity_by_label L' p'.label = some p'
      ∧ get_entity_by_label L' p.label = some a
      ∧ p' ∈ L'.chars_ := by
  unfold get_entity_by_label at hmapped
  obtain ⟨label, k', hrun, hnone, _, hlonger⟩ :=
    rename_loop_total env.rand L.chars_by_label_ (label_bound L.chars_by_label_ + 1) k p.label
      (by omega)
  have hlt : p.label.length < label.length := hlonger (by rw [hmapped]; rfl)
  have hne : label ≠ p.label := by
    intro h
    rw [h] at hlt
    exact lt_irrefl _ hlt
  -- the level after the optional push on `solid_chars_` has the same label map
  have hsolid : ∀ (L0 : level), L0.chars_by_label_ = L.chars_by_label_ →
      ∃ L' p', (match rename_loop env.rand L0.chars_by_label_
            (label_bound L0.chars_by_label_ + 1) k p.label with
          | none => (outcome.out_of_fuel : outcome (level × Nat × entity))
          | some (label, k) =>
            let p := { p with label := label }
            let L := set_object p L0
            let L := { L with chars_by_label_ := label_assign L.chars_by_label_ label p }
            let added : outcome (level × entity) :=
              if p.is_human then add_player env editor_ L p
              else .done ({ L with chars_ := L.chars_ ++ [p] }, p)
            match added with
            | .done (L, p) =>
              let p := { p with state := env.on_add_to_level p }
              let L := set_object p L
              let p := { p with state := env.on_being_added p }
              let L := set_object p L
              .done (L, k, p)
            | .assertion_failed => .assertion_failed
            | .out_of_fuel => .out_of_fuel) = .done (L', k', p')
        ∧ p'.id = p.id ∧ p'.label = label
        ∧ L'.chars_by_label_.lookup label = some p'
        ∧ L'.chars_by_label_.lookup p.label = some a
        ∧ p' ∈ L'.chars_ := by
    intro L0 hL0
    rw [hL0, hrun]
    simp only [hnonhuman, Bool.false_eq_true, ↓reduceIte]
    refine ⟨_, _, rfl, rfl, rfl, ?_, ?_, ?_⟩
    · rw [set_object_labels, set_object_labels]
      simp only
      rw [lookup_label_assign, if_pos rfl]
      simp
    · rw [set_object_labels, set_object_labels]
      simp only
      rw [lookup_label_assign, if_neg (fun h => hne h.symm), set_object_labels, hL0, hmapped]
      simp [hother]
    · rw [set_object_chars, set_object_chars]
      simp only [List.map_append, List.map_cons, List.map_nil, List.mem_append, List.mem_singleton]
      right
      simp
  unfold add_character
  simp only [hlabel, Bool.false_eq_true, ↓reduceIte]
  obtain ⟨L', p', hdone, hid, hlab, hget, hold, hmem⟩ := hsolid
    (if L.solid_chars_ ≠ [] ∧ env.has_solid p = true
      then { L with solid_chars_ := L.solid_chars_ ++ [p] } else L)
    (by split_ifs <;> rfl)
  refine ⟨L', k', p', hdone, hid, by rw [hlab]; exact hne, ?_, hold, hmem⟩
  unfold get_entity_by_label
  rw [hlab]
  exact hget

/-- Witness of C13: two entities both labelled "door1": the second one is
renamed "door17" (the first value of `rand()` being 7), and each is found
under its label. -/
theorem C13_add_character_renames_on_collision_witness :
    get_entity_by_label sample_doors "door1" = some (sample_entity 1 "door1" 0 0)
    ∧ ∃ L' k' p', add_character sample_registry_env false 0 sample_doors
          (sample_entity 2 "door1" 64 0) = .done (L', k', p')
        ∧ p'.label = "door17"
        ∧ get_entity_by_label L' "door17" = some p'
        ∧ get_entity_by_label L' "door1" = some (sample_entity 1 "door1" 0 0)
        ∧ L'.chars_.map (fun e => (e.id, e.label)) = [(1, "door1"), (2, "door17")] := by
  refine ⟨by decide, ?_⟩
  obtain ⟨L', k', p', hrun, _, _, _, hold, _⟩ :=
    C13_add_character_renames_on_collision sample_registry_env false 0 sample_doors
      (sample_entity 1 "door1" 0 0) (sample_entity 2 "door1" 64 0) (by decide) (by decide)
      (by decide) (by decide)
  have hval : add_character sample_registry_env false 0 sample_doors
      (sample_entity 2 "door1" 64 0)
      = .done ({ sample_doors with
          chars_ := [sample_entity 1 "door1" 0 0, sample_entity 2 "door17" 64 0]
          chars_by_label_ := [("door17", sample_entity 2 "door17" 64 0),
            ("door1", sample_entity 1 "door1" 0 0)] }, 1, sample_entity 2 "door17" 64 0) := by
    decide
  rw [hval] at hrun
  simp only [outcome.done.injEq, Prod.mk.injEq] at hrun
  obtain ⟨h1, _, h3⟩ := hrun
  subst h1 h3
  exact ⟨_, _, _, hval, by decide, by decide, hold, by decide⟩

end Anura

namespace Anura

open level

/-! ## C14: the invariant of the registry -/

/-- C14 fails on the code. (1) `load_character` assigns the label of the
loaded entity without looking for a holder of that label: after two
entities labelled "door1" have been loaded, the first one is live, but
`chars_by_label_` holds the second one under "door1". (2) `add_character`
never touches `groups_`: after an entity of group 0 is added to a registry
that satisfies the invariant and has a bucket 0, the entity is live and in no
bucket. -/
theorem C14_registry_invariant_broken :
    (registry_invariant sample_doors
      ∧ ¬ registry_invariant (load_character 0 sample_doors (sample_entity 2 "door1" 64 0))
      ∧ (load_character 0 sample_doors (sample_entity 2 "door1" 64 0)).chars_.map
          (fun e => (e.id, e.label)) = [(1, "door1"), (2, "door1")]
      ∧ (get_entity_by_label (load_character 0 sample_doors (sample_entity 2 "door1" 64 0))
          "door1").map (fun e => e.id) = some 2)
    ∧ (registry_invariant sample_grouped
      ∧ ∃ L' k' p', add_character sample_registry_env false 0 sample_grouped
            { sample_entity 3 "key" 0 0 with group := 0 } = .done (L', k', p')
          ∧ ¬ registry_invariant L'
          ∧ L'.chars_.map (fun e => (e.id, e.group)) = [(1, -1), (3, 0)]
          ∧ L'.groups_ = [[]]) := by
  refine ⟨by decide, by decide, _, _, _, rfl, by decide, by decide, by decide⟩

/-! ## C15: removing an entity -/

/-- C15 fails on the code: `remove_character` does not touch `groups_`. After
`remove_character` of the entity "crate" (address 5, group 0), the entity is
gone from the live list, from `chars_by_label_` and from the active subset,
but bucket 0 still holds it; `erase_char`, on the same registry, empties the
bucket (and leaves the active subset as it is). -/
theorem C15_remove_character_leaves_group_entry :
    sample_crate.chars_.map (fun e => e.id) = [5]
    ∧ sample_crate.groups_.map (fun g => g.map (fun e => e.id)) = [[5]]
    ∧ (remove_character sample_registry_env sample_crate
        { sample_entity 5 "crate" 8 8 with group := 0 }).chars_ = []
    ∧ (remove_character sample_registry_env sample_crate
        { sample_entity 5 "crate" 8 8 with group := 0 }).chars_by_label_ = []
    ∧ (remove_character sample_registry_env sample_crate
        { sample_entity 5 "crate" 8 8 with group := 0 }).active_chars_ = []
    ∧ (remove_character sample_registry_env sample_crate
        { sample_entity 5 "crate" 8 8 with group := 0 }).groups_.map
          (fun g => g.map (fun e => e.id)) = [[5]]
    ∧ (∃ L', erase_char sample_crate { sample_entity 5 "crate" 8 8 with group := 0 } = .done L'
        ∧ L'.chars_ = [] ∧ L'.chars_by_label_ = [] ∧ L'.groups_ = [[]]
        ∧ L'.active_chars_.map (fun e => e.id) = [5]) := by
  refine ⟨by decide, by decide, by decide, by decide, by decide, by decide,
    _, rfl, by decide, by decide, by decide, by decide⟩

end Anura

namespace Anura

open level

/-! ## Sub-level composition: one activation -/

theorem lookup_modify_sub (name key : String) (f : sub_level_data → sub_level_data)
    (subs : List (String × sub_level_data)) :
    (modify_sub name f subs).lookup key
      = if key = name then (subs.lookup key).map f else subs.lookup key := by
  unfold modify_sub
  induction subs with
  | nil => simp
  | cons kv rest ih =>
    rw [List.map_cons, List.lookup_cons, List.lookup_cons, ih]
    by_cases hkv : kv.1 = name
    · rw [if_pos hkv]
      by_cases hk : key = kv.1
      · subst hk
        simp [hkv]
      · have : (key == kv.1) = false := by simpa using hk
        simp only [this]
    · rw [if_neg hkv]
      by_cases hk : key = kv.1
      · subst hk
        simp [hkv]
      · have : (key == kv.1) = false := by simpa using hk
        simp only [this]

theorem modify_sub_modify_sub_const (name : String) (f : sub_level_data → sub_level_data)
    (d : sub_level_data) (subs : List (String × sub_level_data)) :
    modify_sub name (fun _ => d) (modify_sub name f subs) = modify_sub name (fun _ => d) subs := by
  unfold modify_sub
  rw [List.map_map]
  apply List.map_congr_left
  intro kv _
  simp only [Function.comp]
  by_cases hkv : kv.1 = name
  · simp [hkv]
  · simp [hkv]

/-- The two maps that `build_solid_data_from_sub_levels` leaves: the merges of
the maps of the active sub-levels over empty maps. -/
theorem build_solid_data_eq (env : registry_env) (T : Int) (W : composed_level) :
    (build_solid_data_from_sub_levels env T W).solid_
        = merged_active env.merge T (fun d => d.lvl_solid_) W.sub_levels_
    ∧ (build_solid_data_from_sub_levels env T W).standable_
        = merged_active env.merge T (fun d => d.lvl_standable_) W.sub_levels_
    ∧ (build_solid_data_from_sub_levels env T W).sub_levels_ = W.sub_levels_
    ∧ (build_solid_data_from_sub_levels env T W).registry = W.registry := by
  have gen : ∀ (subs : List (String × sub_level_data)) (acc : level_solid_map × level_solid_map),
      subs.foldl
        (fun (acc : level_solid_map × level_solid_map) kv =>
          if kv.2.active then
            (env.merge acc.1 kv.2.lvl_solid_ (kv.2.xoffset.tdiv T) (kv.2.yoffset.tdiv T),
             env.merge acc.2 kv.2.lvl_standable_ (kv.2.xoffset.tdiv T) (kv.2.yoffset.tdiv T))
          else acc) acc
      = ((subs.filter (fun kv => kv.2.active)).foldl
          (fun acc kv => env.merge acc kv.2.lvl_solid_ (kv.2.xoffset.tdiv T)
            (kv.2.yoffset.tdiv T)) acc.1,
         (subs.filter (fun kv => kv.2.active)).foldl
          (fun acc kv => env.merge acc kv.2.lvl_standable_ (kv.2.xoffset.tdiv T)
            (kv.2.yoffset.tdiv T)) acc.2) := by
    intro subs
    induction subs with
    | nil => intro acc; rfl
    | cons kv rest ih =>
      intro acc
      rw [List.foldl_cons, ih, List.filter_cons]
      by_cases ha : kv.2.active = true
      · simp only [ha, ↓reduceIte, List.foldl_cons]
      · simp only [ha, Bool.false_eq_true, ↓reduceIte]
  refine ⟨?_, ?_, rfl, rfl⟩
  · unfold build_solid_data_from_sub_levels merged_active
    simp only
    rw [gen]
  · unfold build_solid_data_from_sub_levels merged_active
    simp only
    rw [gen]

/-- One activation that returns: the entry of the sub-level is replaced by an
entry with the same maps and the same base, its offset being the offset asked
for less the base, marked active, its rectangles translated by the offset
asked for less the offset stored before; the other entries are kept, and the
two merged maps are rebuilt from the active entries. -/
theorem add_sub_level_done (env : registry_env) (T : Int) (W W' : composed_level)
    (lvl : String) (xoffset yoffset : Int) (add_objects : Bool) (d : sub_level_data)
    (hd : W.sub_levels_.lookup lvl = some d)
    (hrun : add_sub_level env T W lvl xoffset yoffset add_objects = .done W') :
    ∃ d', W'.sub_levels_ = modify_sub lvl (fun _ => d') W.sub_levels_
      ∧ d'.lvl_solid_ = d.lvl_solid_ ∧ d'.lvl_standable_ = d.lvl_standable_
      ∧ d'.xbase = d.xbase ∧ d'.ybase = d.ybase
      ∧ d'.xoffset = xoffset - d.xbase ∧ d'.yoffset = yoffset - d.ybase
      ∧ d'.active = true
      ∧ d'.lvl_solid_color_rects_ = d.lvl_solid_color_rects_.map (fun r =>
          { r with area := { x := r.area.x + (xoffset - d.xoffset),
                             y := r.area.y + (yoffset - d.yoffset),
                             w := r.area.w, h := r.area.h } })
      ∧ W'.solid_ = merged_active env.merge T (fun d => d.lvl_solid_) W'.sub_levels_
      ∧ W'.standable_ = merged_active env.merge T (fun d => d.lvl_standable_) W'.sub_levels_ := by
  unfold add_sub_level at hrun
  rw [hd] at hrun
  simp only at hrun
  -- the state after the optional deactivation
  have hrem : ∃ W1 f, (if d.active = true ∧ add_objects = true then remove_sub_level env W lvl
        else outcome.done W) = .done W1
      ∧ W1.sub_levels_ = modify_sub lvl f W.sub_levels_
      ∧ (∀ e, (f e).lvl_solid_ = e.lvl_solid_ ∧ (f e).lvl_standable_ = e.lvl_standable_
          ∧ (f e).xbase = e.xbase ∧ (f e).ybase = e.ybase ∧ (f e).xoffset = e.xoffset
          ∧ (f e).yoffset = e.yoffset
          ∧ (f e).lvl_solid_color_rects_ = e.lvl_solid_color_rects_) := by
    by_cases hc : d.active = true ∧ add_objects = true
    · rw [if_pos hc]
      unfold remove_sub_level
      rw [hd]
      exact ⟨_, (fun d => { d with objects := if d.active then [] else d.objects,
                                   active := false }),
        rfl, rfl, fun e => ⟨rfl, rfl, rfl, rfl, rfl, rfl, rfl⟩⟩
    · rw [if_neg hc]
      refine ⟨W, id, rfl, ?_, fun e => ⟨rfl, rfl, rfl, rfl, rfl, rfl, rfl⟩⟩
      unfold modify_sub
      simp
  obtain ⟨W1, f, hW1, hsubs, hf⟩ := hrem
  rw [hW1] at hrun
  simp only at hrun
  have hlook : W1.sub_levels_.lookup lvl = some (f d) := by
    rw [hsubs, lookup_modify_sub, if_pos rfl, hd]
    rfl
  rw [hlook] at hrun
  simp only at hrun
  obtain ⟨h1, h2, h3, h4, h5, h6, h7⟩ := hf d
  cases hsp : (if add_objects = true then
      spawn_sub_objects env W1.editor_ (xoffset - (f d).xbase) (yoffset - (f d).ybase)
        (f d).lvl_chars_ W1.registry W1.rand_calls (f d).objects
      else outcome.done (W1.registry, W1.rand_calls, (f d).objects)) with
  | assertion_failed => rw [hsp] at hrun; exact outcome.noConfusion hrun
  | out_of_fuel => rw [hsp] at hrun; exact outcome.noConfusion hrun
  | done st =>
    obtain ⟨registry, rand_calls, objects⟩ := st
    rw [hsp] at hrun
    simp only [outcome.done.injEq] at hrun
    rw [← hrun]
    obtain ⟨b1, b2, b3, _⟩ := build_solid_data_eq env T
      { W1 with registry := registry, rand_calls := rand_calls,
                sub_levels_ := modify_sub lvl (fun _ =>
                  { f d with xoffset := xoffset - (f d).xbase, yoffset := yoffset - (f d).ybase,
                             active := true, objects := objects,
                             lvl_solid_color_rects_ := (f d).lvl_solid_color_rects_.map (fun r =>
                               { r with area := { x := r.area.x + (xoffset - (f d).xoffset),
                                                  y := r.area.y + (yoffset - (f d).yoffset),
                                                  w := r.area.w, h := r.area.h } }) })
                  W1.sub_levels_ }
    refine ⟨{ f d with xoffset := xoffset - (f d).xbase, yoffset := yoffset - (f d).ybase,
                       active := true, objects := objects,
                       lvl_solid_color_rects_ := (f d).lvl_solid_color_rects_.map (fun r =>
                         { r with area := { x := r.area.x + (xoffset - (f d).xoffset),
                                            y := r.area.y + (yoffset - (f d).yoffset),
                                            w := r.area.w, h := r.area.h } }) },
      ?_, ?_, ?_, ?_, ?_, ?_, ?_, ?_, ?_, ?_, ?_⟩
    · rw [b3]
      dsimp only
      rw [hsubs, modify_sub_modify_sub_const]
    · exact h1
    · exact h2
    · exact h3
    · exact h4
    · show xoffset - (f d).xbase = _
      rw [h3]
    · show yoffset - (f d).ybase = _
      rw [h4]
    · rfl
    · show (f d).lvl_solid_color_rects_.map _ = _
      rw [h7, h5, h6]
    · rw [b1, b3]
    · rw [b2, b3]

end Anura

namespace Anura

open level

/-! ## C16: the order of two activations -/

theorem add_sub_level_registered (env : registry_env) (T : Int) (W W' : composed_level)
    (lvl : String) (xoffset yoffset : Int) (add_objects : Bool)
    (hrun : add_sub_level env T W lvl xoffset yoffset add_objects = .done W') :
    ∃ d, W.sub_levels_.lookup lvl = some d := by
  cases h : W.sub_levels_.lookup lvl with
  | some d => exact ⟨d, rfl⟩
  | none =>
    unfold add_sub_level at hrun
    rw [h] at hrun
    exact outcome.noConfusion hrun

/-- Without objects to add, the activation of a registered sub-level returns. -/
theorem add_sub_level_returns (env : registry_env) (T : Int) (W : composed_level)
    (lvl : String) (xoffset yoffset : Int) (d : sub_level_data)
    (hd : W.sub_levels_.lookup lvl = some d) :
    ∃ W', add_sub_level env T W lvl xoffset yoffset false = .done W' := by
  unfold add_sub_level
  rw [hd]
  simp only [Bool.false_eq_true, and_false, ↓reduceIte, hd]
  exact ⟨_, rfl⟩

/-- The merge of the active entries reads, of every entry, the flag `active`,
the offset and the map picked, and nothing else. -/
theorem merged_active_congr
    (merge : level_solid_map → level_solid_map → Int → Int → level_solid_map) (T : Int)
    (pick : sub_level_data → level_solid_map) (l1 l2 : List (String × sub_level_data))
    (h : List.Forall₂ (fun a b => a.2.active = b.2.active ∧ a.2.xoffset = b.2.xoffset
      ∧ a.2.yoffset = b.2.yoffset ∧ pick a.2 = pick b.2) l1 l2) :
    merged_active merge T pick l1 = merged_active merge T pick l2 := by
  unfold merged_active
  generalize level_solid_map.empty = acc
  induction h generalizing acc with
  | nil => rfl
  | @cons a b r1 r2 hab _ ih =>
    obtain ⟨h1, h2, h3, h4⟩ := hab
    rw [List.filter_cons, List.filter_cons, ← h1]
    by_cases ha : a.2.active = true
    · rw [if_pos ha, if_pos ha, List.foldl_cons, List.foldl_cons, h2, h3, h4]
      exact ih _
    · rw [if_neg ha, if_neg ha]
      exact ih _

/-- C16: for two different sub-levels A and B and any two activation
offsets, whenever the calls return, `add_sub_level(A, ...)` followed by
`add_sub_level(B, ...)` leaves the merged solid and standable maps of the
parent equal to the ones that `add_sub_level(B, ...)` followed by
`add_sub_level(A, ...)` leaves; in both cases each merged map is the merge,
over an empty map, of the maps of exactly the active sub-levels at their cell
offsets (so nothing of the previous merged map survives), A and B being
active. Without objects to add the calls return for all registered A and B. -/
theorem C16_activation_order_is_irrelevant (env : registry_env) (T : Int) (W : composed_level)
    (A B : String) (xa ya xb yb : Int) (fa fb : Bool) (hAB : A ≠ B) :
    (∀ W1 WAB W2 WBA,
      add_sub_level env T W A xa ya fa = .done W1 →
      add_sub_level env T W1 B xb yb fb = .done WAB →
      add_sub_level env T W B xb yb fb = .done W2 →
      add_sub_level env T W2 A xa ya fa = .done WBA →
      WAB.solid_ = WBA.solid_ ∧ WAB.standable_ = WBA.standable_
      ∧ WAB.solid_ = merged_active env.merge T (fun d => d.lvl_solid_) WAB.sub_levels_
      ∧ WAB.standable_ = merged_active env.merge T (fun d => d.lvl_standable_) WAB.sub_levels_
      ∧ WBA.solid_ = merged_active env.merge T (fun d => d.lvl_solid_) WBA.sub_levels_
      ∧ WBA.standable_ = merged_active env.merge T (fun d => d.lvl_standable_) WBA.sub_levels_
      ∧ (∀ d, WAB.sub_levels_.lookup A = some d ∨ WAB.sub_levels_.lookup B = some d →
          d.active = true))
    ∧ ((W.sub_levels_.lookup A).isSome = true → (W.sub_levels_.lookup B).isSome = true →
        ∃ W1 WAB W2 WBA,
          add_sub_level env T W A xa ya false = .done W1
          ∧ add_sub_level env T W1 B xb yb false = .done WAB
          ∧ add_sub_level env T W B xb yb false = .done W2
          ∧ add_sub_level env T W2 A xa ya false = .done WBA) := by
  constructor
  · intro W1 WAB W2 WBA h1 hab h2 hba
    obtain ⟨dA, hdA⟩ := add_sub_level_registered env T W W1 A xa ya fa h1
    obtain ⟨dB, hdB⟩ := add_sub_level_registered env T W W2 B xb yb fb h2
    obtain ⟨dA1, sA1, a1, a2, _, _, a5, a6, a7, _, _, _⟩ :=
      add_sub_level_done env T W W1 A xa ya fa dA hdA h1
    obtain ⟨dB2, sB2, b1, b2, _, _, b5, b6, b7, _, _, _⟩ :=
      add_sub_level_done env T W W2 B xb yb fb dB hdB h2
    have hB1 : W1.sub_levels_.lookup B = some dB := by
      rw [sA1, lookup_modify_sub, if_neg (fun h => hAB h.symm), hdB]
    have hA2 : W2.sub_levels_.lookup A = some dA := by
      rw [sB2, lookup_modify_sub, if_neg hAB, hdA]
    obtain ⟨dB1, sB1, c1, c2, _, _, c5, c6, c7, _, hsAB, htAB⟩ :=
      add_sub_level_done env T W1 WAB B xb yb fb dB hB1 hab
    obtain ⟨dA2, sA2, e1, e2, _, _, e5, e6, e7, _, hsBA, htBA⟩ :=
      add_sub_level_done env T W2 WBA A xa ya fa dA hA2 hba
    have hrel : ∀ (pick : sub_level_data → level_solid_map),
        pick dA1 = pick dA2 → pick dB1 = pick dB2 →
        List.Forall₂ (fun a b => a.2.active = b.2.active ∧ a.2.xoffset = b.2.xoffset
          ∧ a.2.yoffset = b.2.yoffset ∧ pick a.2 = pick b.2) WAB.sub_levels_ WBA.sub_levels_ := by
      intro pick hpA hpB
      rw [sB1, sA1, sA2, sB2]
      unfold modify_sub
      rw [List.map_map, List.map_map, List.forall₂_map_left_iff, List.forall₂_map_right_iff]
      apply List.forall₂_same.2
      intro kv _
      simp only [Function.comp]
      by_cases hA : kv.1 = A
      · have hB : ¬ kv.1 = B := fun h => hAB (hA.symm.trans h)
        have hB' : ¬ A = B := hAB
        simp only [hA, hB', ↓reduceIte, a7, e7, a5, e5, a6, e6, hpA, and_self]
      · by_cases hB : kv.1 = B
        · have hA' : ¬ B = A := fun h => hAB h.symm
          simp only [hB, hA', ↓reduceIte, c7, b7, c5, b5, c6, b6, hpB, and_self]
        · simp only [hA, hB, ↓reduceIte, and_self]
    refine ⟨?_, ?_, hsAB, htAB, hsBA, htBA, ?_⟩
    · rw [hsAB, hsBA]
      exact merged_active_congr _ _ _ _ _ (hrel (fun d => d.lvl_solid_)
        (by show dA1.lvl_solid_ = dA2.lvl_solid_; rw [a1, e1])
        (by show dB1.lvl_solid_ = dB2.lvl_solid_; rw [c1, b1]))
    · rw [htAB, htBA]
      exact merged_active_congr _ _ _ _ _ (hrel (fun d => d.lvl_standable_)
        (by show dA1.lvl_standable_ = dA2.lvl_standable_; rw [a2, e2])
        (by show dB1.lvl_standable_ = dB2.lvl_standable_; rw [c2, b2]))
    · intro d hd
      rw [sB1, sA1, lookup_modify_sub, lookup_modify_sub, if_neg hAB, if_pos rfl,
        lookup_modify_sub, lookup_modify_sub, if_pos rfl, if_neg (fun h => hAB h.symm),
        hdA, hdB] at hd
      rcases hd with hd | hd
      · rw [← Option.some.inj hd]
        exact a7
      · rw [← Option.some.inj hd]
        exact c7
  · intro hA hB
    obtain ⟨dA, hdA⟩ := Option.isSome_iff_exists.1 hA
    obtain ⟨dB, hdB⟩ := Option.isSome_iff_exists.1 hB
    obtain ⟨W1, h1⟩ := add_sub_level_returns env T W A xa ya dA hdA
    obtain ⟨W2, h2⟩ := add_sub_level_returns env T W B xb yb dB hdB
    obtain ⟨_, sA1, _⟩ := add_sub_level_done env T W W1 A xa ya false dA hdA h1
    obtain ⟨_, sB2, _⟩ := add_sub_level_done env T W W2 B xb yb false dB hdB h2
    have hB1 : W1.sub_levels_.lookup B = some dB := by
      rw [sA1, lookup_modify_sub, if_neg (fun h => hAB h.symm), hdB]
    have hA2 : W2.sub_levels_.lookup A = some dA := by
      rw [sB2, lookup_modify_sub, if_neg hAB, hdA]
    obtain ⟨WAB, hab⟩ := add_sub_level_returns env T W1 B xb yb dB hB1
    obtain ⟨WBA, hba⟩ := add_sub_level_returns env T W2 A xa ya dA hA2
    exact ⟨W1, WAB, W2, WBA, h1, hab, h2, hba⟩

/-- Witness of C16: the two sample sub-levels "0" and "1", activated with their
objects at (0, 0) and at (64, 0), in both orders. -/
theorem C16_activation_order_is_irrelevant_witness :
    ("0" : String) ≠ "1"
    ∧ ∃ W1 WAB W2 WBA,
        add_sub_level sample_registry_env 32 sample_composed "0" 0 0 true = .done W1
        ∧ add_sub_level sample_registry_env 32 W1 "1" 64 0 true = .done WAB
        ∧ add_sub_level sample_registry_env 32 sample_composed "1" 64 0 true = .done W2
        ∧ add_sub_level sample_registry_env 32 W2 "0" 0 0 true = .done WBA
        ∧ WAB.solid_ = WBA.solid_ ∧ WAB.standable_ = WBA.standable_ := by
  refine ⟨by decide, _, _, _, _, rfl, rfl, rfl, rfl, ?_⟩
  have h := (C16_activation_order_is_irrelevant sample_registry_env 32 sample_composed "0" "1"
    0 0 64 0 true true (by decide)).1 _ _ _ _ rfl rfl rfl rfl
  exact ⟨h.1, h.2.1⟩

/-! ## C20: the translation of the static geometry -/

/-- What the code does: a sub-level last activated at the absolute offset
(x1, y1), so that its stored offset is (x1 - xbase, y1 - ybase), and activated
again at (x2, y2), has its rectangles translated by
(x2 - x1 + xbase, y2 - y1 + ybase); widths and heights are kept. -/
theorem add_sub_level_translation (env : registry_env) (T : Int) (W W' : composed_level)
    (lvl : String) (x1 y1 x2 y2 : Int) (add_objects : Bool) (d : sub_level_data)
    (hd : W.sub_levels_.lookup lvl = some d)
    (hlast : d.xoffset = x1 - d.xbase ∧ d.yoffset = y1 - d.ybase)
    (hrun : add_sub_level env T W lvl x2 y2 add_objects = .done W') :
    ∃ d', W'.sub_levels_.lookup lvl = some d'
      ∧ d'.lvl_solid_color_rects_ = d.lvl_solid_color_rects_.map (fun r =>
          { r with area := { x := r.area.x + (x2 - x1 + d.xbase),
                             y := r.area.y + (y2 - y1 + d.ybase),
                             w := r.area.w, h := r.area.h } }) := by
  obtain ⟨d', hs, _, _, _, _, _, _, _, hr, _, _⟩ :=
    add_sub_level_done env T W W' lvl x2 y2 add_objects d hd hrun
  refine ⟨d', ?_, ?_⟩
  · rw [hs, lookup_modify_sub, if_pos rfl, hd]
    rfl
  · rw [hr, hlast.1, hlast.2]
    apply List.map_congr_left
    intro r _
    have ex : x2 - (x1 - d.xbase) = x2 - x1 + d.xbase := by ring
    have ey : y2 - (y1 - d.ybase) = y2 - y1 + d.ybase := by ring
    rw [ex, ey]

/-- C20 fails on the code for a sub-level with a base offset: the sample
sub-level "1", based at (64, 0), has one rectangle at x = 64. Activated at the
absolute offset (100, 0) its rectangle is at x = 164; activated again at the
same offset (100, 0) its rectangle moves to x = 228, a translation by the
base 64 instead of by 0. -/
theorem C20_same_offset_moves_rectangles :
    ∃ W1 W2 d1 d2,
      add_sub_level sample_registry_env 32 sample_composed "1" 100 0 false = .done W1
      ∧ add_sub_level sample_registry_env 32 W1 "1" 100 0 false = .done W2
      ∧ W1.sub_levels_.lookup "1" = some d1
      ∧ W2.sub_levels_.lookup "1" = some d2
      ∧ d1.xbase = 64
      ∧ (d1.xoffset + d1.xbase, d1.yoffset + d1.ybase) = (100, 0)
      ∧ (d2.xoffset + d2.xbase, d2.yoffset + d2.ybase) = (100, 0)
      ∧ d1.lvl_solid_color_rects_.map (fun r => r.area) = [{ x := 164, y := 0, w := 32, h := 32 }]
      ∧ d2.lvl_solid_color_rects_.map (fun r => r.area) = [{ x := 228, y := 0, w := 32, h := 32 }] := by
  refine ⟨_, _, _, _, rfl, rfl, rfl, rfl, by decide, by decide, by decide, by decide, by decide⟩

end Anura

namespace Anura

open level

/-! ## The contiguous solid region: the fill from the cell it starts at -/

theorem mem_set_insert (p q : tile_pos) (l : List tile_pos) :
    q ∈ set_insert p l ↔ q = p ∨ q ∈ l := by
  induction l with
  | nil => simp [set_insert]
  | cons a rest ih =>
    unfold set_insert
    by_cases h1 : p = a
    · subst h1
      simp
    · by_cases h2 : p.1 < a.1 ∨ (p.1 = a.1 ∧ p.2 < a.2)
      · simp [h1, h2]
      · simp only [h1, h2, if_false, List.mem_cons, ih]
        tauto

theorem length_set_insert (p : tile_pos) (l : List tile_pos) (h : p ∉ l) :
    (set_insert p l).length = l.length + 1 := by
  induction l with
  | nil => simp [set_insert]
  | cons a rest ih =>
    have h1 : p ≠ a := fun e => h (by simp [e])
    have h3 : p ∉ rest := fun e => h (by simp [e])
    unfold set_insert
    by_cases h2 : p.1 < a.1 ∨ (p.1 = a.1 ∧ p.2 < a.2)
    · simp [h1, h2]
    · simp [h1, h2, ih h3]

theorem nodup_set_insert (p : tile_pos) (l : List tile_pos) (h : p ∉ l) (hl : l.Nodup) :
    (set_insert p l).Nodup := by
  induction l with
  | nil => simp [set_insert]
  | cons a rest ih =>
    have h1 : p ≠ a := fun e => h (by simp [e])
    have h3 : p ∉ rest := fun e => h (by simp [e])
    have hl2 := List.nodup_cons.1 hl
    unfold set_insert
    by_cases h2 : p.1 < a.1 ∨ (p.1 = a.1 ∧ p.2 < a.2)
    · simp only [h1, h2, if_false, if_true]
      exact List.nodup_cons.2 ⟨h, hl⟩
    · simp only [h1, h2, if_false]
      refine List.nodup_cons.2 ⟨?_, ih h3 hl2.2⟩
      rw [mem_set_insert]
      rintro (e | e)
      · exact h1 e.symm
      · exact hl2.1 e

theorem mem_neighbour_positions (q : tile_pos) (ps : List tile_pos) :
    q ∈ neighbour_positions ps ↔
      ∃ a, a ∈ ps ∧ (q = (a.1 - 1, a.2) ∨ q = (a.1 + 1, a.2) ∨ q = (a.1, a.2 - 1)
        ∨ q = (a.1, a.2 + 1)) := by
  induction ps with
  | nil => simp [neighbour_positions]
  | cons a rest ih =>
    simp only [neighbour_positions, List.mem_cons, ih]
    constructor
    · rintro (h | h | h | h | ⟨b, hb, h⟩)
      · exact ⟨a, Or.inl rfl, Or.inl h⟩
      · exact ⟨a, Or.inl rfl, Or.inr (Or.inl h)⟩
      · exact ⟨a, Or.inl rfl, Or.inr (Or.inr (Or.inl h))⟩
      · exact ⟨a, Or.inl rfl, Or.inr (Or.inr (Or.inr h))⟩
      · exact ⟨b, Or.inr hb, h⟩
    · rintro ⟨b, hb | hb, h⟩
      · subst hb
        rcases h with h | h | h | h
        · exact Or.inl h
        · exact Or.inr (Or.inl h)
        · exact Or.inr (Or.inr (Or.inl h))
        · exact Or.inr (Or.inr (Or.inr (Or.inl h)))
      · exact Or.inr (Or.inr (Or.inr (Or.inr ⟨b, hb, h⟩)))

/-- The insertions of one pass: what the set holds afterwards, that it stays
free of duplicates, that it does not shrink, and that it keeps its size only
if every solid candidate was in it already. -/
theorem region_fold_spec (solid_ : level_solid_map) (nbs : List tile_pos) :
    ∀ ps0 : List tile_pos,
      (∀ q, q ∈ nbs.foldl (fun ps pos =>
              if pos ∈ ps then ps
              else if solid_there solid_ pos then set_insert pos ps
              else ps) ps0
            ↔ q ∈ ps0 ∨ (q ∈ nbs ∧ solid_there solid_ q = true))
      ∧ (ps0.Nodup → (nbs.foldl (fun ps pos =>
              if pos ∈ ps then ps
              else if solid_there solid_ pos then set_insert pos ps
              else ps) ps0).Nodup)
      ∧ ps0.length ≤ (nbs.foldl (fun ps pos =>
              if pos ∈ ps then ps
              else if solid_there solid_ pos then set_insert pos ps
              else ps) ps0).length
      ∧ ((nbs.foldl (fun ps pos =>
              if pos ∈ ps then ps
              else if solid_there solid_ pos then set_insert pos ps
              else ps) ps0).length = ps0.length →
          ∀ pos, pos ∈ nbs → solid_there solid_ pos = true → pos ∈ ps0) := by
  induction nbs with
  | nil =>
    intro ps0
    simp
  | cons p rest ih =>
    intro ps0
    simp only [List.foldl_cons]
    by_cases hin : p ∈ ps0
    · simp only [hin, if_true]
      obtain ⟨i1, i2, i3, i4⟩ := ih ps0
      refine ⟨?_, i2, i3, ?_⟩
      · intro q
        rw [i1 q]
        constructor
        · rintro (h | ⟨h, hs⟩)
          · exact Or.inl h
          · exact Or.inr ⟨List.mem_cons_of_mem _ h, hs⟩
        · rintro (h | ⟨h, hs⟩)
          · exact Or.inl h
          · rcases List.mem_cons.1 h with e | e
            · exact Or.inl (e ▸ hin)
            · exact Or.inr ⟨e, hs⟩
      · intro hlen pos hpos hs
        rcases List.mem_cons.1 hpos with e | e
        · exact e ▸ hin
        · exact i4 hlen pos e hs
    · by_cases hsol : solid_there solid_ p = true
      · simp only [hin, hsol, if_false, if_true]
        obtain ⟨i1, i2, i3, i4⟩ := ih (set_insert p ps0)
        have hlen1 := length_set_insert p ps0 hin
        refine ⟨?_, ?_, ?_, ?_⟩
        · intro q
          rw [i1 q, mem_set_insert]
          constructor
          · rintro ((h | h) | ⟨h, hs⟩)
            · exact Or.inr ⟨by simp [h], h ▸ hsol⟩
            · exact Or.inl h
            · exact Or.inr ⟨List.mem_cons_of_mem _ h, hs⟩
          · rintro (h | ⟨h, hs⟩)
            · exact Or.inl (Or.inr h)
            · rcases List.mem_cons.1 h with e | e
              · exact Or.inl (Or.inl e)
              · exact Or.inr ⟨e, hs⟩
        · intro hnd
          exact i2 (nodup_set_insert p ps0 hin hnd)
        · omega
        · intro hlen
          omega
      · simp only [hin, if_false]
        rw [if_neg hsol]
        obtain ⟨i1, i2, i3, i4⟩ := ih ps0
        refine ⟨?_, i2, i3, ?_⟩
        · intro q
          rw [i1 q]
          constructor
          · rintro (h | ⟨h, hs⟩)
            · exact Or.inl h
            · exact Or.inr ⟨List.mem_cons_of_mem _ h, hs⟩
          · rintro (h | ⟨h, hs⟩)
            · exact Or.inl h
            · rcases List.mem_cons.1 h with e | e
              · exact absurd (e ▸ hs) hsol
              · exact Or.inr ⟨e, hs⟩
        · intro hlen pos hpos hs
          rcases List.mem_cons.1 hpos with e | e
          · exact absurd (e ▸ hs) hsol
          · exact i4 hlen pos e hs

/-- One pass adds exactly the cells one step away from a position of the set. -/
theorem mem_region_pass (solid_ : level_solid_map) (ps : List tile_pos) (q : tile_pos) :
    q ∈ region_pass solid_ ps ↔ q ∈ ps ∨ ∃ a, a ∈ ps ∧ region_step solid_ a q := by
  unfold region_pass
  rw [(region_fold_spec solid_ (neighbour_positions ps) ps).1 q, mem_neighbour_positions]
  unfold region_step
  constructor
  · rintro (h | ⟨⟨a, ha, h⟩, hs⟩)
    · exact Or.inl h
    · exact Or.inr ⟨a, ha, h, hs⟩
  · rintro (h | ⟨a, ha, h, hs⟩)
    · exact Or.inl h
    · exact Or.inr ⟨⟨a, ha, h⟩, hs⟩

theorem region_reach_solid (solid_ : level_solid_map) (base c : tile_pos)
    (hbase : solid_there solid_ base = true)
    (h : Relation.ReflTransGen (region_step solid_) base c) :
    solid_there solid_ c = true := by
  induction h with
  | refl => exact hbase
  | tail _ hstep _ => exact hstep.2

/-- The loop of the fill ends within its budget once the budget exceeds the
number of solid cells not yet in the set, and it ends with exactly the cells
that a chain of steps reaches from the base. -/
theorem region_loop_spec (solid_ : level_solid_map) (support : Finset tile_pos)
    (hsupp : ∀ c, solid_there solid_ c = true → c ∈ support) (base : tile_pos)
    (hbase : solid_there solid_ base = true) :
    ∀ (fuel : Nat) (ps : List tile_pos), ps.Nodup → base ∈ ps →
      (∀ c, c ∈ ps → Relation.ReflTransGen (region_step solid_) base c) →
      support.card < fuel + ps.length →
      ∃ r, region_loop solid_ fuel ps = .done r ∧ r.Nodup
        ∧ ∀ c, c ∈ r ↔ Relation.ReflTransGen (region_step solid_) base c := by
  have bound : ∀ ps : List tile_pos, ps.Nodup →
      (∀ c, c ∈ ps → Relation.ReflTransGen (region_step solid_) base c) →
      ps.length ≤ support.card := by
    intro ps hnd hreach
    rw [← List.toFinset_card_of_nodup hnd]
    apply Finset.card_le_card
    intro c hc
    exact hsupp c (region_reach_solid solid_ base c hbase (hreach c (List.mem_toFinset.1 hc)))
  intro fuel
  induction fuel with
  | zero =>
    intro ps hnd _ hreach hfuel
    have := bound ps hnd hreach
    omega
  | succ fuel ih =>
    intro ps hnd hmem hreach hfuel
    have hspec := region_fold_spec solid_ (neighbour_positions ps) ps
    have hnd2 : (region_pass solid_ ps).Nodup := hspec.2.1 hnd
    have hle : ps.length ≤ (region_pass solid_ ps).length := hspec.2.2.1
    have hreach2 : ∀ c, c ∈ region_pass solid_ ps →
        Relation.ReflTransGen (region_step solid_) base c := by
      intro c hc
      rcases (mem_region_pass solid_ ps c).1 hc with h | ⟨a, ha, hstep⟩
      · exact hreach c h
      · exact Relation.ReflTransGen.tail (hreach a ha) hstep
    have hmem2 : base ∈ region_pass solid_ ps := (mem_region_pass solid_ ps base).2 (Or.inl hmem)
    unfold region_loop
    by_cases hlen : (region_pass solid_ ps).length = ps.length
    · simp only [hlen, if_true]
      refine ⟨_, rfl, hnd2, ?_⟩
      intro c
      constructor
      · exact hreach2 c
      · intro hc
        have hclosed : ∀ a, a ∈ ps → ∀ b, region_step solid_ a b → b ∈ ps := by
          intro a ha b hstep
          exact hspec.2.2.2 hlen b ((mem_neighbour_positions b ps).2 ⟨a, ha, hstep.1⟩) hstep.2
        have : c ∈ ps := by
          induction hc with
          | refl => exact hmem
          | tail _ hstep ih2 => exact hclosed _ ih2 _ hstep
        exact (mem_region_pass solid_ ps c).2 (Or.inl this)
    · simp only [hlen, if_false]
      exact ih (region_pass solid_ ps) hnd2 hmem2 hreach2 (by omega)

/-- From the cell it starts at, the fill returns: with a budget of as many
passes as there are solid cells, it ends with the cells that a chain of steps
through non-trivially solid neighbours reaches from that cell, each one once. -/
theorem region_from_base_is_reachable_set (T : Int) (fuel : Nat) (solid_ : level_solid_map)
    (xpos ypos : Int) (support : Finset tile_pos)
    (hsupp : ∀ c, solid_there solid_ c = true → c ∈ support)
    (hfuel : support.card ≤ fuel)
    (hseed : solid_there solid_ (region_base T xpos ypos) = true) :
    ∃ r, get_solid_contiguous_region T fuel solid_ xpos ypos = .done r ∧ r.Nodup
      ∧ ∀ c, c ∈ r ↔
          Relation.ReflTransGen (region_step solid_) (region_base T xpos ypos) c := by
  unfold get_solid_contiguous_region
  simp only [hseed, if_true]
  exact region_loop_spec solid_ support hsupp _ hseed fuel [region_base T xpos ypos]
    (List.nodup_singleton _) (List.mem_singleton.2 rfl)
    (fun c hc => by rw [List.mem_singleton.1 hc]) (by simp; omega)

/-- Without a non-trivially solid record at the cell it starts at, the fill
returns nothing. -/
theorem region_of_empty_base (T : Int) (fuel : Nat) (solid_ : level_solid_map)
    (xpos ypos : Int) (hseed : solid_there solid_ (region_base T xpos ypos) = false) :
    get_solid_contiguous_region T fuel solid_ xpos ypos = .done [] := by
  unfold get_solid_contiguous_region
  simp [hseed]

end Anura

namespace Anura

open level

/-- Off the negative multiples of the tile size, `round_tile_size` followed by
the division of the source yields the floor cell of the coordinate. -/
theorem round_tile_size_cell (T x : Int) (hT : 0 < T) (h : 0 ≤ x ∨ ¬ T ∣ x) :
    (round_tile_size T x).tdiv T = x / T := by
  unfold round_tile_size
  by_cases hx : x ≥ 0
  · simp only [hx, if_true]
    rw [Int.tmod_eq_emod hx hT.le, Int.emod_def, sub_sub_cancel,
      Int.mul_tdiv_cancel_left _ hT.ne']
  · simp only [hx, if_false]
    have hnd : ¬ T ∣ x := by
      rcases h with h | h
      · exact absurd h hx
      · exact h
    have hm : 0 ≤ -x + T := by omega
    rw [Int.tmod_eq_emod hm hT.le, Int.emod_def, sub_sub_cancel, ← mul_neg,
      Int.mul_tdiv_cancel_left _ hT.ne']
    have hr0 : 0 ≤ x % T := Int.emod_nonneg x hT.ne'
    have hr1 : x % T < T := Int.emod_lt_of_pos x hT
    have hr2 : x % T ≠ 0 := fun e => hnd (Int.dvd_of_emod_eq_zero e)
    have hx2 : T * (x / T) + x % T = x := Int.ediv_add_emod x T
    have key : (-x + T) / T = -(x / T) := by
      have e : -x + T = (T - x % T) + T * (-(x / T)) := by
        rw [mul_neg]
        omega
      rw [e, Int.add_mul_ediv_left _ _ hT.ne', Int.ediv_eq_zero_of_lt (by omega) (by omega)]
      simp
    rw [key, neg_neg]

end Anura

namespace Anura

open level

/-! ## C17: the contiguous solid region -/

/-- C17 fails on the code for a seed pixel on a negative multiple of TileSize,
which `round_tile_size` moves one cell too far: in the sample index, where the
cells (-1, 0), (0, 0) and (1, 0) are solid, the seed pixel (-32, 0) is solid and
lies in cell (-1, 0), but the fill starts at cell (-2, 0), which has no record,
and returns nothing; from the seed pixel (-31, 0), in the same cell, it returns
the three cells. -/
theorem C17_region_of_negative_tile_boundary_is_empty :
    (solid 32 sample_platform (-32) 0).isSome = true
    ∧ solid_there sample_platform ((-32 : Int) / 32, (0 : Int) / 32) = true
    ∧ region_base 32 (-32) 0 = (-2, 0)
    ∧ get_solid_contiguous_region 32 5 sample_platform (-32) 0 = .done []
    ∧ get_solid_contiguous_region 32 5 sample_platform (-31) 0 = .done [(-1, 0), (0, 0), (1, 0)] := by
  decide

end Anura

namespace Anura

open level

/-! ## C27: `round_tile_size` -/

/-- Off the negative multiples of the tile size, `round_tile_size` rounds down
to the tile grid. -/
theorem round_tile_size_floor (T n : Int) (hT : 0 < T) (h : 0 ≤ n ∨ ¬ T ∣ n) :
    round_tile_size T n = T * (n / T) := by
  unfold round_tile_size
  by_cases hx : n ≥ 0
  · simp only [hx, if_true]
    rw [Int.tmod_eq_emod hx hT.le, Int.emod_def, sub_sub_cancel]
  · simp only [hx, if_false]
    have hnd : ¬ T ∣ n := by
      rcases h with h | h
      · exact absurd h hx
      · exact h
    have hm : 0 ≤ -n + T := by omega
    rw [Int.tmod_eq_emod hm hT.le, Int.emod_def, sub_sub_cancel]
    have hr0 : 0 ≤ n % T := Int.emod_nonneg n hT.ne'
    have hr1 : n % T < T := Int.emod_lt_of_pos n hT
    have hr2 : n % T ≠ 0 := fun e => hnd (Int.dvd_of_emod_eq_zero e)
    have hx2 : T * (n / T) + n % T = n := Int.ediv_add_emod n T
    have key : (-n + T) / T = -(n / T) := by
      have e : -n + T = (T - n % T) + T * (-(n / T)) := by
        rw [mul_neg]
        omega
      rw [e, Int.add_mul_ediv_left _ _ hT.ne', Int.ediv_eq_zero_of_lt (by omega) (by omega)]
      simp
    rw [key, mul_neg, neg_neg]

/-- On a negative multiple of the tile size, `round_tile_size` returns the
multiple one tile below. -/
theorem round_tile_size_negative_multiple (T k : Int) (hT : 0 < T) (hk : 0 < k) :
    round_tile_size T (-(k * T)) = -(k * T) - T := by
  unfold round_tile_size
  have hneg : ¬ (-(k * T) ≥ 0) := by
    have : 0 < k * T := Int.mul_pos hk hT
    omega
  simp only [hneg, if_false, neg_neg]
  have hm : 0 ≤ k * T + T := by
    have : 0 < k * T := Int.mul_pos hk hT
    omega
  have hmod : (k * T + T).tmod T = 0 := by
    rw [Int.tmod_eq_emod hm hT.le]
    have : k * T + T = (k + 1) * T := by ring
    rw [this, Int.mul_emod_left]
  rw [hmod]
  omega

/-- C27 fails on the code for the negative multiples of TileSize: with
TileSize = 32, `round_tile_size(-32)` is -64 and not 32 * floor(-32 / 32) =
-32 (and `round_tile_size(-64)` is -96), so `get_solid_contiguous_region(-32, 0)`
seeds its fill at cell (-2, 0) while `solid(-32, 0)` consults cell (-1, 0);
for -31 and for 0 the rounding is the floor. -/
theorem C27_round_tile_size_off_by_one_tile :
    round_tile_size 32 (-32) = -64
    ∧ (32 : Int) * ((-32 : Int) / 32) = -32
    ∧ round_tile_size 32 (-64) = -96
    ∧ region_base 32 (-32) 0 = (-2, 0)
    ∧ ((cell_and_offset 32 (-32)).1, (cell_and_offset 32 0).1) = ((-1 : Int), (0 : Int))
    ∧ round_tile_size 32 (-31) = -32
    ∧ round_tile_size 32 0 = 0 := by
  decide

/-! ## C30: the replay of a paused level -/

/-- One step of a paused level leaves the counter where it is, when the entity
code leaves the engine alone. -/
theorem do_processing_cycle_paused (env : collaborators) (henv : entity_code_keeps_engine env)
    (L : level) (h : L.paused_ = true) : (do_processing env L).cycle_ = L.cycle_ := by
  rw [(do_processing_engine env henv L).2.2, h]
  rfl

/-- On a paused level `backup(); do_processing();` leaves the counter where it
is. -/
theorem replay_step_cycle_paused (env : collaborators) (henv : entity_code_keeps_engine env)
    (L : level) (h : L.paused_ = true) : (replay_step env L).cycle_ = L.cycle_ := by
  unfold replay_step
  rw [do_processing_cycle_paused env henv _ (by rw [backup_paused]; exact h), backup_cycle]

/-- On a paused level whose entity code leaves the engine alone the loop of
`replay_from_cycle` never ends: whatever the budget of iterations, it is used
up. -/
theorem replay_loop_paused (env : collaborators) (henv : entity_code_keeps_engine env)
    (target : Int) :
    ∀ (fuel : Nat) (S : level), S.paused_ = true → S.cycle_ < target →
      replay_loop env target fuel S = .out_of_fuel := by
  intro fuel
  induction fuel with
  | zero =>
    intro S _ hlt
    simp [replay_loop, hlt]
  | succ f ih =>
    intro S hp hlt
    unfold replay_loop
    simp only [hlt, if_true]
    exact ih (replay_step env S) (by rw [replay_step_paused env henv]; exact hp)
      (by rw [replay_step_cycle_paused env henv S hp]; exact hlt)

/-- C30 fails on the code for a paused level: on the sample level, paused at
cycle 11 with the cycles 0 to 10 retained, the loop of `replay_from_cycle(8)`
does not end within any number of iterations, and after any number of
iterations the counter is still at 8; on the same level not paused the call
returns after 3 iterations. -/
theorem C30_replay_of_paused_level_never_ends :
    sample_paused.backups_.map (fun s => s.cycle) = [0, 1, 2, 3, 4, 5, 6, 7, 8, 9, 10]
    ∧ (∀ fuel : Nat, replay_from_cycle sample_env fuel sample_paused 8 = .out_of_fuel)
    ∧ (∀ k : Nat, ((replay_step sample_env)^[k]
          { restore_from_backup sample_env sample_paused
              (take_snapshot sample_env (sample_level 8 [sample_entity 1 "a" 8 0])) with
            backups_ := sample_paused.backups_.take 8 }).cycle_ = 8)
    ∧ (∃ L', replay_from_cycle sample_env 3 sample_unpaused 8 = .done L' ∧ L'.cycle_ = 11) := by
  refine ⟨by decide, ?_, ?_, _, rfl, by decide⟩
  · intro fuel
    have hget : sample_paused.backups_.get? 8
        = some (take_snapshot sample_env (sample_level 8 [sample_entity 1 "a" 8 0])) := by
      decide
    unfold replay_from_cycle
    have h1 : ¬ (sample_paused.cycle_ - 8 ≤ 0) := by decide
    have h2 : ¬ ((sample_paused.backups_.length : Int) - (sample_paused.cycle_ - 8) < 0) := by
      decide
    have h3 : ((sample_paused.backups_.length : Int) - (sample_paused.cycle_ - 8)).toNat = 8 := by
      decide
    simp only [h1, h2, if_false, h3, hget]
    rw [if_neg (by decide)]
    exact replay_loop_paused sample_env sample_env_keeps_engine _ fuel _ rfl (by decide)
  · intro k
    induction k with
    | zero => rfl
    | succ k ih =>
      rw [Function.iterate_succ_apply',
        replay_step_cycle_paused sample_env sample_env_keeps_engine, ih]
      have hp : ∀ j : Nat, ((replay_step sample_env)^[j]
          { restore_from_backup sample_env sample_paused
              (take_snapshot sample_env (sample_level 8 [sample_entity 1 "a" 8 0])) with
            backups_ := sample_paused.backups_.take 8 }).paused_ = true := by
        intro j
        induction j with
        | zero => rfl
        | succ j ihj =>
          rw [Function.iterate_succ_apply', replay_step_paused sample_env sample_env_keeps_engine,
            ihj]
      exact hp k

end Anura

namespace Anura

open level

/-! ## C26: the pre-filter of the rectangle query -/

theorem mem_loop_range (lo hi v : Int) : v ∈ loop_range lo hi ↔ lo ≤ v ∧ v < hi := by
  unfold loop_range
  simp only [List.mem_map, List.mem_range]
  constructor
  · rintro ⟨k, hk, rfl⟩
    omega
  · rintro ⟨h1, h2⟩
    exact ⟨(v - lo).toNat, by omega, by omega⟩

/-- The number of cells that `may_be_solid_in_rect` visits along one axis: for
a non-negative length it is the length rounded up to whole cells. -/
theorem cells_along_axis {T : Int} (hT : 0 < T) (n : Int) (hn : 0 ≤ n) (c : Int) :
    c < n.tdiv T + (if n.tmod T ≠ 0 then 1 else 0) ↔ c * T < n := by
  rw [Int.tmod_eq_emod hn hT.le, Int.tdiv_eq_ediv hn hT.le]
  have h1 : T * (n / T) + n % T = n := Int.ediv_add_emod n T
  have h2 : 0 ≤ n % T := Int.emod_nonneg n hT.ne'
  have h3 : n % T < T := Int.emod_lt_of_pos n hT
  by_cases h0 : n % T = 0
  · simp only [h0, ne_eq, not_true_eq_false, if_false, add_zero]
    constructor
    · intro h
      have h4 : c + 1 ≤ n / T := by omega
      have h5 : (c + 1) * T ≤ (n / T) * T := mul_le_mul_of_nonneg_right h4 hT.le
      nlinarith
    · intro h
      by_contra hc
      have h4 : n / T ≤ c := by omega
      have h5 : (n / T) * T ≤ c * T := mul_le_mul_of_nonneg_right h4 hT.le
      nlinarith
  · simp only [h0, ne_eq, not_false_eq_true, if_true]
    have h6 : 0 < n % T := by omega
    constructor
    · intro h
      have h4 : c ≤ n / T := by omega
      have h5 : c * T ≤ (n / T) * T := mul_le_mul_of_nonneg_right h4 hT.le
      nlinarith
    · intro h
      by_contra hc
      have h4 : n / T + 1 ≤ c := by omega
      have h5 : (n / T + 1) * T ≤ c * T := mul_le_mul_of_nonneg_right h4 hT.le
      nlinarith

/-- The cells that `may_be_solid_in_rect` visits are the cells that hold a
pixel of the rectangle. -/
theorem may_be_solid_in_rect_iff {T : Int} (hT : 0 < T) (solid_ : level_solid_map) (r : rect)
    (hw : 0 ≤ r.w) (hh : 0 ≤ r.h) :
    may_be_solid_in_rect T solid_ r = true ↔
      ∃ cx cy : Int, (solid_ (cx, cy)).isSome = true
        ∧ r.x / T ≤ cx ∧ cx * T < r.x + r.w ∧ r.y / T ≤ cy ∧ cy * T < r.y + r.h := by
  unfold may_be_solid_in_rect
  simp only [cell_and_offset_eq hT, List.any_eq_true, mem_loop_range, level_solid_map.find]
  have hx0 : 0 ≤ r.x % T := Int.emod_nonneg _ hT.ne'
  have hy0 : 0 ≤ r.y % T := Int.emod_nonneg _ hT.ne'
  have hx1 : T * (r.x / T) + r.x % T = r.x := Int.ediv_add_emod _ _
  have hy1 : T * (r.y / T) + r.y % T = r.y := Int.ediv_add_emod _ _
  constructor
  · rintro ⟨ypos, ⟨hy0', hy⟩, xpos, ⟨hx0', hx⟩, hs⟩
    rw [cells_along_axis hT _ (by omega)] at hx hy
    refine ⟨r.x / T + xpos, r.y / T + ypos, hs, by omega, ?_, by omega, ?_⟩
    · nlinarith
    · nlinarith
  · rintro ⟨cx, cy, hs, h1, h2, h3, h4⟩
    refine ⟨cy - r.y / T, ⟨by omega, ?_⟩, cx - r.x / T, ⟨by omega, ?_⟩, ?_⟩
    · rw [cells_along_axis hT _ (by omega)]
      nlinarith
    · rw [cells_along_axis hT _ (by omega)]
      nlinarith
    · have e1 : r.x / T + (cx - r.x / T) = cx := by ring
      have e2 : r.y / T + (cy - r.y / T) = cy := by ring
      rw [e1, e2]
      exact hs

/-- A solid pixel lies in a cell that has a record. -/
theorem solid_has_record {T : Int} (hT : 0 < T) (solid_ : level_solid_map) (x y : Int)
    (h : (solid T solid_ x y).isSome = true) : (solid_ (x / T, y / T)).isSome = true := by
  unfold solid at h
  rw [is_solid_eq hT] at h
  cases hrec : solid_ (x / T, y / T) with
  | none => rw [hrec] at h; simp at h
  | some s => rfl

/-- The rectangle query returns true exactly when a pixel of the rectangle is
solid. -/
theorem solid_of_rect_isSome (T : Int) (solid_ : level_solid_map) (r : rect) :
    (solid_of_rect T solid_ r).isSome = true ↔
      ∃ x y : Int, r.x ≤ x ∧ x < r.x + r.w ∧ r.y ≤ y ∧ y < r.y + r.h
        ∧ (solid T solid_ x y).isSome = true := by
  unfold solid_of_rect rect.x2 rect.y2
  simp only [List.findSome?_isSome_iff, mem_loop_range]
  constructor
  · rintro ⟨y, ⟨hy1, hy2⟩, x, ⟨hx1, hx2⟩, hs⟩
    exact ⟨x, y, hx1, hx2, hy1, hy2, hs⟩
  · rintro ⟨x, y, hx1, hx2, hy1, hy2, hs⟩
    exact ⟨y, ⟨hy1, hy2⟩, x, ⟨hx1, hx2⟩, hs⟩

/-- C26: for every solid index and every rectangle r with non-negative width
and height (its origin may be negative), if `solid(r)` returns true then
`may_be_solid_in_rect(r)` returns true; and if `may_be_solid_in_rect(r)`
returns false then no pixel of r is solid. -/
theorem C26_may_be_solid_in_rect_is_sound (T : Int) (hT : 0 < T) (solid_ : level_solid_map)
    (r : rect) (hw : 0 ≤ r.w) (hh : 0 ≤ r.h) :
    ((solid_of_rect T solid_ r).isSome = true → may_be_solid_in_rect T solid_ r = true)
    ∧ (may_be_solid_in_rect T solid_ r = false →
        ∀ x y : Int, r.x ≤ x → x < r.x + r.w → r.y ≤ y → y < r.y + r.h →
          solid T solid_ x y = none) := by
  have key : ∀ x y : Int, r.x ≤ x → x < r.x + r.w → r.y ≤ y → y < r.y + r.h →
      (solid T solid_ x y).isSome = true → may_be_solid_in_rect T solid_ r = true := by
    intro x y hx1 hx2 hy1 hy2 hs
    rw [may_be_solid_in_rect_iff hT solid_ r hw hh]
    have hxm : T * (x / T) + x % T = x := Int.ediv_add_emod _ _
    have hym : T * (y / T) + y % T = y := Int.ediv_add_emod _ _
    have hx0 : 0 ≤ x % T := Int.emod_nonneg _ hT.ne'
    have hy0 : 0 ≤ y % T := Int.emod_nonneg _ hT.ne'
    refine ⟨x / T, y / T, solid_has_record hT solid_ x y hs,
      Int.ediv_le_ediv hT hx1, by nlinarith, Int.ediv_le_ediv hT hy1, by nlinarith⟩
  constructor
  · intro h
    obtain ⟨x, y, hx1, hx2, hy1, hy2, hs⟩ := (solid_of_rect_isSome T solid_ r).1 h
    exact key x y hx1 hx2 hy1 hy2 hs
  · intro hfalse x y hx1 hx2 hy1 hy2
    by_contra hne
    have hs : (solid T solid_ x y).isSome = true := by
      cases hv : solid T solid_ x y with
      | none => exact absurd hv hne
      | some v => rfl
    have := key x y hx1 hx2 hy1 hy2 hs
    rw [hfalse] at this
    exact Bool.noConfusion this

/-- Witness of C26: in the sample index the rectangle (-8, -8, 48, 16) holds
the solid pixel (32, 0), and the pre-filter answers true. -/
theorem C26_may_be_solid_in_rect_is_sound_witness :
    (solid_of_rect 32 sample_bits { x := -8, y := -8, w := 48, h := 16 }).isSome = true
    ∧ may_be_solid_in_rect 32 sample_bits { x := -8, y := -8, w := 48, h := 16 } = true :=
  ⟨by decide,
   (C26_may_be_solid_in_rect_is_sound 32 (by decide) sample_bits
      { x := -8, y := -8, w := 48, h := 16 } (by decide) (by decide)).1 (by decide)⟩

end Anura

namespace Anura

open level

/-! ## C25: the multi-point query -/

/-- A coordinate that stays inside the cell after a step keeps its cell, and
its offset moves by the step. -/
theorem step_inside_cell {T : Int} (hT : 0 < T) (a d : Int)
    (h0 : 0 ≤ a % T + d) (h1 : a % T + d < T) :
    (a + d) / T = a / T ∧ (a + d) % T = a % T + d := by
  have e : a + d = (a % T + d) + T * (a / T) := by
    have := Int.ediv_add_emod a T
    omega
  constructor
  · rw [e, Int.add_mul_ediv_left _ _ hT.ne', Int.ediv_eq_zero_of_lt h0 h1, zero_add]
  · rw [e, Int.add_mul_emod_self_left, Int.emod_eq_of_lt h0 h1]

/-- The loop of the multi-point query, started with no previous point or with
the cell offsets and the record of the previous point, answers as the
single-pixel query does on the first solid point. -/
theorem is_solid_points_loop_eq {T : Int} (hT : 0 < T) (map : level_solid_map) (ex ey : Int)
    (face_right : Bool) (width : Int) :
    ∀ (rest : List point) (q : point) (prev_x prev_y : Int) (info : Option tile_solid_info),
      (prev_x = INT_MIN ∨
        (prev_x = (absolute_pixel ex ey face_right width q).1 % T
          ∧ prev_y = (absolute_pixel ex ey face_right width q).2 % T
          ∧ info = map ((absolute_pixel ex ey face_right width q).1 / T,
                        (absolute_pixel ex ey face_right width q).2 / T))) →
      is_solid_points_loop T map ex ey face_right width q prev_x prev_y info rest
        = rest.findSome? (fun p =>
            is_solid T map (absolute_pixel ex ey face_right width p).1
              (absolute_pixel ex ey face_right width p).2) := by
  intro rest
  induction rest with
  | nil =>
    intro q prev_x prev_y info _
    rfl
  | cons p rest ih =>
    intro q prev_x prev_y info hinv
    -- the state after the two `if` blocks is the one of a fresh computation
    have hloc :
        (if (if prev_x ≠ INT_MIN then
              (if prev_x + (p.x - q.x) * (if face_right then 1 else -1) < 0
                  ∨ prev_y + (p.y - q.y) < 0
                  ∨ prev_x + (p.x - q.x) * (if face_right then 1 else -1) ≥ T
                  ∨ prev_y + (p.y - q.y) ≥ T
               then (prev_x + (p.x - q.x) * (if face_right then 1 else -1),
                     prev_y + (p.y - q.y), INT_MIN)
               else (prev_x + (p.x - q.x) * (if face_right then 1 else -1),
                     prev_y + (p.y - q.y), prev_x))
            else (prev_x, prev_y, prev_x)).2.2 = INT_MIN
         then
          ((cell_and_offset T (ex + (if face_right then p.x else width - 1 - p.x))).2,
           (cell_and_offset T (ey + p.y)).2,
           map.find ((cell_and_offset T (ex + (if face_right then p.x else width - 1 - p.x))).1,
                     (cell_and_offset T (ey + p.y)).1))
         else
          ((if prev_x ≠ INT_MIN then
              (if prev_x + (p.x - q.x) * (if face_right then 1 else -1) < 0
                  ∨ prev_y + (p.y - q.y) < 0
                  ∨ prev_x + (p.x - q.x) * (if face_right then 1 else -1) ≥ T
                  ∨ prev_y + (p.y - q.y) ≥ T
               then (prev_x + (p.x - q.x) * (if face_right then 1 else -1),
                     prev_y + (p.y - q.y), INT_MIN)
               else (prev_x + (p.x - q.x) * (if face_right then 1 else -1),
                     prev_y + (p.y - q.y), prev_x))
            else (prev_x, prev_y, prev_x)).1,
           (if prev_x ≠ INT_MIN then
              (if prev_x + (p.x - q.x) * (if face_right then 1 else -1) < 0
                  ∨ prev_y + (p.y - q.y) < 0
                  ∨ prev_x + (p.x - q.x) * (if face_right then 1 else -1) ≥ T
                  ∨ prev_y + (p.y - q.y) ≥ T
               then (prev_x + (p.x - q.x) * (if face_right then 1 else -1),
                     prev_y + (p.y - q.y), INT_MIN)
               else (prev_x + (p.x - q.x) * (if face_right then 1 else -1),
                     prev_y + (p.y - q.y), prev_x))
            else (prev_x, prev_y, prev_x)).2.1,
           info))
        = ((absolute_pixel ex ey face_right width p).1 % T,
           (absolute_pixel ex ey face_right width p).2 % T,
           map ((absolute_pixel ex ey face_right width p).1 / T,
                (absolute_pixel ex ey face_right width p).2 / T)) := by
      have fresh :
          ((cell_and_offset T (ex + (if face_right then p.x else width - 1 - p.x))).2,
           (cell_and_offset T (ey + p.y)).2,
           map.find ((cell_and_offset T (ex + (if face_right then p.x else width - 1 - p.x))).1,
                     (cell_and_offset T (ey + p.y)).1))
          = ((absolute_pixel ex ey face_right width p).1 % T,
             (absolute_pixel ex ey face_right width p).2 % T,
             map ((absolute_pixel ex ey face_right width p).1 / T,
                  (absolute_pixel ex ey face_right width p).2 / T)) := by
        simp only [cell_and_offset_eq hT, absolute_pixel, level_solid_map.find]
      by_cases hprev : prev_x = INT_MIN
      · simp only [hprev, ne_eq, not_true_eq_false, if_false, if_true]
        exact fresh
      · rcases hinv with hinv | ⟨hx, hy, hi⟩
        · exact absurd hinv hprev
        · simp only [ne_eq, hprev, not_false_eq_true, if_true]
          by_cases hout : prev_x + (p.x - q.x) * (if face_right then 1 else -1) < 0
                  ∨ prev_y + (p.y - q.y) < 0
                  ∨ prev_x + (p.x - q.x) * (if face_right then 1 else -1) ≥ T
                  ∨ prev_y + (p.y - q.y) ≥ T
          · simp only [hout, if_true]
            exact fresh
          · simp only [hout, if_false, hprev]
            have hdx : (absolute_pixel ex ey face_right width p).1
                = (absolute_pixel ex ey face_right width q).1
                  + (p.x - q.x) * (if face_right then 1 else -1) := by
              unfold absolute_pixel
              cases face_right with
              | false => simp; ring
              | true => simp
            have hdy : (absolute_pixel ex ey face_right width p).2
                = (absolute_pixel ex ey face_right width q).2 + (p.y - q.y) := by
              unfold absolute_pixel
              simp only
              ring
            have hsx := step_inside_cell hT (absolute_pixel ex ey face_right width q).1
              ((p.x - q.x) * (if face_right then 1 else -1)) (by rw [← hx]; omega)
              (by rw [← hx]; omega)
            have hsy := step_inside_cell hT (absolute_pixel ex ey face_right width q).2
              (p.y - q.y) (by rw [← hy]; omega) (by rw [← hy]; omega)
            rw [hdx, hdy, hsx.1, hsx.2, hsy.1, hsy.2, ← hx, ← hy, ← hi]
    rw [List.findSome?_cons, is_solid_eq hT]
    unfold is_solid_points_loop
    simp only
    rw [hloc]
    simp only
    cases hrec : map ((absolute_pixel ex ey face_right width p).1 / T,
        (absolute_pixel ex ey face_right width p).2 / T) with
    | none =>
      simp only
      exact ih p _ _ none (Or.inr ⟨rfl, rfl, hrec.symm⟩)
    | some s =>
      simp only
      by_cases hall : s.all_solid = true
      · simp [hall]
      · simp only [hall, Bool.false_eq_true, if_false]
        by_cases hbit : (absolute_pixel ex ey face_right width p).2 % T * T
            + (absolute_pixel ex ey face_right width p).1 % T ∈ s.bitmap
        · simp [hbit]
        · simp only [hbit, if_false]
          exact ih p _ _ (some s) (Or.inr ⟨rfl, rfl, hrec.symm⟩)

/-- C25: the multi-point query agrees with the single-pixel query: for every
solidity map, entity (position, facing, frame width) and list of points,
`is_solid(map, entity, points)` returns what the single-pixel query
`is_solid(map, x, y)` returns on the first point p of the list whose absolute
pixel (e.x + (face_right ? p.x : width - 1 - p.x), e.y + p.y) is solid, with
the surface info of that pixel, and false when no point is solid. -/
theorem C25_multi_point_query_agrees (T : Int) (hT : 0 < T) (map : level_solid_map)
    (ex ey : Int) (face_right : Bool) (width : Int) (points : List point) :
    is_solid_points T map ex ey face_right width points
      = points.findSome? (fun p =>
          is_solid T map (ex + (if face_right then p.x else width - 1 - p.x)) (ey + p.y))
    ∧ ((is_solid_points T map ex ey face_right width points).isSome = true ↔
        ∃ p ∈ points,
          (is_solid T map (ex + (if face_right then p.x else width - 1 - p.x))
            (ey + p.y)).isSome = true) := by
  have h : is_solid_points T map ex ey face_right width points
      = points.findSome? (fun p =>
          is_solid T map (ex + (if face_right then p.x else width - 1 - p.x)) (ey + p.y)) := by
    unfold is_solid_points
    rw [is_solid_points_loop_eq hT map ex ey face_right width points _ _ _ _ (Or.inl rfl)]
    rfl
  refine ⟨h, ?_⟩
  rw [h, List.findSome?_isSome_iff]

/-- Witness of C25: an entity at (20, 0) of width 16 facing left, with the
points (0, 5), (4, 5) and (8, 5): the absolute pixels are (35, 5), (31, 5) and
(27, 5); the first one lies in the uniformly solid cell (1, 0). -/
theorem C25_multi_point_query_agrees_witness :
    (0 : Int) < 32
    ∧ is_solid_points 32 sample_bits 20 0 false 16
        [{ x := 0, y := 5 }, { x := 4, y := 5 }, { x := 8, y := 5 }]
      = is_solid 32 sample_bits 35 5
    ∧ (is_solid_points 32 sample_bits 20 0 false 16
        [{ x := 12, y := 5 }, { x := 4, y := 5 }, { x := 8, y := 5 }]).map (fun s => s.info)
      = some (some "ice") := by
  refine ⟨by decide, ?_, by decide⟩
  rw [(C25_multi_point_query_agrees 32 (by decide) sample_bits 20 0 false 16
    [{ x := 0, y := 5 }, { x := 4, y := 5 }, { x := 8, y := 5 }]).1]
  decide

end Anura

namespace Anura

open level

/-! ## C24: the portal query -/

/-- C24 (as amended): on a level state in which no forced portal is pending,
`get_portal` is a pure query: the call changes no field of the level, and a
second call right after it returns the same portal (or both return none). On
every level state the only field the call can change is
`entered_portal_active_`, which it clears, so that every call after the first
one is pure. -/
theorem C24_get_portal_pure_without_forced_portal (env : portal_env) (L : portal_level)
    (hidle : L.entered_portal_active_ = false) :
    (get_portal env L).2 = L
    ∧ (get_portal env (get_portal env L).2).1 = (get_portal env L).1
    ∧ (∀ M : portal_level,
        (get_portal env M).2 = { M with entered_portal_active_ := false }
        ∧ (M.entered_portal_active_ = true → (get_portal env M).1 = some M.entered_portal_)
        ∧ (get_portal env (get_portal env M).2).2 = (get_portal env M).2) := by
  have hstate : ∀ M : portal_level,
      (get_portal env M).2 = { M with entered_portal_active_ := false } := by
    intro M
    unfold get_portal
    by_cases h : M.entered_portal_active_ = true
    · simp [h]
    · have hf : M.entered_portal_active_ = false := by simpa using h
      have hM : { M with entered_portal_active_ := false } = M := by
        cases M
        simp_all
      simp only [hf, Bool.false_eq_true, if_false, hM]
      cases M.player_ with
      | none => rfl
      | some player =>
        simp only
        split_ifs <;> rfl
  have hL : { L with entered_portal_active_ := false } = L := by
    cases L
    simp_all
  have h1 : (get_portal env L).2 = L := by rw [hstate, hL]
  refine ⟨h1, by rw [h1], ?_⟩
  intro M
  refine ⟨hstate M, ?_, ?_⟩
  · intro h
    unfold get_portal
    simp [h]
  · rw [hstate, hstate]

/-- Witness of C24 (as amended): on the sample level, where no forced portal is
pending and the player is far from the portal, two calls in a row return no
portal and leave the level as it is. -/
theorem C24_get_portal_pure_without_forced_portal_witness :
    sample_portals.entered_portal_active_ = false
    ∧ (get_portal sample_portal_env sample_portals).2 = sample_portals
    ∧ (get_portal sample_portal_env (get_portal sample_portal_env sample_portals).2).1
        = (get_portal sample_portal_env sample_portals).1 :=
  ⟨rfl,
   (C24_get_portal_pure_without_forced_portal sample_portal_env sample_portals rfl).1,
   (C24_get_portal_pure_without_forced_portal sample_portal_env sample_portals rfl).2.1⟩

/-- C24 fails as stated: on the sample level after
`force_enter_portal(p)`, the first call of `get_portal` returns p and clears
`entered_portal_active_`, and the second call, with no operation in between,
returns no portal. -/
theorem C24_counterexample :
    (get_portal sample_portal_env
      (force_enter_portal sample_portals
        (sample_portal "bonus" { x := 0, y := 0, w := 0, h := 0 }))).1
      = some (sample_portal "bonus" { x := 0, y := 0, w := 0, h := 0 })
    ∧ (get_portal sample_portal_env
        (get_portal sample_portal_env
          (force_enter_portal sample_portals
            (sample_portal "bonus" { x := 0, y := 0, w := 0, h := 0 }))).2).1 = none
    ∧ (force_enter_portal sample_portals
        (sample_portal "bonus" { x := 0, y := 0, w := 0, h := 0 })).entered_portal_active_ = true
    ∧ (get_portal sample_portal_env
        (force_enter_portal sample_portals
          (sample_portal "bonus" { x := 0, y := 0, w := 0, h := 0 }))).2.entered_portal_active_
        = false := by
  decide

/-! ## C28: the active subset -/

/-- C28 fails on the code when an inactive entity that dies on inactive shares
a group with an active one: in the sample registry, which satisfies the
invariant, "lamp" is on screen and "moth" is not. `set_active_chars` removes
"moth" from the live list and from the labels, but the bucket of the group,
which still holds "moth", is copied to the active subset: afterwards the
active subset holds the addresses 1 and 2 while the live list holds the
address 1 only. The active subset holds no entity twice. -/
theorem C28_dead_group_member_stays_active :
    registry_invariant sample_swarm
    ∧ ∃ L', set_active_chars sample_activity_env { x := 0, y := 0, w := 640, h := 480 }
          sample_swarm = .done L'
        ∧ L'.chars_.map (fun e => e.id) = [1]
        ∧ L'.chars_by_label_.map (fun kv => kv.1) = ["lamp"]
        ∧ L'.groups_.map (fun g => g.map (fun e => e.id)) = [[1, 2]]
        ∧ L'.active_chars_.map (fun e => (e.id, e.label)) = [(1, "lamp"), (2, "moth")]
        ∧ ∃ e ∈ L'.active_chars_, e ∉ L'.chars_ ∧ e.id ∉ L'.chars_.map (fun c => c.id) := by
  have hrun : set_active_chars sample_activity_env { x := 0, y := 0, w := 640, h := 480 }
      sample_swarm
      = .done { sample_swarm with
          chars_ := [{ sample_entity 1 "lamp" 10 10 with group := 0 }]
          chars_by_label_ := [("lamp", { sample_entity 1 "lamp" 10 10 with group := 0 })]
          active_chars_ := [{ sample_entity 1 "lamp" 10 10 with group := 0 },
                            { sample_entity 2 "moth" 5000 10 with group := 0, state := 1 }] } := by
    decide
  refine ⟨by decide, _, hrun, by decide, by decide, by decide, by decide, ?_⟩
  exact ⟨{ sample_entity 2 "moth" 5000 10 with group := 0, state := 1 }, by decide, by decide,
    by decide⟩

end Anura

namespace Anura

open level

/-! ## The active subset holds no entity twice -/

theorem unique_after_increasing :
    ∀ (l : List entity) (prev : entity), l.Pairwise (fun a b => a.id ≤ b.id) →
      (∀ b ∈ l, prev.id ≤ b.id) →
      (unique_after prev l).Pairwise (fun a b => a.id < b.id)
      ∧ ∀ b ∈ unique_after prev l, prev.id < b.id := by
  intro l
  induction l with
  | nil =>
    intro prev _ _
    simp [unique_after]
  | cons b rest ih =>
    intro prev hs hle
    rw [List.pairwise_cons] at hs
    unfold unique_after
    by_cases heq : prev.id = b.id
    · rw [if_pos heq]
      exact ih prev hs.2 (fun x hx => hle x (List.mem_cons_of_mem _ hx))
    · rw [if_neg heq]
      have hlt : prev.id < b.id := lt_of_le_of_ne (hle b (List.mem_cons_self _ _)) heq
      obtain ⟨r1, r2⟩ := ih b hs.2 hs.1
      refine ⟨List.pairwise_cons.2 ⟨r2, r1⟩, ?_⟩
      intro x hx
      rcases List.mem_cons.1 hx with e | e
      · rw [e]; exact hlt
      · exact lt_trans hlt (r2 x e)

theorem unique_pointers_nodup (l : List entity) (hs : l.Pairwise (fun a b => a.id ≤ b.id)) :
    ((unique_pointers l).map (fun e => e.id)).Nodup := by
  cases l with
  | nil => simp [unique_pointers]
  | cons a rest =>
    rw [List.pairwise_cons] at hs
    obtain ⟨r1, r2⟩ := unique_after_increasing rest a hs.2 hs.1
    unfold unique_pointers
    have hp : (a :: unique_after a rest).Pairwise (fun x y => x.id < y.id) :=
      List.pairwise_cons.2 ⟨r2, r1⟩
    rw [List.Nodup, List.pairwise_map]
    exact hp.imp (fun h => ne_of_lt h)

/-- Whenever `set_active_chars` returns, the active subset holds no entity
twice. -/
theorem set_active_chars_nodup (env : activity_env) (screen_area : rect) (L L' : level)
    (h : set_active_chars env screen_area L = .done L') :
    (L'.active_chars_.map (fun e => e.id)).Nodup := by
  unfold set_active_chars at h
  cases hloop : set_active_loop env screen_area L.chars_ (fun e => e) []
      { L with active_chars_ := [] } with
  | assertion_failed => rw [hloop] at h; cases h
  | out_of_fuel => rw [hloop] at h; cases h
  | done r =>
    rw [hloop] at h
    simp only [outcome.done.injEq] at h
    subst h
    simp only
    haveI : IsTotal entity (fun a b => a.id ≤ b.id) := ⟨fun a b => Nat.le_total a.id b.id⟩
    haveI : IsTrans entity (fun a b => a.id ≤ b.id) := ⟨fun a b c => Nat.le_trans⟩
    have hsorted : (List.insertionSort (fun a b : entity => a.id ≤ b.id) r.2.active_chars_).Pairwise
        (fun a b => a.id ≤ b.id) := List.sorted_insertionSort _ _
    have hnd := unique_pointers_nodup _ hsorted
    exact ((List.perm_insertionSort _ _).map _).nodup_iff.2 hnd

end Anura

namespace Anura

open level

/-! ## The order of the placed tiles -/

theorem zorder_pos_not_after_iff (a b : level_tile) :
    level_tile_zorder_pos_comparer b a = false ↔
      (a.zorder < b.zorder ∨ (a.zorder = b.zorder ∧ (a.y < b.y ∨ (a.y = b.y ∧ a.x ≤ b.x)))) := by
  unfold level_tile_zorder_pos_comparer
  rw [decide_eq_false_iff_not]
  omega

theorem zorder_pos_not_after_trans (a b c : level_tile)
    (h1 : level_tile_zorder_pos_comparer b a = false)
    (h2 : level_tile_zorder_pos_comparer c b = false) :
    level_tile_zorder_pos_comparer c a = false := by
  rw [zorder_pos_not_after_iff] at *
  omega

theorem zorder_pos_not_after_total (a b : level_tile) :
    level_tile_zorder_pos_comparer b a = false ∨ level_tile_zorder_pos_comparer a b = false := by
  rw [zorder_pos_not_after_iff, zorder_pos_not_after_iff]
  omega

theorem adjacent_find_eq_false {α : Type} (pred : α → α → Bool) (l : List α) :
    adjacent_find pred l = false ↔ l.Chain' (fun a b => pred a b = false) := by
  induction l with
  | nil => simp [adjacent_find]
  | cons a rest ih =>
    cases rest with
    | nil => simp [adjacent_find]
    | cons b tail =>
      unfold adjacent_find
      simp only [Bool.or_eq_false_iff, List.chain'_cons]
      rw [ih]

/-- The scan of adjacent pairs finds no descent exactly when the list is
sorted. -/
theorem adjacent_scan_iff_sorted (tiles : List level_tile) :
    adjacent_find level_tile_zorder_pos_comparer tiles.reverse = false ↔ tiles_sorted tiles := by
  haveI : IsTrans level_tile (fun a b => level_tile_zorder_pos_comparer b a = false) :=
    ⟨fun a b c h1 h2 => zorder_pos_not_after_trans a b c h1 h2⟩
  rw [adjacent_find_eq_false, List.chain'_reverse]
  unfold tiles_sorted
  rw [← List.chain'_iff_pairwise]
  rfl

/-- The scan of adjacent pairs followed by the conditional sort leaves the
list sorted, with the same tiles, and leaves it untouched when it was sorted. -/
theorem sort_tiles_if_unsorted_spec (tiles : List level_tile) :
    tiles_sorted (sort_tiles_if_unsorted tiles)
    ∧ (sort_tiles_if_unsorted tiles).Perm tiles
    ∧ (tiles_sorted tiles → sort_tiles_if_unsorted tiles = tiles) := by
  haveI : IsTrans level_tile (fun a b => level_tile_zorder_pos_comparer b a = false) :=
    ⟨fun a b c h1 h2 => zorder_pos_not_after_trans a b c h1 h2⟩
  haveI : IsTotal level_tile (fun a b => level_tile_zorder_pos_comparer b a = false) :=
    ⟨fun a b => zorder_pos_not_after_total a b⟩
  unfold sort_tiles_if_unsorted
  by_cases h : adjacent_find level_tile_zorder_pos_comparer tiles.reverse = true
  · rw [if_pos h]
    refine ⟨?_, ?_, ?_⟩
    · unfold tiles_sorted std_sort
      exact List.sorted_insertionSort _ _
    · unfold std_sort
      exact List.perm_insertionSort _ _
    · intro hs
      rw [← adjacent_scan_iff_sorted] at hs
      rw [hs] at h
      exact Bool.noConfusion h
  · have hf : adjacent_find level_tile_zorder_pos_comparer tiles.reverse = false := by
      simpa using h
    rw [if_neg h]
    exact ⟨(adjacent_scan_iff_sorted tiles).1 hf, List.Perm.refl _, fun _ => rfl⟩

/-- The last loop of `prepare_tiles_for_drawing` writes the flag
`draw_disabled` only, and keeps the tiles in their places. -/
theorem disable_obscured_tiles_keys (layer_speed : Int → Int × Int) :
    ∀ (l : List level_tile) (skipping : Option Int) (covered : List (Int × Int)),
      (disable_obscured_tiles layer_speed skipping covered l).map
          (fun t => { t with draw_disabled := false })
        = l.map (fun t => { t with draw_disabled := false }) := by
  intro l
  induction l with
  | nil =>
    intro skipping covered
    cases skipping <;> rfl
  | cons t rest ih =>
    intro skipping covered
    cases skipping with
    | none =>
      rw [disable_obscured_tiles]
      split_ifs <;> simp only [List.map_cons, ih]
    | some z =>
      rw [disable_obscured_tiles]
      split_ifs <;> simp only [List.map_cons, ih]

/-- Whether a list of tiles is sorted does not depend on the flags
`draw_disabled`. -/
theorem tiles_sorted_iff_keys (tiles : List level_tile) :
    tiles_sorted (tiles.map (fun t => { t with draw_disabled := false })) ↔ tiles_sorted tiles := by
  unfold tiles_sorted
  rw [List.pairwise_map]
  exact Iff.rfl

theorem prepare_tiles_keys (T : Int) (S : tile_store) :
    (prepare_tiles_for_drawing T S).tiles_.map (fun t => { t with draw_disabled := false })
      = S.tiles_.map (fun t => { t with draw_disabled := false }) := by
  unfold prepare_tiles_for_drawing
  simp only
  rw [List.map_reverse, disable_obscured_tiles_keys, ← List.map_reverse, List.reverse_reverse,
    List.map_map]
  apply List.map_congr_left
  intro t _
  simp only [Function.comp]
  split_ifs <;> rfl

theorem prepare_tiles_sorted (T : Int) (S : tile_store) (h : tiles_sorted S.tiles_) :
    tiles_sorted (prepare_tiles_for_drawing T S).tiles_ := by
  rw [← tiles_sorted_iff_keys, prepare_tiles_keys, tiles_sorted_iff_keys]
  exact h

/-- The last loop of `prepare_tiles_for_drawing` on samples. An opaque tile of
layer 1 at (0, 0) hides the tile of layer 0 at (0, 0) and not the one at
(32, 0). When the map of layer 1 does not move at speed 100, the tiles of
layer 1 are passed, and so is the tile of layer 0 on which the inner loop
stops: the opaque tile of layer 0 at (0, 0) is not recorded, and the tile of
layer -1 under it stays enabled. -/
theorem prepare_tiles_hides_obscured_tiles :
    (prepare_tiles_for_drawing 32
        (sample_store [sample_tile 1 0 0 0, sample_tile 2 0 32 0, sample_opaque_tile 3 1 0 0]
          level_solid_map.empty)).tiles_.map (fun t => (t.zorder, t.x, t.y, t.draw_disabled))
      = [(0, 0, 0, true), (0, 32, 0, false), (1, 0, 0, false)]
    ∧ (prepare_tiles_for_drawing 32
        { sample_store [sample_tile 1 (-1) 0 0, sample_opaque_tile 2 0 0 0, sample_tile 3 1 0 0]
            level_solid_map.empty with
          layer_speed := fun z => if z = 1 then (50, 100) else (100, 100) }).tiles_.map
          (fun t => (t.zorder, t.x, t.y, t.draw_disabled))
      = [(-1, 0, 0, false), (0, 0, 0, false), (1, 0, 0, false)]
    ∧ (prepare_tiles_for_drawing 32
        (sample_store [sample_tile 1 (-1) 0 0, sample_opaque_tile 2 0 0 0, sample_tile 3 1 0 0]
          level_solid_map.empty)).tiles_.map (fun t => (t.zorder, t.x, t.y, t.draw_disabled))
      = [(-1, 0, 0, true), (0, 0, 0, false), (1, 0, 0, false)] := by
  decide

theorem add_tile_solid_tiles (T : Int) (S : tile_store) (t : level_tile) :
    (add_tile_solid T S t).tiles_ = S.tiles_ := by
  unfold add_tile_solid
  have inner : ∀ (xs : List Int) (y : Int) (S1 : tile_store),
      (xs.foldl (fun S x =>
        let xpos := if ¬ t.face_right then t.object.width - x - 1 else x
        if (xpos, y) ∈ t.object.solid then
          if t.object.is_passthrough then
            { S with standable_ := (add_standable T S.standable_ (t.x + x) (t.y + y)
                 t.object.friction t.object.traction t.object.damage t.object.info) }
          else
            { S with solid_ := (add_solid T S.solid_ (t.x + x) (t.y + y)
                 t.object.friction t.object.traction t.object.damage t.object.info) }
        else S) S1).tiles_ = S1.tiles_ := by
    intro xs y
    induction xs with
    | nil => intro S1; rfl
    | cons x rest ih =>
      intro S1
      rw [List.foldl_cons, ih]
      simp only
      split_ifs <;> rfl
  have outer : ∀ (ys : List Int) (S1 : tile_store),
      (ys.foldl (fun S y => (loop_range 0 t.object.width).foldl (fun S x =>
        let xpos := if ¬ t.face_right then t.object.width - x - 1 else x
        if (xpos, y) ∈ t.object.solid then
          if t.object.is_passthrough then
            { S with standable_ := (add_standable T S.standable_ (t.x + x) (t.y + y)
                 t.object.friction t.object.traction t.object.damage t.object.info) }
          else
            { S with solid_ := (add_solid T S.solid_ (t.x + x) (t.y + y)
                 t.object.friction t.object.traction t.object.damage t.object.info) }
        else S) S) S1).tiles_ = S1.tiles_ := by
    intro ys
    induction ys with
    | nil => intro S1; rfl
    | cons y rest ih =>
      intro S1
      rw [List.foldl_cons, ih, inner]
  simp only
  by_cases h1 : t.zorder ≥ 1000
  · rw [if_pos h1]
  · rw [if_neg h1]
    by_cases h2 : t.object.all_solid = true
    · rw [if_pos h2]
    · rw [if_neg h2]
      by_cases h3 : t.object.has_solid = true
      · rw [if_pos h3]
        exact outer _ _
      · rw [if_neg h3]

theorem foldl_add_tile_solid_tiles (T : Int) (ts : List level_tile) :
    ∀ S : tile_store, (ts.foldl (add_tile_solid T) S).tiles_ = S.tiles_ := by
  induction ts with
  | nil => intro S; rfl
  | cons t rest ih =>
    intro S
    rw [List.foldl_cons, ih, add_tile_solid_tiles]

/-- After `complete_tiles_refresh` the placed tiles are sorted. -/
theorem complete_tiles_refresh_sorted (T : Int) (S : tile_store) :
    tiles_sorted (complete_tiles_refresh T S).tiles_ := by
  unfold complete_tiles_refresh
  apply prepare_tiles_sorted
  exact (sort_tiles_if_unsorted_spec _).1

/-- After `rebuild_tiles` the placed tiles are sorted, when they were sorted
before or tile updates are not frozen. -/
theorem rebuild_tiles_sorted (env : tile_env) (T : Int) (S : tile_store)
    (h : tiles_sorted S.tiles_ ∨ S.editor_tile_updates_frozen_ = 0) :
    tiles_sorted (rebuild_tiles env T S).tiles_ := by
  unfold rebuild_tiles
  by_cases hf : S.editor_tile_updates_frozen_ ≠ 0
  · rw [if_pos hf]
    rcases h with h | h
    · exact h
    · exact absurd h hf
  · rw [if_neg hf]
    exact complete_tiles_refresh_sorted T _

/-- After `rebuild_tiles_rect` the placed tiles are sorted, when they were
sorted before or tile updates are not frozen. -/
theorem rebuild_tiles_rect_sorted (env : tile_env) (T : Int) (S : tile_store) (r : rect)
    (h : tiles_sorted S.tiles_ ∨ S.editor_tile_updates_frozen_ = 0) :
    tiles_sorted (rebuild_tiles_rect env T S r).tiles_ := by
  unfold rebuild_tiles_rect
  by_cases hf : S.editor_tile_updates_frozen_ ≠ 0
  · rw [if_pos hf]
    rcases h with h | h
    · exact h
    · exact absurd h hf
  · rw [if_neg hf]
    apply prepare_tiles_sorted
    exact (sort_tiles_if_unsorted_spec _).1

/-- Removing tiles from a sorted list leaves it sorted. -/
theorem remove_tiles_at_sorted (T : Int) (S : tile_store) (x y : Int)
    (h : tiles_sorted S.tiles_) : tiles_sorted (remove_tiles_at T S x y).1.tiles_ := by
  unfold remove_tiles_at
  apply prepare_tiles_sorted
  exact List.Pairwise.sublist (List.filter_sublist _) h

theorem start_rebuild_tiles (S : tile_store) (layers : List Int) :
    (start_rebuild_tiles_in_background S layers).tiles_ = S.tiles_ := by
  unfold start_rebuild_tiles_in_background
  simp only
  split_ifs <;> rfl

/-- After `complete_rebuild_tiles_in_background` the placed tiles are sorted,
when they were sorted before. -/
theorem complete_rebuild_sorted (T : Int) (S : tile_store) (h : tiles_sorted S.tiles_) :
    tiles_sorted (complete_rebuild_tiles_in_background T S).tiles_ := by
  unfold complete_rebuild_tiles_in_background
  by_cases h1 : ¬ S.info.tile_rebuild_in_progress = true
  · simp only [h1, not_false_eq_true, if_true]
    exact h
  · by_cases h2 : ¬ S.info.tile_rebuild_complete = true
    · simp only [h1, h2, not_false_eq_true, if_true, if_false]
      exact h
    · simp only [h1, h2, if_false]
      split_ifs <;> exact complete_tiles_refresh_sorted T _

/-! ## C21: the order of the placed tiles after `add_tile` -/

/-- C21 fails on the code for `add_tile`, which looks for the place of the new
tile by zorder alone and runs no check of the order afterwards: the tile list
[(0, 0), (32, 0)] of layer 0 is sorted; after `add_tile` of a tile of layer 0
at (0, 32) the list is [(0, 32), (0, 0), (32, 0)], which is not sorted by
(zorder, position): the scan of adjacent pairs finds a descent, and the
conditional sort would move the new tile to the end. -/
theorem C21_add_tile_breaks_the_order :
    tiles_sorted (sample_store [sample_tile 1 0 0 0, sample_tile 2 0 32 0]
        level_solid_map.empty).tiles_
    ∧ (add_tile 32 (sample_store [sample_tile 1 0 0 0, sample_tile 2 0 32 0]
          level_solid_map.empty) (sample_tile 3 0 0 32)).tiles_.map (fun t => (t.zorder, t.x, t.y))
        = [(0, 0, 32), (0, 0, 0), (0, 32, 0)]
    ∧ ¬ tiles_sorted (add_tile 32 (sample_store [sample_tile 1 0 0 0, sample_tile 2 0 32 0]
          level_solid_map.empty) (sample_tile 3 0 0 32)).tiles_
    ∧ adjacent_find level_tile_zorder_pos_comparer
        (add_tile 32 (sample_store [sample_tile 1 0 0 0, sample_tile 2 0 32 0]
          level_solid_map.empty) (sample_tile 3 0 0 32)).tiles_.reverse = true
    ∧ (sort_tiles_if_unsorted
        (add_tile 32 (sample_store [sample_tile 1 0 0 0, sample_tile 2 0 32 0]
          level_solid_map.empty) (sample_tile 3 0 0 32)).tiles_).map (fun t => (t.zorder, t.x, t.y))
        = [(0, 0, 0), (0, 32, 0), (0, 0, 32)] := by
  refine ⟨by decide, by decide, by decide, by decide, by decide⟩

/-! ## C22: the incremental rebuild of a rectangle -/

/-- C22 fails on the code for a rectangle whose origin is not on the tile
grid. With TileSize = 32, no tile generated and the cells (-2, 0) to (1, 0)
uniformly solid: (1) `rebuild_tiles_rect` of the rectangle (16, 0, 32, 32),
which holds the pixel (32, 0) of cell (1, 0), erases the record of cell (0, 0)
only, and cell (1, 0) keeps its record; (2) `rebuild_tiles_rect` of the
rectangle (-48, 0, 16, 32), which lies inside cell (-2, 0), erases the record
of cell (-1, 0), which it does not overlap, and cell (-2, 0) keeps its
record. On the aligned rectangle (0, 0, 64, 32) the cells (0, 0) and (1, 0)
are erased and the others are kept. -/
theorem C22_rebuild_rect_off_grid :
    ((sample_ground (-3, 0)).isSome = false ∧ (sample_ground (-2, 0)).isSome = true
      ∧ (sample_ground (-1, 0)).isSome = true ∧ (sample_ground (0, 0)).isSome = true
      ∧ (sample_ground (1, 0)).isSome = true ∧ (sample_ground (2, 0)).isSome = false)
    ∧ (point_in_rect 32 0 { x := 16, y := 0, w := 32, h := 32 } = true
      ∧ ((cell_and_offset 32 32).1, (cell_and_offset 32 0).1) = ((1 : Int), (0 : Int))
      ∧ ((rebuild_tiles_rect sample_tile_env 32 (sample_store [] sample_ground)
            { x := 16, y := 0, w := 32, h := 32 }).solid_ (1, 0)).isSome = true
      ∧ ((rebuild_tiles_rect sample_tile_env 32 (sample_store [] sample_ground)
            { x := 16, y := 0, w := 32, h := 32 }).solid_ (0, 0)) = none)
    ∧ (point_in_rect (-48) 0 { x := -48, y := 0, w := 16, h := 32 } = true
      ∧ ((cell_and_offset 32 (-48)).1, (cell_and_offset 32 0).1) = ((-2 : Int), (0 : Int))
      ∧ ((cell_and_offset 32 (-33)).1, (cell_and_offset 32 31).1) = ((-2 : Int), (0 : Int))
      ∧ ((rebuild_tiles_rect sample_tile_env 32 (sample_store [] sample_ground)
            { x := -48, y := 0, w := 16, h := 32 }).solid_ (-2, 0)).isSome = true
      ∧ ((rebuild_tiles_rect sample_tile_env 32 (sample_store [] sample_ground)
            { x := -48, y := 0, w := 16, h := 32 }).solid_ (-1, 0)) = none)
    ∧ (((rebuild_tiles_rect sample_tile_env 32 (sample_store [] sample_ground)
            { x := 0, y := 0, w := 64, h := 32 }).solid_ (0, 0)) = none
      ∧ ((rebuild_tiles_rect sample_tile_env 32 (sample_store [] sample_ground)
            { x := 0, y := 0, w := 64, h := 32 }).solid_ (1, 0)) = none
      ∧ ((rebuild_tiles_rect sample_tile_env 32 (sample_store [] sample_ground)
            { x := 0, y := 0, w := 64, h := 32 }).solid_ (-1, 0)).isSome = true) := by
  refine ⟨by decide, ⟨by decide, by decide, by decide, by decide⟩,
    ⟨by decide, by decide, by decide, by decide, by decide⟩, ⟨by decide, by decide, by decide⟩⟩

end Anura

namespace Anura

open level

/-! ## The incremental rebuild of a rectangle whose origin is on the grid -/

theorem mem_loop_range_step {step : Int} (hs : 0 < step) (lo hi v : Int) :
    v ∈ loop_range_step lo hi step ↔ ∃ k : Int, 0 ≤ k ∧ lo + k * step < hi ∧ v = lo + k * step := by
  unfold loop_range_step
  simp only [List.mem_map, List.mem_range]
  have key : ∀ k : Int, 0 ≤ k → (k < (hi - lo + step - 1) / step ↔ lo + k * step < hi) := by
    intro k _
    have h1 : k < (hi - lo + step - 1) / step ↔ k + 1 ≤ (hi - lo + step - 1) / step := by omega
    rw [h1, Int.le_ediv_iff_mul_le hs]
    constructor
    · intro h
      nlinarith
    · intro h
      nlinarith
  constructor
  · rintro ⟨k, hk, rfl⟩
    refine ⟨(k : Int), by omega, ?_, rfl⟩
    rw [← key _ (by omega)]
    omega
  · rintro ⟨k, hk0, hk, rfl⟩
    refine ⟨k.toNat, ?_, by rw [Int.toNat_of_nonneg hk0]⟩
    have := (key k hk0).2 hk
    omega

theorem foldl_erase_cells (cells : List (Int × Int)) (f : Int × Int → tile_pos) :
    ∀ (S : tile_store), ∃ m1 m2 : level_solid_map,
      cells.foldl (fun S p =>
          { S with solid_ := S.solid_.erase (f p), standable_ := S.standable_.erase (f p) }) S
        = { S with solid_ := m1, standable_ := m2 }
      ∧ (∀ q, m1 q = if q ∈ cells.map f then none else S.solid_ q)
      ∧ (∀ q, m2 q = if q ∈ cells.map f then none else S.standable_ q) := by
  induction cells with
  | nil =>
    intro S
    exact ⟨S.solid_, S.standable_, rfl, fun q => by simp, fun q => by simp⟩
  | cons p rest ih =>
    intro S
    obtain ⟨m1, m2, h0, h1, h2⟩ := ih
      { S with solid_ := S.solid_.erase (f p), standable_ := S.standable_.erase (f p) }
    refine ⟨m1, m2, ?_, ?_, ?_⟩
    · rw [List.foldl_cons, h0]
    · intro q
      rw [h1 q]
      simp only [List.map_cons, List.mem_cons, level_solid_map.erase]
      by_cases hq : q = f p
      · simp [hq]
      · by_cases hr : q ∈ rest.map f
        · simp [hq, hr]
        · simp [hq, hr]
    · intro q
      rw [h2 q]
      simp only [List.map_cons, List.mem_cons, level_solid_map.erase]
      by_cases hq : q = f p
      · simp [hq]
      · by_cases hr : q ∈ rest.map f
        · simp [hq, hr]
        · simp [hq, hr]

/-- When the origin of the rectangle lies on the tile grid, tile updates are
not frozen and the tile maps generate no tile for the rectangle,
`rebuild_tiles_rect` erases from both maps the records of exactly the cells
that hold a pixel of the rectangle, keeps every other record, and keeps of
the placed tiles the ones positioned outside the rectangle (sorted, and
prepared for drawing). -/
theorem rebuild_tiles_rect_on_grid (env : tile_env) (T : Int) (hT : 0 < T) (S : tile_store)
    (a b w h : Int) (hfrozen : S.editor_tile_updates_frozen_ = 0)
    (hnone : ∀ layer, env.build_tiles_rect layer { x := T * a, y := T * b, w := w, h := h } = []) :
    (∀ c : tile_pos,
      ((rebuild_tiles_rect env T S { x := T * a, y := T * b, w := w, h := h }).solid_ c
        = if a ≤ c.1 ∧ c.1 * T < T * a + w ∧ b ≤ c.2 ∧ c.2 * T < T * b + h then none
          else S.solid_ c)
      ∧ ((rebuild_tiles_rect env T S { x := T * a, y := T * b, w := w, h := h }).standable_ c
        = if a ≤ c.1 ∧ c.1 * T < T * a + w ∧ b ≤ c.2 ∧ c.2 * T < T * b + h then none
          else S.standable_ c))
    ∧ (rebuild_tiles_rect env T S { x := T * a, y := T * b, w := w, h := h }).tiles_
        = (prepare_tiles_for_drawing T { S with tiles_ := (sort_tiles_if_unsorted
            (S.tiles_.filter (fun t =>
              ¬ point_in_rect t.x t.y { x := T * a, y := T * b, w := w, h := h }))) }).tiles_ := by
  have hbuilt : env.tile_map_layers.foldl
      (fun tiles layer =>
        tiles ++ env.build_tiles_rect layer { x := T * a, y := T * b, w := w, h := h }) []
      = ([] : List level_tile) := by
    have : ∀ (ls : List Int) (acc : List level_tile), ls.foldl
        (fun tiles layer =>
          tiles ++ env.build_tiles_rect layer { x := T * a, y := T * b, w := w, h := h }) acc
        = acc := by
      intro ls
      induction ls with
      | nil => intro acc; rfl
      | cons l rest ih =>
        intro acc
        rw [List.foldl_cons, hnone, List.append_nil, ih]
    exact this _ _
  have hgrid := foldl_loop_grid
    (fun (S : tile_store) (y x : Int) =>
      { S with solid_ := S.solid_.erase (x.tdiv T, y.tdiv T),
               standable_ := S.standable_.erase (x.tdiv T, y.tdiv T) })
    (loop_range_step (T * b) (T * b + h) T) (loop_range_step (T * a) (T * a + w) T) S
  obtain ⟨m1, m2, hfold, hm1, hm2⟩ := foldl_erase_cells
    (loop_grid (loop_range_step (T * b) (T * b + h) T) (loop_range_step (T * a) (T * a + w) T))
    (fun p => (p.2.tdiv T, p.1.tdiv T)) S
  have hmem : ∀ c : tile_pos,
      c ∈ (loop_grid (loop_range_step (T * b) (T * b + h) T)
            (loop_range_step (T * a) (T * a + w) T)).map (fun p => (p.2.tdiv T, p.1.tdiv T))
        ↔ (a ≤ c.1 ∧ c.1 * T < T * a + w ∧ b ≤ c.2 ∧ c.2 * T < T * b + h) := by
    intro c
    simp only [List.mem_map, mem_loop_grid, mem_loop_range_step hT]
    constructor
    · rintro ⟨p, ⟨⟨ky, hky0, hky, hpy⟩, ⟨kx, hkx0, hkx, hpx⟩⟩, rfl⟩
      have ex : p.2 = T * (a + kx) := by rw [hpx]; ring
      have ey : p.1 = T * (b + ky) := by rw [hpy]; ring
      simp only
      rw [ex, ey, Int.mul_tdiv_cancel_left _ hT.ne', Int.mul_tdiv_cancel_left _ hT.ne']
      refine ⟨by omega, by nlinarith, by omega, by nlinarith⟩
    · rintro ⟨h1, h2, h3, h4⟩
      refine ⟨(T * c.2, T * c.1), ⟨⟨c.2 - b, by omega, by nlinarith, by ring⟩,
        ⟨c.1 - a, by omega, by nlinarith, by ring⟩⟩, ?_⟩
      simp only
      rw [Int.mul_tdiv_cancel_left _ hT.ne', Int.mul_tdiv_cancel_left _ hT.ne']
  unfold rebuild_tiles_rect
  rw [if_neg (by rw [hfrozen]; simp)]
  simp only [rect.x2, rect.y2, hbuilt, List.foldl_nil]
  unfold prepare_tiles_for_drawing
  simp only
  rw [hgrid, hfold]
  refine ⟨?_, rfl⟩
  intro c
  simp only
  rw [hm1 c, hm2 c]
  by_cases hc : a ≤ c.1 ∧ c.1 * T < T * a + w ∧ b ≤ c.2 ∧ c.2 * T < T * b + h
  · rw [if_pos ((hmem c).2 hc), if_pos ((hmem c).2 hc), if_pos hc, if_pos hc]
    exact ⟨rfl, rfl⟩
  · rw [if_neg (fun hm => hc ((hmem c).1 hm)), if_neg (fun hm => hc ((hmem c).1 hm)),
      if_neg hc, if_neg hc]
    exact ⟨rfl, rfl⟩

end Anura

namespace Anura

open level

/-! ## C23: the rebuild state machine -/

theorem unique_ints_spec (l : List Int) (hs : l.Pairwise (fun a b => a ≤ b)) :
    (unique_ints l).Pairwise (fun a b => a < b)
    ∧ (∀ x, x ∈ unique_ints l ↔ x ∈ l)
    ∧ (∀ x ∈ unique_ints l, ∀ y ∈ l, l.head? = some y → y ≤ x) := by
  induction l with
  | nil => simp [unique_ints]
  | cons a rest ih =>
    rw [List.pairwise_cons] at hs
    obtain ⟨i1, i2, _⟩ := ih hs.2
    cases rest with
    | nil => simp [unique_ints]
    | cons b tail =>
      unfold unique_ints
      by_cases hab : a = b
      · simp only [hab, if_true]
        refine ⟨i1, ?_, ?_⟩
        · intro x
          rw [i2 x]
          simp
        · intro x hx y _ hy
          simp only [List.head?_cons, Option.some.injEq] at hy
          subst hy
          rw [i2 x] at hx
          rcases List.mem_cons.1 hx with e | e
          · omega
          · have := hs.1 x (List.mem_cons_of_mem _ e)
            omega
      · simp only [hab, if_false]
        have hlt : ∀ x ∈ unique_ints (b :: tail), a < x := by
          intro x hx
          rw [i2 x] at hx
          have h1 := hs.1 x hx
          rcases List.mem_cons.1 hx with e | e
          · subst e
            omega
          · have h2 := (List.pairwise_cons.1 hs.2).1 x e
            have h3 := hs.1 b (List.mem_cons_self _ _)
            omega
        refine ⟨List.pairwise_cons.2 ⟨hlt, i1⟩, ?_, ?_⟩
        · intro x
          simp only [List.mem_cons, i2 x]
        · intro x hx y _ hy
          simp only [List.head?_cons, Option.some.injEq] at hy
          subst hy
          rcases List.mem_cons.1 hx with e | e
          · omega
          · exact le_of_lt (hlt x e)

/-- Sorting and removing repeated values leaves the same layers, in
increasing order, each once. -/
theorem sort_unique_spec (l : List Int) :
    (unique_ints (List.insertionSort (fun a b => a ≤ b) l)).Pairwise (fun a b => a < b)
    ∧ (unique_ints (List.insertionSort (fun a b => a ≤ b) l)).toFinset = l.toFinset
    ∧ ((unique_ints (List.insertionSort (fun a b => a ≤ b) l)) = [] ↔ l = []) := by
  have hsorted : (List.insertionSort (fun a b : Int => a ≤ b) l).Pairwise (fun a b => a ≤ b) :=
    List.sorted_insertionSort _ _
  obtain ⟨u1, u2, _⟩ := unique_ints_spec _ hsorted
  have hmem : ∀ x, x ∈ unique_ints (List.insertionSort (fun a b => a ≤ b) l) ↔ x ∈ l := by
    intro x
    rw [u2 x]
    exact (List.perm_insertionSort _ _).mem_iff
  refine ⟨u1, ?_, ?_⟩
  · ext x
    simp only [List.mem_toFinset, hmem x]
  · constructor
    · intro h
      cases l with
      | nil => rfl
      | cons a rest =>
        have := (hmem a).2 (List.mem_cons_self _ _)
        rw [h] at this
        simp at this
    · intro h
      subst h
      rfl

/-- The pending buffer after the merge at the top of a request is sorted and
free of repeated values, when it was before. -/
theorem merge_rebuild_layers_sorted (info : level_tile_rebuild_info) (layers : List Int)
    (h : info.rebuild_tile_layers_buffer.Pairwise (fun a b => a < b)) :
    (merge_rebuild_layers info layers).Pairwise (fun a b => a < b) := by
  unfold merge_rebuild_layers
  split_ifs
  · exact (sort_unique_spec _).1
  · exact List.Pairwise.nil
  · exact h

theorem add_tile_solid_info (T : Int) (S : tile_store) (t : level_tile) :
    (add_tile_solid T S t).info = S.info ∧ (add_tile_solid T S t).live_threads = S.live_threads := by
  unfold add_tile_solid
  have inner : ∀ (xs : List Int) (y : Int) (S1 : tile_store),
      (xs.foldl (fun S x =>
        let xpos := if ¬ t.face_right then t.object.width - x - 1 else x
        if (xpos, y) ∈ t.object.solid then
          if t.object.is_passthrough then
            { S with standable_ := (add_standable T S.standable_ (t.x + x) (t.y + y)
                 t.object.friction t.object.traction t.object.damage t.object.info) }
          else
            { S with solid_ := (add_solid T S.solid_ (t.x + x) (t.y + y)
                 t.object.friction t.object.traction t.object.damage t.object.info) }
        else S) S1).info = S1.info
      ∧ (xs.foldl (fun S x =>
        let xpos := if ¬ t.face_right then t.object.width - x - 1 else x
        if (xpos, y) ∈ t.object.solid then
          if t.object.is_passthrough then
            { S with standable_ := (add_standable T S.standable_ (t.x + x) (t.y + y)
                 t.object.friction t.object.traction t.object.damage t.object.info) }
          else
            { S with solid_ := (add_solid T S.solid_ (t.x + x) (t.y + y)
                 t.object.friction t.object.traction t.object.damage t.object.info) }
        else S) S1).live_threads = S1.live_threads := by
    intro xs y
    induction xs with
    | nil => intro S1; exact ⟨rfl, rfl⟩
    | cons x rest ih =>
      intro S1
      rw [List.foldl_cons, (ih _).1, (ih _).2]
      simp only
      split_ifs <;> exact ⟨rfl, rfl⟩
  have outer : ∀ (ys : List Int) (S1 : tile_store),
      (ys.foldl (fun S y => (loop_range 0 t.object.width).foldl (fun S x =>
        let xpos := if ¬ t.face_right then t.object.width - x - 1 else x
        if (xpos, y) ∈ t.object.solid then
          if t.object.is_passthrough then
            { S with standable_ := (add_standable T S.standable_ (t.x + x) (t.y + y)
                 t.object.friction t.object.traction t.object.damage t.object.info) }
          else
            { S with solid_ := (add_solid T S.solid_ (t.x + x) (t.y + y)
                 t.object.friction t.object.traction t.object.damage t.object.info) }
        else S) S) S1).info = S1.info
      ∧ (ys.foldl (fun S y => (loop_range 0 t.object.width).foldl (fun S x =>
        let xpos := if ¬ t.face_right then t.object.width - x - 1 else x
        if (xpos, y) ∈ t.object.solid then
          if t.object.is_passthrough then
            { S with standable_ := (add_standable T S.standable_ (t.x + x) (t.y + y)
                 t.object.friction t.object.traction t.object.damage t.object.info) }
          else
            { S with solid_ := (add_solid T S.solid_ (t.x + x) (t.y + y)
                 t.object.friction t.object.traction t.object.damage t.object.info) }
        else S) S) S1).live_threads = S1.live_threads := by
    intro ys
    induction ys with
    | nil => intro S1; exact ⟨rfl, rfl⟩
    | cons y rest ih =>
      intro S1
      rw [List.foldl_cons, (ih _).1, (ih _).2]
      exact inner _ _ _
  simp only
  by_cases h1 : t.zorder ≥ 1000
  · rw [if_pos h1]
    exact ⟨rfl, rfl⟩
  · rw [if_neg h1]
    by_cases h2 : t.object.all_solid = true
    · rw [if_pos h2]
      exact ⟨rfl, rfl⟩
    · rw [if_neg h2]
      by_cases h3 : t.object.has_solid = true
      · rw [if_pos h3]
        exact outer _ _
      · rw [if_neg h3]
        exact ⟨rfl, rfl⟩

theorem foldl_add_tile_solid_info (T : Int) (ts : List level_tile) :
    ∀ S : tile_store, (ts.foldl (add_tile_solid T) S).info = S.info
      ∧ (ts.foldl (add_tile_solid T) S).live_threads = S.live_threads := by
  induction ts with
  | nil => intro S; exact ⟨rfl, rfl⟩
  | cons t rest ih =>
    intro S
    rw [List.foldl_cons, (ih _).1, (ih _).2]
    exact add_tile_solid_info T S t

/-- The refresh of the tiles does not touch the rebuild record. -/
theorem complete_tiles_refresh_info (T : Int) (S : tile_store) :
    (complete_tiles_refresh T S).info = S.info
    ∧ (complete_tiles_refresh T S).live_threads = S.live_threads := by
  unfold complete_tiles_refresh prepare_tiles_for_drawing
  simp only
  exact foldl_add_tile_solid_info T S.tiles_ _

/-- A request made while no rebuild is in progress starts the one worker. -/
theorem start_idle_invariant (S : tile_store) (layers : List Int)
    (hidle : S.info.tile_rebuild_in_progress = false) (hlive : S.live_threads = 0) :
    rebuild_invariant (start_rebuild_tiles_in_background S layers) := by
  unfold start_rebuild_tiles_in_background rebuild_invariant
  simp [hidle, hlive]

/-- A request made while a rebuild is in progress is queued. -/
theorem start_busy_invariant (S : tile_store) (layers : List Int)
    (hbusy : S.info.tile_rebuild_in_progress = true) (hinv : rebuild_invariant S) :
    rebuild_invariant (start_rebuild_tiles_in_background S layers) := by
  obtain ⟨_, h2, h3, h4⟩ := hinv
  unfold start_rebuild_tiles_in_background rebuild_invariant
  simp only [hbusy, if_true]
  refine ⟨by simp, by simp [hbusy], h3, merge_rebuild_layers_sorted _ _ h4⟩

/-- Every event of the state machine keeps the invariant. -/
theorem rebuild_event_invariant (env : tile_env) (T : Int) (S : tile_store) (e : rebuild_event)
    (hinv : rebuild_invariant S) : rebuild_invariant (e.run env T S) := by
  have hinv0 := hinv
  obtain ⟨h1, h2, h3, h4⟩ := hinv
  cases e with
  | start layers =>
    show rebuild_invariant (start_rebuild_tiles_in_background S layers)
    by_cases hb : S.info.tile_rebuild_in_progress = true
    · exact start_busy_invariant S layers hb hinv0
    · have hb' : S.info.tile_rebuild_in_progress = false := by simpa using hb
      have ht : S.info.rebuild_tile_thread = false := by
        by_contra hne
        have : S.info.rebuild_tile_thread = true := by simpa using hne
        exact hb (h2 this)
      exact start_idle_invariant S layers hb' (by rw [h3, ht]; rfl)
  | freeze =>
    show rebuild_invariant (freeze_rebuild_tiles_in_background S)
    unfold freeze_rebuild_tiles_in_background rebuild_invariant
    exact ⟨h1, fun _ => rfl, h3, h4⟩
  | unfreeze =>
    show rebuild_invariant (unfreeze_rebuild_tiles_in_background S)
    unfold unfreeze_rebuild_tiles_in_background
    by_cases ht : S.info.rebuild_tile_thread = true
    · rw [if_pos ht]
      exact hinv0
    · rw [if_neg ht]
      have ht' : S.info.rebuild_tile_thread = false := by simpa using ht
      exact start_idle_invariant _ _ rfl (by rw [h3, ht']; rfl)
  | complete =>
    show rebuild_invariant (complete_rebuild_tiles_in_background T S)
    unfold complete_rebuild_tiles_in_background
    by_cases hp : ¬ S.info.tile_rebuild_in_progress = true
    · rw [if_pos hp]
      exact hinv0
    · rw [if_neg hp]
      by_cases hc : ¬ S.info.tile_rebuild_complete = true
      · rw [if_pos hc]
        exact hinv0
      · rw [if_neg hc]
        simp only
        have hlive : (if S.info.rebuild_tile_thread = true then S.live_threads - 1
            else S.live_threads) = 0 := by
          rw [h3]
          by_cases ht : S.info.rebuild_tile_thread = true
          · simp [ht]
          · simp [ht]
        by_cases hw : S.info.rebuild_tile_layers_worker_buffer.isEmpty = true
        · simp only [hw, if_true]
          rw [(complete_tiles_refresh_info T _).1, (complete_tiles_refresh_info T _).2]
          simp only [hlive]
          by_cases hq : S.info.tile_rebuild_queued = true
          · simp only [hq, if_true]
            exact start_idle_invariant _ _ rfl rfl
          · have hq' : S.info.tile_rebuild_queued = false := by simpa using hq
            simp only [hq', Bool.false_eq_true, if_false]
            exact ⟨fun _ => h1 hq', fun h => Bool.noConfusion h, rfl, h4⟩
        · simp only [hw, Bool.false_eq_true, if_false]
          have hfold : ∀ (ls : List Int) (S1 : tile_store),
              (ls.foldl (fun S layer =>
                { S with tiles_ := S.tiles_.filter (fun t => ¬ (t.layer_from = layer)) }) S1).info
                = S1.info
              ∧ (ls.foldl (fun S layer =>
                { S with tiles_ := S.tiles_.filter (fun t => ¬ (t.layer_from = layer)) }) S1).live_threads
                = S1.live_threads := by
            intro ls
            induction ls with
            | nil => intro S1; exact ⟨rfl, rfl⟩
            | cons l rest ih =>
              intro S1
              rw [List.foldl_cons, (ih _).1, (ih _).2]
              exact ⟨rfl, rfl⟩
          rw [(complete_tiles_refresh_info T _).1, (complete_tiles_refresh_info T _).2]
          simp only [(hfold _ _).1, (hfold _ _).2, hlive]
          by_cases hq : S.info.tile_rebuild_queued = true
          · simp only [hq, if_true]
            exact start_idle_invariant _ _ rfl rfl
          · have hq' : S.info.tile_rebuild_queued = false := by simpa using hq
            simp only [hq', Bool.false_eq_true, if_false]
            exact ⟨fun _ => h1 hq', fun h => Bool.noConfusion h, rfl, h4⟩
  | worker_finished =>
    show rebuild_invariant (if S.info.rebuild_tile_thread then
        { S with info := build_tiles_thread_function env S.info } else S)
    by_cases ht : S.info.rebuild_tile_thread = true
    · rw [if_pos ht]
      unfold build_tiles_thread_function rebuild_invariant
      exact ⟨h1, h2, h3, h4⟩
    · rw [if_neg ht]
      exact hinv0

/-- Every state that the machine reaches from a state with the invariant has
the invariant. -/
theorem run_rebuild_events_invariant (env : tile_env) (T : Int) (events : List rebuild_event) :
    ∀ S : tile_store, rebuild_invariant S →
      rebuild_invariant (run_rebuild_events env T S events) := by
  induction events with
  | nil => intro S h; exact h
  | cons e rest ih =>
    intro S h
    unfold run_rebuild_events
    rw [List.foldl_cons]
    exact ih _ (rebuild_event_invariant env T S e h)

/-- The pending request after a request made while a rebuild is in progress is
the union of the pending request and the new one. -/
theorem start_busy_pending (S : tile_store) (layers : List Int)
    (hbusy : S.info.tile_rebuild_in_progress = true) (hinv : rebuild_invariant S) :
    (start_rebuild_tiles_in_background S layers).info.pending
      = some (layer_request.union S.info.pending (layer_request.of_list layers)) := by
  obtain ⟨h1, _, _, _⟩ := hinv
  unfold start_rebuild_tiles_in_background level_tile_rebuild_info.pending
  simp only [hbusy, if_true]
  unfold merge_rebuild_layers layer_request.of_list
  cases hl : layers with
  | nil =>
    simp only [List.isEmpty_nil, Bool.true_eq_false, false_and, if_false, if_true]
    by_cases hq : S.info.tile_rebuild_queued = true
    · simp only [hq, if_true]
      by_cases hb : S.info.rebuild_tile_layers_buffer.isEmpty = true
      · simp [hb, layer_request.union]
      · simp [hb, layer_request.union]
    · simp [hq, layer_request.union]
  | cons a rest =>
    rw [← hl]
    have hne : layers ≠ [] := by rw [hl]; simp
    have hle : layers.isEmpty = false := by rw [hl]; rfl
    by_cases hq : S.info.tile_rebuild_queued = true
    · by_cases hb : S.info.rebuild_tile_layers_buffer = []
      · simp [hq, hb, hle, layer_request.union]
      · have hbe : S.info.rebuild_tile_layers_buffer.isEmpty = false := by
          cases hbb : S.info.rebuild_tile_layers_buffer with
          | nil => exact absurd hbb hb
          | cons _ _ => rfl
        have hsu := sort_unique_spec (S.info.rebuild_tile_layers_buffer ++ layers)
        have hnil : ¬ unique_ints (List.insertionSort (fun a b => a ≤ b)
            (S.info.rebuild_tile_layers_buffer ++ layers)) = [] := by
          rw [hsu.2.2]
          simp [hb]
        have hemp : (unique_ints (List.insertionSort (fun a b => a ≤ b)
            (S.info.rebuild_tile_layers_buffer ++ layers))).isEmpty = false := by
          cases hu : unique_ints (List.insertionSort (fun a b => a ≤ b)
            (S.info.rebuild_tile_layers_buffer ++ layers)) with
          | nil => exact absurd hu hnil
          | cons _ _ => rfl
        simp only [hq, hbe, hle, not_true_eq_false, false_or, and_self, if_true, hemp,
          Bool.false_eq_true, if_false, layer_request.union, hsu.2.1, List.toFinset_append]
    · have hq' : S.info.tile_rebuild_queued = false := by simpa using hq
      have hb := h1 hq'
      have hsu := sort_unique_spec layers
      have hnil : ¬ unique_ints (List.insertionSort (fun a b => a ≤ b) layers) = [] := by
        rw [hsu.2.2]
        exact hne
      have hemp : (unique_ints (List.insertionSort (fun a b => a ≤ b) layers)).isEmpty = false := by
        cases hu : unique_ints (List.insertionSort (fun a b => a ≤ b) layers) with
        | nil => exact absurd hu hnil
        | cons _ _ => rfl
      simp only [hq', hb, hle, Bool.false_eq_true, not_false_eq_true, true_or, and_self, if_true,
        hemp, if_false, layer_request.union, hsu.2.1, List.nil_append]

/-- C23: in every state that the rebuild state machine reaches from the initial
record by calls of `start_rebuild_tiles_in_background`,
`freeze_rebuild_tiles_in_background`, `unfreeze_rebuild_tiles_in_background`
and `complete_rebuild_tiles_in_background` and by the worker reaching its end:
a call of `start_rebuild_tiles_in_background` made while a rebuild is in
progress starts no worker, leaves the worker's layer buffer as it is, marks
the request queued, and makes the pending request the union of the pending
request and the new one (an empty layer list standing for all layers); after
every call the pending buffer is sorted and free of repeated values; and at
most one worker exists, before and after the call. -/
theorem C23_rebuild_requests_are_coalesced (env : tile_env) (T : Int) (S0 : tile_store)
    (events : List rebuild_event) (layers : List Int)
    (hinfo : S0.info = level_tile_rebuild_info.initial) (hlive : S0.live_threads = 0) :
    (((run_rebuild_events env T S0 events).info.tile_rebuild_in_progress = true →
        (start_rebuild_tiles_in_background (run_rebuild_events env T S0 events) layers).live_threads
            = (run_rebuild_events env T S0 events).live_threads
        ∧ (start_rebuild_tiles_in_background (run_rebuild_events env T S0 events)
              layers).info.rebuild_tile_thread
            = (run_rebuild_events env T S0 events).info.rebuild_tile_thread
        ∧ (start_rebuild_tiles_in_background (run_rebuild_events env T S0 events)
              layers).info.rebuild_tile_layers_worker_buffer
            = (run_rebuild_events env T S0 events).info.rebuild_tile_layers_worker_buffer
        ∧ (start_rebuild_tiles_in_background (run_rebuild_events env T S0 events)
              layers).info.tile_rebuild_queued = true
        ∧ (start_rebuild_tiles_in_background (run_rebuild_events env T S0 events)
              layers).info.pending
            = some (layer_request.union (run_rebuild_events env T S0 events).info.pending
                (layer_request.of_list layers))))
    ∧ (start_rebuild_tiles_in_background (run_rebuild_events env T S0 events)
          layers).info.rebuild_tile_layers_buffer.Pairwise (fun a b => a < b)
    ∧ (run_rebuild_events env T S0 events).live_threads ≤ 1
    ∧ (start_rebuild_tiles_in_background (run_rebuild_events env T S0 events)
          layers).live_threads ≤ 1 := by
  have h0 : rebuild_invariant S0 := by
    unfold rebuild_invariant
    rw [hinfo, hlive]
    exact ⟨fun _ => rfl, fun h => Bool.noConfusion h, rfl, List.Pairwise.nil⟩
  have hS := run_rebuild_events_invariant env T events S0 h0
  have hS' := rebuild_event_invariant env T _ (.start layers) hS
  have hle : ∀ S : tile_store, rebuild_invariant S → S.live_threads ≤ 1 := by
    intro S h
    rw [h.2.2.1]
    split_ifs <;> omega
  refine ⟨?_, hS'.2.2.2, hle _ hS, hle _ hS'⟩
  intro hbusy
  refine ⟨?_, ?_, ?_, ?_, start_busy_pending _ layers hbusy hS⟩
  · unfold start_rebuild_tiles_in_background
    simp only [hbusy, if_true]
  · unfold start_rebuild_tiles_in_background
    simp only [hbusy, if_true]
  · unfold start_rebuild_tiles_in_background
    simp only [hbusy, if_true]
  · unfold start_rebuild_tiles_in_background
    simp only [hbusy, if_true]

/-- Witness of C23: from the initial record, a request for the layers 3 and 1
starts the worker; a request for the layers 5 and 3 and a request for the
layers 1 and 2, made while it runs, are queued as the pending layers
1, 2, 3, 5, and a request for all layers then replaces them. -/
theorem C23_rebuild_requests_are_coalesced_witness :
    (sample_store [] level_solid_map.empty).info = level_tile_rebuild_info.initial
    ∧ (run_rebuild_events sample_tile_env 32 (sample_store [] level_solid_map.empty)
        [.start [3, 1], .start [5, 3]]).info.tile_rebuild_in_progress = true
    ∧ (run_rebuild_events sample_tile_env 32 (sample_store [] level_solid_map.empty)
        [.start [3, 1], .start [5, 3]]).info.rebuild_tile_layers_buffer = [3, 5]
    ∧ (start_rebuild_tiles_in_background
        (run_rebuild_events sample_tile_env 32 (sample_store [] level_solid_map.empty)
          [.start [3, 1], .start [5, 3]]) [1, 2]).info.pending
        = some (layer_request.union
            (run_rebuild_events sample_tile_env 32 (sample_store [] level_solid_map.empty)
              [.start [3, 1], .start [5, 3]]).info.pending (layer_request.of_list [1, 2]))
    ∧ (start_rebuild_tiles_in_background
        (run_rebuild_events sample_tile_env 32 (sample_store [] level_solid_map.empty)
          [.start [3, 1], .start [5, 3]]) [1, 2]).info.rebuild_tile_layers_buffer = [1, 2, 3, 5]
    ∧ (start_rebuild_tiles_in_background
        (run_rebuild_events sample_tile_env 32 (sample_store [] level_solid_map.empty)
          [.start [3, 1], .start [5, 3]]) [1, 2]).info.rebuild_tile_layers_worker_buffer = [1, 3]
    ∧ (start_rebuild_tiles_in_background
        (run_rebuild_events sample_tile_env 32 (sample_store [] level_solid_map.empty)
          [.start [3, 1], .start [5, 3]]) [1, 2]).live_threads = 1
    ∧ (start_rebuild_tiles_in_background
        (run_rebuild_events sample_tile_env 32 (sample_store [] level_solid_map.empty)
          [.start [3, 1], .start [5, 3], .start [1, 2]]) []).info.pending = some .all := by
  have h := C23_rebuild_requests_are_coalesced sample_tile_env 32
    (sample_store [] level_solid_map.empty) [.start [3, 1], .start [5, 3]] [1, 2] rfl rfl
  have hbusy : (run_rebuild_events sample_tile_env 32 (sample_store [] level_solid_map.empty)
      [.start [3, 1], .start [5, 3]]).info.tile_rebuild_in_progress = true := by decide
  exact ⟨rfl, hbusy, by decide, (h.1 hbusy).2.2.2.2, by decide, by decide, by decide, by decide⟩

end Anura

namespace Anura

open level

/-! ## C29: the round trip of the compiled tiles -/

/-- C29 fails on the code for tiles stacked at one position: the writer emits
`~` for the first tile of a position only, and the reader gives every tile
that follows a `|` the facing "left". With TileSize = 32 and two tiles at
(0, 0) on layer 0, the first facing left and the second facing right, the
written node is "AAB|AAC," with `num_compiled_tiles` = 2, and both parsed
tiles face left. A single tile facing right, and two tiles facing right at
different positions, come back as written. -/
theorem C29_stacked_tile_loses_its_facing :
    tiles_sorted [sample_tile 1 0 0 0, { sample_tile 2 0 0 0 with face_right := true }]
    ∧ write_compiled_tiles sample_compiled_env 32
        [sample_tile 1 0 0 0, { sample_tile 2 0 0 0 with face_right := true }]
      = .done ([{ zorder := "0", x := 0, y := 0, tiles := ['A', 'A', 'B', '|', 'A', 'A', 'C', ','] }], 2)
    ∧ (∃ parsed, compiled_round_trip sample_compiled_env 32
          [sample_tile 1 0 0 0, { sample_tile 2 0 0 0 with face_right := true }] = .done parsed
        ∧ parsed.map (fun t => (t.x, t.y, t.zorder, t.object.id, t.face_right))
            = [(0, 0, 0, 1, false), (0, 0, 0, 2, false)])
    ∧ (∃ parsed, compiled_round_trip sample_compiled_env 32
          [{ sample_tile 1 0 0 0 with face_right := true },
           { sample_tile 2 0 64 32 with face_right := true }] = .done parsed
        ∧ parsed.map (fun t => (t.x, t.y, t.zorder, t.object.id, t.face_right))
            = [(0, 0, 0, 1, true), (64, 32, 0, 2, true)]) := by
  refine ⟨by decide, by decide, ⟨_, rfl, by decide⟩, ⟨_, rfl, by decide⟩⟩

end Anura
